import Mathlib

/-!
# nib: shallow embedding of the decoder and of the two interpreters

The definitions below follow `src/nib.c` and `src/nib.h` function by function.

* Values of type `uint32_t` / `uint8_t` are natural numbers; the operations that can
  leave the range in the C code (`++`, `--`, `+=`, `* 2`, `* 4`) are written with an
  explicit `% U32` or `% 256` (`toUint32`, `toUint8` for a value that may be negative).
  `inputIndex` and the local `loopCount` of the skip scan are incremented without a
  modulus: `inputIndex` never exceeds `inputSize` and `loopCount` never exceeds
  `inputSize + 1`, while `inputSize` is at most `2^32 - 2` (twice a file size that fits an
  `int32_t`), so these C increments never wrap.
* A heap block is the list of its elements.  `load` / `store` / `memset` check the block
  bounds; an access outside the block has no defined behaviour in C and the model stops
  there with `Fault.memoryFault`.
* The one read that the skip scan performs one element past the decoded buffer
  (`*(*inputData + ++(*inputIndex))` when the incremented index equals `inputSize`) yields
  the parameter `pastEnd`, the unknown byte stored there.
* Standard input is the list of the bytes still to be read, standard output the list of
  the bytes written so far.
-/

namespace Nib

/-! ## Constants of `nib.h` -/

/-- Number of values of a `uint32_t`. -/
def U32 : Nat := 4294967296

def LEFT_MASK : Nat := 0xF0

def RIGHT_MASK : Nat := 0x0F

def NIB_INCREMENT_POINTER : Nat := 3

def NIB_DECREMENT_POINTER : Nat := 6

def NIB_INCREMENT_VALUE : Nat := 2

def NIB_DECREMENT_VALUE : Nat := 5

def NIB_WRITE_VALUE : Nat := 0

def NIB_READ_VALUE : Nat := 7

def NIB_LOOP_START : Nat := 4

def NIB_LOOP_END : Nat := 1

/-! ## `decode` -/

/-- Body of the `for` loop of `decode`: every source byte appends
`(current & LEFT_MASK) >> 4u` and then `current & RIGHT_MASK` to the result. -/
def decodeLoop : List Nat → List Nat
  | [] => []
  | current :: rest =>
    ((current &&& LEFT_MASK) >>> 4) :: (current &&& RIGHT_MASK) :: decodeLoop rest

/-- Function `decode` of nib.c.  `resultSize = sourceSize * 2` is a `uint32_t` product and
the result buffer is `malloc(resultSize)`; the loop writes two bytes per source byte.
The value is `none` when those writes do not fit the buffer, and otherwise the returned
size together with the decoded buffer. -/
def decode (source : List Nat) : Option (Nat × List Nat) :=
  let sourceSize := source.length
  let resultSize := (sourceSize * 2) % U32
  let result := decodeLoop source
  if result.length ≤ resultSize then some (resultSize, result) else none

/-! ## Memory and console primitives -/

/-- Ways in which a run stops early.  The first three are the three `error(...)` calls of
the interpreters ("Data index out of bounds", "Unexpected end of loop", "Expected end of
loop"); `memoryFault` is an access outside an allocated block. -/
inductive Fault where
  | dataIndexOutOfBounds
  | unexpectedLoopEnd
  | unterminatedLoop
  | memoryFault
  deriving DecidableEq, Repr

/-- Read of element `i` of a heap block: `*(block + i)`. -/
def load (block : List Nat) (i : Nat) : Except Fault Nat :=
  match block[i]? with
  | some v => .ok v
  | none => .error .memoryFault

/-- Write of element `i` of a heap block: `*(block + i) = v`. -/
def store (block : List Nat) (i : Nat) (v : Nat) : Except Fault (List Nat) :=
  if i < block.length then .ok (block.set i v) else .error .memoryFault

/-- Content of the elements that `realloc` adds to a block: C leaves them indeterminate.
No result below depends on this value. -/
def indeterminate : Nat := 0xCD

/-- The block returned by `realloc(block, n elements)`: the old elements that fit are kept,
the added ones are indeterminate. -/
def realloc (block : List Nat) (n : Nat) : List Nat :=
  block.take n ++ List.replicate (n - block.length) indeterminate

/-- Call `memset(block + start, 0, n)` on a block of bytes. -/
def memset (block : List Nat) (start : Int) (n : Nat) : Except Fault (List Nat) :=
  if 0 ≤ start ∧ start + n ≤ block.length then
    .ok (block.take start.toNat ++ List.replicate n 0 ++ block.drop (start.toNat + n))
  else .error .memoryFault

/-- The four bytes of a `uint32_t`, least significant first. -/
def wordBytes (w : Nat) : List Nat :=
  [w % 256, w / 256 % 256, w / 65536 % 256, w / 16777216 % 256]

/-- The `uint32_t` elements stored in a list of bytes. -/
def bytesWords : List Nat → List Nat
  | b0 :: b1 :: b2 :: b3 :: rest =>
    (b0 + 256 * b1 + 65536 * b2 + 16777216 * b3) :: bytesWords rest
  | _ => []

/-- Call `memset(block + start, 0, n)` on a block of `uint32_t`: `start` counts
elements, `n` counts bytes. -/
def memsetWords (block : List Nat) (start : Int) (n : Nat) : Except Fault (List Nat) :=
  match memset (block.flatMap wordBytes) (4 * start) n with
  | .ok bytes => .ok (bytesWords bytes)
  | .error e => .error e

/-- Call `getchar()`: the next byte of standard input, or `EOF` (-1) at its end. -/
def getchar (stdin : List Nat) : Int × List Nat :=
  match stdin with
  | [] => (-1, [])
  | c :: rest => ((c : Int), rest)

/-- Conversion of an `int` to `uint8_t`. -/
def toUint8 (c : Int) : Nat := (c % 256).toNat

/-- Conversion of an integer to `uint32_t`; `--x` on a `uint32_t` is
`toUint32 (x - 1)`, and the initialiser `-1` is `toUint32 (-1)`. -/
def toUint32 (c : Int) : Nat := (c % 4294967296).toNat

/-! ## Interpreter state -/

/-- The variables that `run` hands to the interpreters, with the two heap blocks and the
console.  `loopStackShift` is the distance, in elements, between the pointer `*loopStack`
and the start of its heap block (0 after `calloc`). -/
structure State where
  inputIndex : Nat
  data : List Nat
  dataIndex : Nat
  dataSize : Nat
  loopStack : List Nat
  loopStackShift : Nat
  loopStackIndex : Nat
  loopStackSize : Nat
  stdin : List Nat
  stdout : List Nat
  deriving DecidableEq, Repr

/-- What one call of `parseInstruction` / `parseInstructionSafely` leaves behind: the
updated variables and the two output flags (both `false` on entry). -/
structure Parsed where
  state : State
  skipLoop : Bool
  inputIndexChanged : Bool
  deriving DecidableEq, Repr

/-- The state that `run` sets up: `calloc(memStepSize, 1)` for the data,
`calloc(memStepSize, 4)` for the loop stack, `loopStackIndex = -1` as a `uint32_t`. -/
def initialState (memStepSize : Nat) (stdin : List Nat) : State :=
  { inputIndex := 0
    data := List.replicate memStepSize 0
    dataIndex := 0
    dataSize := memStepSize
    loopStack := List.replicate memStepSize 0
    loopStackShift := 0
    loopStackIndex := toUint32 (-1)
    loopStackSize := memStepSize
    stdin := stdin
    stdout := [] }

/-! ## `parseInstruction` and `parseInstructionSafely` -/

/-- Case `NIB_INCREMENT_POINTER` (the same text in both functions):
`++dataIndex; if (dataIndex == dataSize) { data = realloc(data, dataSize += memStepSize);
memset(data + dataSize - memStepSize, 0, memStepSize); }`. -/
def incrementPointer (memStepSize : Nat) (s : State) : Except Fault State :=
  let dataIndex := (s.dataIndex + 1) % U32
  if dataIndex = s.dataSize then
    let dataSize := (s.dataSize + memStepSize) % U32
    match memset (realloc s.data dataSize) ((dataSize : Int) - memStepSize) memStepSize with
    | .ok data => .ok { s with dataIndex := dataIndex, dataSize := dataSize, data := data }
    | .error e => .error e
  else .ok { s with dataIndex := dataIndex }

/-- Statement `++(*(*data + *dataIndex))` on a `uint8_t` cell. -/
def incrementValue (s : State) : Except Fault State :=
  match load s.data s.dataIndex with
  | .ok v =>
    match store s.data s.dataIndex ((v + 1) % 256) with
    | .ok data => .ok { s with data := data }
    | .error e => .error e
  | .error e => .error e

/-- Statement `--(*(*data + *dataIndex))` on a `uint8_t` cell. -/
def decrementValue (s : State) : Except Fault State :=
  match load s.data s.dataIndex with
  | .ok v =>
    match store s.data s.dataIndex ((v + 255) % 256) with
    | .ok data => .ok { s with data := data }
    | .error e => .error e
  | .error e => .error e

/-- Statement `putchar(*(*data + *dataIndex))`. -/
def writeValue (s : State) : Except Fault State :=
  match load s.data s.dataIndex with
  | .ok v => .ok { s with stdout := s.stdout ++ [v] }
  | .error e => .error e

/-- Statement `*(*data + *dataIndex) = getchar()`. -/
def readValue (s : State) : Except Fault State :=
  match store s.data s.dataIndex (toUint8 (getchar s.stdin).1) with
  | .ok data => .ok { s with data := data, stdin := (getchar s.stdin).2 }
  | .error e => .error e

/-- Growth of the loop stack inside case `NIB_LOOP_START`, entered with the already
incremented `loopStackIndex`:
`*loopStack = ((uint32_t *) realloc(*loopStack, (*loopStackSize += memStepSize) * 4))
+ *loopStackIndex; memset(*loopStack + *loopStackSize - memStepSize, 0, memStepSize);`.
The byte count `* 4` is a `uint32_t` product; `realloc` needs the pointer it once
returned, so a shifted `*loopStack` is a fault; the new `*loopStack` is the new block
advanced by `loopStackIndex` elements. -/
def growLoopStack (memStepSize : Nat) (s : State) : Except Fault State :=
  let loopStackSize := (s.loopStackSize + memStepSize) % U32
  if s.loopStackShift = 0 then
    let block := realloc s.loopStack ((loopStackSize * 4) % U32 / 4)
    let loopStackShift := s.loopStackIndex
    match memsetWords block ((loopStackShift : Int) + loopStackSize - memStepSize) memStepSize with
    | .ok block =>
      .ok { s with loopStackSize := loopStackSize, loopStack := block,
                   loopStackShift := loopStackShift }
    | .error e => .error e
  else .error .memoryFault

/-- Case `NIB_LOOP_START` (the same text in both functions). -/
def loopStart (memStepSize : Nat) (s : State) : Except Fault Parsed :=
  match load s.data s.dataIndex with
  | .error e => .error e
  | .ok v =>
    if v = 0 then .ok ⟨s, true, false⟩
    else
      let s1 := { s with loopStackIndex := (s.loopStackIndex + 1) % U32 }
      match (if s1.loopStackIndex = s1.loopStackSize then growLoopStack memStepSize s1
             else .ok s1) with
      | .error e => .error e
      | .ok s2 =>
        match store s2.loopStack (s2.loopStackShift + s2.loopStackIndex) s2.inputIndex with
        | .ok block => .ok ⟨{ s2 with loopStack := block }, false, false⟩
        | .error e => .error e

/-- Statements `*inputIndex = *((*loopStack + (*loopStackIndex)--)); *inputIndexChanged = true;`
of case `NIB_LOOP_END`. -/
def loopBack (s : State) : Except Fault Parsed :=
  match load s.loopStack (s.loopStackShift + s.loopStackIndex) with
  | .ok v =>
    .ok ⟨{ s with inputIndex := v, loopStackIndex := toUint32 ((s.loopStackIndex : Int) - 1) },
         false, true⟩
  | .error e => .error e

/-- An instruction that leaves the flags alone. -/
def plain (r : Except Fault State) : Except Fault Parsed :=
  match r with
  | .ok s => .ok ⟨s, false, false⟩
  | .error e => .error e

/-- Function `parseInstruction` of nib.c, the dispatcher with the `error` calls. -/
def parseInstruction (instruction : Nat) (memStepSize : Nat) (s : State) :
    Except Fault Parsed :=
  if instruction = NIB_INCREMENT_POINTER then
    plain (incrementPointer memStepSize s)
  else if instruction = NIB_DECREMENT_POINTER then
    .ok ⟨{ s with dataIndex := toUint32 ((s.dataIndex : Int) - 1) }, false, false⟩
  else if instruction = NIB_INCREMENT_VALUE then
    if s.dataIndex ≥ s.dataSize then .error .dataIndexOutOfBounds
    else plain (incrementValue s)
  else if instruction = NIB_DECREMENT_VALUE then
    if s.dataIndex ≥ s.dataSize then .error .dataIndexOutOfBounds
    else plain (decrementValue s)
  else if instruction = NIB_WRITE_VALUE then
    if s.dataIndex ≥ s.dataSize then .error .dataIndexOutOfBounds
    else plain (writeValue s)
  else if instruction = NIB_READ_VALUE then
    if s.dataIndex ≥ s.dataSize then .error .dataIndexOutOfBounds
    else plain (readValue s)
  else if instruction = NIB_LOOP_START then
    loopStart memStepSize s
  else if instruction = NIB_LOOP_END then
    if s.loopStackIndex ≥ s.loopStackSize then .error .unexpectedLoopEnd
    else loopBack s
  else .ok ⟨s, false, false⟩

/-- Function `parseInstructionSafely` of nib.c, the dispatcher without `error` calls. -/
def parseInstructionSafely (instruction : Nat) (memStepSize : Nat) (s : State) :
    Except Fault Parsed :=
  if instruction = NIB_INCREMENT_POINTER then
    plain (incrementPointer memStepSize s)
  else if instruction = NIB_DECREMENT_POINTER then
    if s.dataIndex < s.dataSize then
      .ok ⟨{ s with dataIndex := toUint32 ((s.dataIndex : Int) - 1) }, false, false⟩
    else .ok ⟨s, false, false⟩
  else if instruction = NIB_INCREMENT_VALUE then
    plain (incrementValue s)
  else if instruction = NIB_DECREMENT_VALUE then
    plain (decrementValue s)
  else if instruction = NIB_WRITE_VALUE then
    plain (writeValue s)
  else if instruction = NIB_READ_VALUE then
    plain (readValue s)
  else if instruction = NIB_LOOP_START then
    loopStart memStepSize s
  else if instruction = NIB_LOOP_END then
    if s.loopStackIndex < s.loopStackSize then loopBack s
    else .ok ⟨s, false, false⟩
  else .ok ⟨s, false, false⟩

/-! ## `interpret` and `interpretSafely` -/

/-- The inner `while (loopCount > 0 && *inputIndex < inputSize)` of the interpreters,
returning the final `(loopCount, inputIndex)`.  The first argument bounds the number of
iterations; `inputSize - inputIndex` iterations always reach the exit condition. -/
def skipLoopScan (inputData : List Nat) (pastEnd : Nat) : Nat → Nat → Nat → Nat × Nat
  | 0, loopCount, inputIndex => (loopCount, inputIndex)
  | fuel + 1, loopCount, inputIndex =>
    if 0 < loopCount ∧ inputIndex < inputData.length then
      let instruction := inputData.getD (inputIndex + 1) pastEnd
      if instruction = NIB_LOOP_START then
        skipLoopScan inputData pastEnd fuel (loopCount + 1) (inputIndex + 1)
      else if instruction = NIB_LOOP_END then
        skipLoopScan inputData pastEnd fuel (loopCount - 1) (inputIndex + 1)
      else skipLoopScan inputData pastEnd fuel loopCount (inputIndex + 1)
    else (loopCount, inputIndex)

/-- One iteration of the outer `while (*inputIndex < inputSize)` of `interpret` /
`interpretSafely`, for the dispatcher `parse`: fetch, dispatch, skip scan with its
"Expected end of loop" error, and the final `if (!inputIndexChanged) ++(*inputIndex)`. -/
def dispatchCycle (parse : Nat → Nat → State → Except Fault Parsed) (memStepSize : Nat)
    (inputData : List Nat) (pastEnd : Nat) (s : State) : Except Fault State :=
  match parse (inputData.getD s.inputIndex pastEnd) memStepSize s with
  | .error e => .error e
  | .ok r =>
    let inputIndex :=
      if r.skipLoop then
        (skipLoopScan inputData pastEnd (inputData.length - r.state.inputIndex) 1
          r.state.inputIndex).2
      else r.state.inputIndex
    if r.skipLoop ∧ inputIndex = inputData.length then .error .unterminatedLoop
    else if r.inputIndexChanged then .ok { r.state with inputIndex := inputIndex }
    else .ok { r.state with inputIndex := inputIndex + 1 }

/-- The outer loop of the interpreters for the dispatcher `parse`.  The first argument
bounds the number of dispatch cycles: `none` means that the bound was reached before the
program ended, `some (.ok s)` that the loop ended in state `s`, `some (.error e)` that the
run stopped with `e`. -/
def interpretWith (parse : Nat → Nat → State → Except Fault Parsed) (memStepSize : Nat)
    (inputData : List Nat) (pastEnd : Nat) : Nat → State → Option (Except Fault State)
  | 0, s => if s.inputIndex < inputData.length then none else some (.ok s)
  | fuel + 1, s =>
    if s.inputIndex < inputData.length then
      match dispatchCycle parse memStepSize inputData pastEnd s with
      | .error e => some (.error e)
      | .ok s1 => interpretWith parse memStepSize inputData pastEnd fuel s1
    else some (.ok s)

/-- Function `interpret` of nib.c: the loop around `parseInstruction`. -/
def interpret (memStepSize : Nat) (inputData : List Nat) (pastEnd : Nat) (fuel : Nat)
    (s : State) : Option (Except Fault State) :=
  interpretWith parseInstruction memStepSize inputData pastEnd fuel s

/-- Function `interpretSafely` of nib.c: the loop around `parseInstructionSafely`. -/
def interpretSafely (memStepSize : Nat) (inputData : List Nat) (pastEnd : Nat) (fuel : Nat)
    (s : State) : Option (Except Fault State) :=
  interpretWith parseInstructionSafely memStepSize inputData pastEnd fuel s

/-- Function `run` of nib.c after the file has been read into `fileData`: decode, then
`if (safe) interpretSafely(...) else interpret(...)` from the initial state. -/
def run (fileData : List Nat) (memStepSize : Nat) (safe : Bool) (pastEnd : Nat)
    (stdin : List Nat) (fuel : Nat) : Option (Except Fault State) :=
  match decode fileData with
  | none => some (.error .memoryFault)
  | some (_, inputData) =>
    if safe then interpretSafely memStepSize inputData pastEnd fuel (initialState memStepSize stdin)
    else interpret memStepSize inputData pastEnd fuel (initialState memStepSize stdin)

/-- States at the start of a dispatch cycle of a run of `inputData` with the dispatcher
`parse`, from the initial state of `run`. -/
inductive Reachable (parse : Nat → Nat → State → Except Fault Parsed) (memStepSize : Nat)
    (inputData : List Nat) (pastEnd : Nat) (stdin : List Nat) : State → Prop where
  | initial : Reachable parse memStepSize inputData pastEnd stdin (initialState memStepSize stdin)
  | cycle {s s1 : State} :
      Reachable parse memStepSize inputData pastEnd stdin s →
      s.inputIndex < inputData.length →
      dispatchCycle parse memStepSize inputData pastEnd s = .ok s1 →
      Reachable parse memStepSize inputData pastEnd stdin s1

/-! ## Specification-side notions used by the statements -/

/-- Re-encoding of a decoded buffer, as the round-trip property words it: every
consecutive pair of instructions `(hi, lo)` is packed into the byte `hi * 16 + lo`. -/
def packPairs : List Nat → List Nat
  | hi :: lo :: rest => (hi * 16 + lo) :: packPairs rest
  | _ => []

/-- Change of the nesting depth caused by one instruction. -/
def depthChange (instruction : Option Nat) : Int :=
  if instruction = some NIB_LOOP_START then 1
  else if instruction = some NIB_LOOP_END then -1
  else 0

/-- Nesting depth, relative to the outside of the loop opened at position `s`, after the
`n` instructions that follow `s`: 1 for the loop itself, plus one per LOOP_START and
minus one per LOOP_END among the positions `s + 1 .. s + n`. -/
def nestingDepth (inputData : List Nat) (s : Nat) : Nat → Int
  | 0 => 1
  | n + 1 => nestingDepth inputData s n + depthChange inputData[s + n + 1]?

/-- Position `e` holds the LOOP_END matching the LOOP_START at `s`: it is the first
position after `s`, inside the program, where the nesting depth returns to 0. -/
def MatchingLoopEnd (inputData : List Nat) (s e : Nat) : Prop :=
  s < e ∧ e < inputData.length ∧ nestingDepth inputData s (e - s) = 0 ∧
    ∀ n, n < e - s → 0 < nestingDepth inputData s n

instance (inputData : List Nat) (s e : Nat) : Decidable (MatchingLoopEnd inputData s e) := by
  unfold MatchingLoopEnd
  exact inferInstance


/-- The loop stack holds no entry: `loopStackIndex`, the index of its top entry, has the
initial value `-1` of `run` (4294967295 as a `uint32_t`). -/
def State.loopStackEmpty (s : State) : Prop := s.loopStackIndex = U32 - 1

instance (s : State) : Decidable s.loopStackEmpty := by
  unfold State.loopStackEmpty
  exact inferInstance

/-- The four loop-stack variables of `s1` are those of `s`. -/
def SameLoopStack (s s1 : State) : Prop :=
  s1.loopStack = s.loopStack ∧ s1.loopStackShift = s.loopStackShift ∧
    s1.loopStackIndex = s.loopStackIndex ∧ s1.loopStackSize = s.loopStackSize

/-- Shape of the loop stack during a run with step size `memStepSize`: the pointer is the
start of a block of `memStepSize` elements, the stack is empty or its top index is inside
the block, and every entry up to the top is a position of `inputData` that holds
LOOP_START. -/
def LoopStackOk (memStepSize : Nat) (inputData : List Nat) (s : State) : Prop :=
  s.loopStackShift = 0 ∧ s.loopStack.length = memStepSize ∧
    s.loopStackSize = memStepSize ∧
    (s.loopStackIndex = U32 - 1 ∨ s.loopStackIndex < memStepSize) ∧
    ∀ j, j ≤ s.loopStackIndex → s.loopStackIndex < memStepSize →
      ∃ v, s.loopStack[j]? = some v ∧ inputData[v]? = some NIB_LOOP_START

/-- The state after `k` instructions INCR_PTR executed from the initial state, as the
growth rule predicts it: cursor `k`, a tape of `memStepSize * (k / memStepSize + 1)` zero
cells, everything else as in the initial state. -/
def pointerState (memStepSize : Nat) (stdin : List Nat) (k : Nat) : State :=
  { initialState memStepSize stdin with
    inputIndex := k
    dataIndex := k
    dataSize := memStepSize * (k / memStepSize + 1)
    data := List.replicate (memStepSize * (k / memStepSize + 1)) 0 }

/-- The loop opened by the LOOP_START at position `t` directly encloses position `p`: it
is not closed before `p` (the nesting depth counted from `t` is positive at every
position from `t` to `p - 1`) and every loop opened between `t` and `p` is closed again
(the depth just before `p` is 1). -/
def OpenAt (inputData : List Nat) (t p : Nat) : Prop :=
  t < p ∧ inputData[t]? = some NIB_LOOP_START ∧
    (∀ n, n < p - t → 0 < nestingDepth inputData t n) ∧
    nestingDepth inputData t (p - 1 - t) = 1

/-- The entries of a non-empty loop stack follow the nesting of the program: the top
entry is the LOOP_START that directly encloses `inputIndex`, and every other entry is the
LOOP_START that directly encloses the entry above it. -/
def LoopStackNested (inputData : List Nat) (s : State) : Prop :=
  ¬ s.loopStackEmpty →
    (∃ top, s.loopStack[s.loopStackIndex]? = some top ∧ OpenAt inputData top s.inputIndex) ∧
    ∀ j, j < s.loopStackIndex →
      ∃ a b, s.loopStack[j]? = some a ∧ s.loopStack[j + 1]? = some b ∧ OpenAt inputData a b

/-- Example program `+[-]`: INCR_VAL, LOOP_START, DECR_VAL, LOOP_END. -/
def countdownProgram : List Nat :=
  [NIB_INCREMENT_VALUE, NIB_LOOP_START, NIB_DECREMENT_VALUE, NIB_LOOP_END]

/-- The run of `countdownProgram` with step size 2 and no input after one, two and three
dispatch cycles; the last state is the one in which its LOOP_END is examined, with the
position 1 of the LOOP_START on the loop stack. -/
def countdownStates : State × State × State :=
  ({ initialState 2 [] with inputIndex := 1, data := [1, 0] },
   { initialState 2 [] with inputIndex := 2, data := [1, 0], loopStack := [1, 0],
                            loopStackIndex := 0 },
   { initialState 2 [] with inputIndex := 3, data := [0, 0], loopStack := [1, 0],
                            loopStackIndex := 0 })

/-- The positions of the instructions that the outer loop of an interpreter dispatches,
in order: the recursion of `interpretWith`, recording `inputIndex` at the start of every
dispatch cycle instead of returning the final state. -/
def dispatchTrace (parse : Nat → Nat → State → Except Fault Parsed) (memStepSize : Nat)
    (inputData : List Nat) (pastEnd : Nat) : Nat → State → List Nat
  | 0, _ => []
  | fuel + 1, s =>
    if s.inputIndex < inputData.length then
      s.inputIndex ::
        (match dispatchCycle parse memStepSize inputData pastEnd s with
         | .error _ => []
         | .ok s1 => dispatchTrace parse memStepSize inputData pastEnd fuel s1)
    else []

/-- The state `b` with the cell under its cursor set to `c`, the loop-stack block `L`,
`inputIndex = ip` and `loopStackIndex = idx`: the states met while a loop runs on one
cell. -/
def loopRunState (b : State) (c : Nat) (L : List Nat) (ip idx : Nat) : State :=
  { b with inputIndex := ip, data := b.data.set b.dataIndex c, loopStack := L,
           loopStackIndex := idx }

/-- The program `[-]`: LOOP_START, DECR_VAL, LOOP_END. -/
def decrementLoop : List Nat := [NIB_LOOP_START, NIB_DECREMENT_VALUE, NIB_LOOP_END]

/-- A program without DECR_PTR and without loop opcodes: its instructions are INCR_PTR,
INCR_VAL, DECR_VAL, WRITE, READ and values that are no opcode. -/
def StraightLine (inputData : List Nat) : Prop :=
  ∀ x ∈ inputData,
    x ≠ NIB_DECREMENT_POINTER ∧ x ≠ NIB_LOOP_START ∧ x ≠ NIB_LOOP_END

instance (inputData : List Nat) : Decidable (StraightLine inputData) := by
  unfold StraightLine
  exact inferInstance

/-- In a run of a straight-line program the cursor is the number of INCR_PTR among the
instructions already executed, and the tape has grown by whole steps to hold it. -/
def PointerTracks (memStepSize : Nat) (inputData : List Nat) (s : State) : Prop :=
  s.inputIndex ≤ inputData.length ∧
    s.dataIndex = (inputData.take s.inputIndex).count NIB_INCREMENT_POINTER ∧
    s.dataSize = memStepSize * (s.dataIndex / memStepSize + 1) ∧
    s.data.length = s.dataSize

/-- Nesting depth of position `p` of the program: the number of LOOP_START minus the
number of LOOP_END among the positions before `p`, that is the number of loops that
enclose `p`. -/
def depthBefore (inputData : List Nat) : Nat → Int
  | 0 => 0
  | p + 1 => depthBefore inputData p + depthChange inputData[p]?

/-- Number of entries on the loop stack: `loopStackIndex`, the index of the top entry,
plus one as a `uint32_t` (0 for the initial `-1`). -/
def State.loopStackDepth (s : State) : Nat := (s.loopStackIndex + 1) % U32

/-- The LOOP_START / LOOP_END instructions of `inputData` are balanced with nesting depth
at most `limit`: the depth is never negative, never above `limit`, and 0 at the end. -/
def BalancedWithin (limit : Nat) (inputData : List Nat) : Prop :=
  depthBefore inputData inputData.length = 0 ∧
    ∀ p, p < inputData.length + 1 →
      0 ≤ depthBefore inputData p ∧ depthBefore inputData p ≤ limit

instance (limit : Nat) (inputData : List Nat) : Decidable (BalancedWithin limit inputData) := by
  unfold BalancedWithin
  exact inferInstance

/-! ## Theorems -/

theorem highNibble_eq (b : Nat) : (b &&& LEFT_MASK) >>> 4 = (b >>> 4) &&& 0xF := by
  apply Nat.eq_of_testBit_eq
  intro j
  have h : LEFT_MASK.testBit (4 + j) = (0xF : Nat).testBit j := by
    rw [← Nat.testBit_shiftRight]
    rfl
  simp only [Nat.testBit_shiftRight, Nat.testBit_and, h]

theorem highNibble_lt (b : Nat) : (b &&& LEFT_MASK) >>> 4 < 16 := by
  rw [highNibble_eq]
  exact Nat.and_lt_two_pow _ (by decide : 0xF < 2 ^ 4)

theorem lowNibble_lt (b : Nat) : b &&& RIGHT_MASK < 16 :=
  Nat.and_lt_two_pow _ (by decide : RIGHT_MASK < 2 ^ 4)

theorem nibbles_pack (b : Nat) (hb : b < 256) :
    ((b &&& LEFT_MASK) >>> 4) * 16 + (b &&& RIGHT_MASK) = b := by
  unfold LEFT_MASK RIGHT_MASK
  interval_cases b <;> rfl

theorem decodeLoop_length (source : List Nat) :
    (decodeLoop source).length = 2 * source.length := by
  induction source with
  | nil => rfl
  | cons b rest ih => simp [decodeLoop, ih]; omega

theorem decodeLoop_getElem (source : List Nat) (i : Nat) (hi : i < source.length) :
    (decodeLoop source)[2 * i]? = some ((source[i] &&& LEFT_MASK) >>> 4) ∧
    (decodeLoop source)[2 * i + 1]? = some (source[i] &&& RIGHT_MASK) := by
  induction source generalizing i with
  | nil => simp at hi
  | cons b rest ih =>
    cases i with
    | zero => simp [decodeLoop]
    | succ j =>
      have hj : j < rest.length := by simpa using hi
      have := ih j hj
      simpa [decodeLoop, Nat.mul_succ] using this

theorem decodeLoop_lt (source : List Nat) : ∀ x ∈ decodeLoop source, x < 16 := by
  induction source with
  | nil => simp [decodeLoop]
  | cons b rest ih =>
    intro x hx
    simp only [decodeLoop, List.mem_cons] at hx
    rcases hx with rfl | rfl | hx
    · exact highNibble_lt b
    · exact lowNibble_lt b
    · exact ih x hx

theorem decode_eq (source : List Nat) (hsize : source.length < 2147483648) :
    decode source = some (2 * source.length, decodeLoop source) := by
  have h : source.length * 2 % U32 = 2 * source.length := by
    unfold U32; omega
  simp [decode, h, decodeLoop_length]

theorem packPairs_decodeLoop (source : List Nat) (hbytes : ∀ b ∈ source, b < 256) :
    packPairs (decodeLoop source) = source := by
  induction source with
  | nil => rfl
  | cons b rest ih =>
    simp only [decodeLoop, packPairs]
    rw [nibbles_pack b (hbytes b (by simp)), ih (fun c hc => hbytes c (by simp [hc]))]

/-- C1: for a source buffer of length N (a size that `run` can pass: `fileSize` is a
non-negative `int32_t`), `decode` returns the size 2N with a buffer of 2N elements; the
element at position 2i is the high nibble `(b >> 4) & 0xF` of source byte i, the element
at position 2i+1 its low nibble `b & 0xF`, and every decoded element is below 16. -/
theorem decode_contract (source : List Nat) (hsize : source.length < 2147483648) :
    ∃ result, decode source = some (2 * source.length, result) ∧
      result.length = 2 * source.length ∧
      (∀ i (hi : i < source.length),
        result[2 * i]? = some ((source[i] >>> 4) &&& 0xF) ∧
        result[2 * i + 1]? = some (source[i] &&& 0xF)) ∧
      ∀ x ∈ result, x < 16 := by
  refine ⟨decodeLoop source, decode_eq source hsize, decodeLoop_length source, ?_,
    decodeLoop_lt source⟩
  intro i hi
  have h := decodeLoop_getElem source i hi
  rw [highNibble_eq] at h
  exact h

theorem decode_contract_witness :
    ∃ result, decode [0x23, 0x07] = some (2 * [0x23, 0x07].length, result) ∧
      result.length = 2 * [0x23, 0x07].length ∧
      (∀ i (hi : i < [0x23, 0x07].length),
        result[2 * i]? = some (([0x23, 0x07][i] >>> 4) &&& 0xF) ∧
        result[2 * i + 1]? = some ([0x23, 0x07][i] &&& 0xF)) ∧
      ∀ x ∈ result, x < 16 :=
  decode_contract [0x23, 0x07] (by decide)

/-- C2: decoding then re-encoding is the identity on byte buffers: packing the
consecutive pairs of the decoded buffer back into bytes gives the source, hence two
byte buffers with the same decoding are equal. -/
theorem decode_roundtrip (source : List Nat) (hbytes : ∀ b ∈ source, b < 256)
    (hsize : source.length < 2147483648) :
    (∃ result, decode source = some (2 * source.length, result) ∧
      packPairs result = source) ∧
    ∀ other : List Nat, (∀ b ∈ other, b < 256) → other.length < 2147483648 →
      decode other = decode source → other = source := by
  refine ⟨⟨decodeLoop source, decode_eq source hsize, packPairs_decodeLoop source hbytes⟩, ?_⟩
  intro other hother hosize heq
  rw [decode_eq source hsize, decode_eq other hosize] at heq
  have h : decodeLoop other = decodeLoop source := by
    simpa using (congrArg (fun p => Option.map Prod.snd p) heq)
  rw [← packPairs_decodeLoop other hother, h, packPairs_decodeLoop source hbytes]

theorem decode_roundtrip_witness :
    (∃ result, decode [0x23, 0xFF, 0x00] = some (2 * [0x23, 0xFF, 0x00].length, result) ∧
      packPairs result = [0x23, 0xFF, 0x00]) ∧
    ∀ other : List Nat, (∀ b ∈ other, b < 256) → other.length < 2147483648 →
      decode other = decode [0x23, 0xFF, 0x00] → other = [0x23, 0xFF, 0x00] :=
  decode_roundtrip [0x23, 0xFF, 0x00] (by decide) (by decide)


theorem interpretWith_done (parse : Nat → Nat → State → Except Fault Parsed)
    (memStepSize : Nat) (inputData : List Nat) (pastEnd fuel : Nat) (s : State)
    (h : ¬ s.inputIndex < inputData.length) :
    interpretWith parse memStepSize inputData pastEnd fuel s = some (.ok s) := by
  cases fuel <;> simp [interpretWith, h]

theorem interpretWith_step (parse : Nat → Nat → State → Except Fault Parsed)
    (memStepSize : Nat) (inputData : List Nat) (pastEnd fuel : Nat) (s s1 : State)
    (h : s.inputIndex < inputData.length)
    (hc : dispatchCycle parse memStepSize inputData pastEnd s = .ok s1) :
    interpretWith parse memStepSize inputData pastEnd (fuel + 1) s =
      interpretWith parse memStepSize inputData pastEnd fuel s1 := by
  simp [interpretWith, h, hc]

theorem interpretWith_mono (parse : Nat → Nat → State → Except Fault Parsed)
    (memStepSize : Nat) (inputData : List Nat) (pastEnd : Nat) (fuel : Nat) :
    ∀ (s : State) (r : Except Fault State),
      interpretWith parse memStepSize inputData pastEnd fuel s = some r →
      ∀ extra, interpretWith parse memStepSize inputData pastEnd (fuel + extra) s = some r := by
  induction fuel with
  | zero =>
    intro s r h extra
    by_cases hlt : s.inputIndex < inputData.length
    · simp [interpretWith, hlt] at h
    · rw [interpretWith_done _ _ _ _ _ _ hlt] at h ⊢
      exact h
  | succ fuel ih =>
    intro s r h extra
    by_cases hlt : s.inputIndex < inputData.length
    · rw [show fuel + 1 + extra = (fuel + extra) + 1 by omega]
      simp only [interpretWith, hlt, if_true] at h ⊢
      cases hc : dispatchCycle parse memStepSize inputData pastEnd s with
      | error e => rw [hc] at h; simpa using h
      | ok s1 =>
        rw [hc] at h
        exact ih s1 r h extra
    · rw [interpretWith_done _ _ _ _ _ _ hlt] at h ⊢
      exact h

theorem run_mono (fileData : List Nat) (memStepSize : Nat) (safe : Bool) (pastEnd : Nat)
    (stdin : List Nat) (fuel : Nat) (r : Except Fault State)
    (h : run fileData memStepSize safe pastEnd stdin fuel = some r) (extra : Nat) :
    run fileData memStepSize safe pastEnd stdin (fuel + extra) = some r := by
  unfold run at h ⊢
  cases hd : decode fileData with
  | none => rw [hd] at h; simpa using h
  | some p =>
    rw [hd] at h
    cases safe
    · exact interpretWith_mono _ _ _ _ _ _ _ h extra
    · exact interpretWith_mono _ _ _ _ _ _ _ h extra

theorem example_run_eq (safe : Bool) (pastEnd fuel : Nat) :
    run [0x23, 0x07] 1 safe pastEnd [] (fuel + 4) =
      some (.ok { inputIndex := 4, data := [1, 255], dataIndex := 1, dataSize := 2,
                  loopStack := [0], loopStackShift := 0, loopStackIndex := U32 - 1,
                  loopStackSize := 1, stdin := [], stdout := [0] }) := by
  rw [Nat.add_comm]
  apply run_mono
  cases safe <;> rfl


/-- C3 as stated fails: whatever the amount of fuel and the byte behind the program, the
permissive run (`interpretSafely`) of the bytes `[0x23, 0x07]` with step size 1 and empty
standard input never ends with the output `[1]`. -/
theorem example_output_is_not_one :
    ¬ ∃ pastEnd fuel s,
        run [0x23, 0x07] 1 true pastEnd [] fuel = some (.ok s) ∧ s.stdout = [1] := by
  rintro ⟨pastEnd, fuel, s, h, hs⟩
  rcases fuel with _ | _ | _ | _ | fuel
  · exact absurd h (by rw [show run [0x23, 0x07] 1 true pastEnd [] 0 = none from rfl]; simp)
  · exact absurd h (by rw [show run [0x23, 0x07] 1 true pastEnd [] 1 = none from rfl]; simp)
  · exact absurd h (by rw [show run [0x23, 0x07] 1 true pastEnd [] 2 = none from rfl]; simp)
  · exact absurd h (by rw [show run [0x23, 0x07] 1 true pastEnd [] 3 = none from rfl]; simp)
  · rw [example_run_eq] at h
    simp only [Option.some.injEq, Except.ok.injEq] at h
    rw [← h] at hs
    exact absurd hs (by decide)

/-- C3 (amended): the bytes `[0x23, 0x07]` decode to `[2, 3, 0, 7]` (INCR_VAL, INCR_PTR,
WRITE, READ), and their run from the initial state with step size 1 and empty standard
input, under either dispatcher, ends after its four instructions having written exactly
one byte, whose value is 0: WRITE acts on cell 1, the zero cell that INCR_PTR has just
appended, while cell 0 holds the 1; READ then stores 255 in cell 1. -/
theorem example_run_output (safe : Bool) (pastEnd fuel : Nat) :
    decode [0x23, 0x07] = some (4, [NIB_INCREMENT_VALUE, NIB_INCREMENT_POINTER,
      NIB_WRITE_VALUE, NIB_READ_VALUE]) ∧
    ∃ s, run [0x23, 0x07] 1 safe pastEnd [] (fuel + 4) = some (.ok s) ∧
      s.stdout = [0] ∧ s.data = [1, 255] ∧ s.dataIndex = 1 ∧ s.inputIndex = 4 :=
  ⟨by decide, _, example_run_eq safe pastEnd fuel, rfl, rfl, rfl, rfl⟩

theorem uint8_succ (v : Nat) : (v + 1) % 256 = toUint8 ((v : Int) + 1) := by
  unfold toUint8; omega

theorem uint8_pred (v : Nat) : (v + 255) % 256 = toUint8 ((v : Int) - 1) := by
  unfold toUint8; omega

theorem load_eq {block : List Nat} {i v : Nat} (h : block[i]? = some v) :
    load block i = .ok v := by
  simp [load, h]

theorem store_eq {block : List Nat} {i : Nat} (v : Nat) (h : i < block.length) :
    store block i v = .ok (block.set i v) := by
  simp [store, h]

theorem load_error {block : List Nat} {i : Nat} {e : Fault} (h : load block i = .error e) :
    e = .memoryFault := by
  unfold load at h
  split at h
  · cases h
  · cases h; rfl

theorem store_error {block : List Nat} {i v : Nat} {e : Fault}
    (h : store block i v = .error e) : e = .memoryFault := by
  unfold store at h
  split at h
  · cases h
  · cases h; rfl

theorem incrementValue_error {s : State} {e : Fault} (h : incrementValue s = .error e) :
    e = .memoryFault := by
  unfold incrementValue at h
  cases hl : load s.data s.dataIndex with
  | error e1 => rw [hl] at h; cases h; exact load_error hl
  | ok v =>
    rw [hl] at h
    cases hs : store s.data s.dataIndex ((v + 1) % 256) with
    | error e1 => simp only [hs] at h; cases h; exact store_error hs
    | ok d => simp only [hs] at h; cases h

theorem decrementValue_error {s : State} {e : Fault} (h : decrementValue s = .error e) :
    e = .memoryFault := by
  unfold decrementValue at h
  cases hl : load s.data s.dataIndex with
  | error e1 => rw [hl] at h; cases h; exact load_error hl
  | ok v =>
    rw [hl] at h
    cases hs : store s.data s.dataIndex ((v + 255) % 256) with
    | error e1 => simp only [hs] at h; cases h; exact store_error hs
    | ok d => simp only [hs] at h; cases h

theorem writeValue_error {s : State} {e : Fault} (h : writeValue s = .error e) :
    e = .memoryFault := by
  unfold writeValue at h
  cases hl : load s.data s.dataIndex with
  | error e1 => rw [hl] at h; cases h; exact load_error hl
  | ok v => rw [hl] at h; cases h

theorem readValue_error {s : State} {e : Fault} (h : readValue s = .error e) :
    e = .memoryFault := by
  unfold readValue at h
  cases hs : store s.data s.dataIndex (toUint8 (getchar s.stdin).1) with
  | error e1 => simp only [hs] at h; cases h; exact store_error hs
  | ok d => simp only [hs] at h; cases h

theorem plain_error_eq {r : Except Fault State} {e : Fault} (h : plain r = .error e) :
    r = .error e := by
  cases r with
  | error e1 => simpa [plain] using h
  | ok s => simp [plain] at h

theorem parseInstruction_incrementValue (memStepSize : Nat) (s : State) :
    parseInstruction NIB_INCREMENT_VALUE memStepSize s =
      if s.dataIndex ≥ s.dataSize then .error .dataIndexOutOfBounds
      else plain (incrementValue s) := rfl

theorem parseInstruction_decrementValue (memStepSize : Nat) (s : State) :
    parseInstruction NIB_DECREMENT_VALUE memStepSize s =
      if s.dataIndex ≥ s.dataSize then .error .dataIndexOutOfBounds
      else plain (decrementValue s) := rfl

theorem parseInstruction_writeValue (memStepSize : Nat) (s : State) :
    parseInstruction NIB_WRITE_VALUE memStepSize s =
      if s.dataIndex ≥ s.dataSize then .error .dataIndexOutOfBounds
      else plain (writeValue s) := rfl

theorem parseInstruction_readValue (memStepSize : Nat) (s : State) :
    parseInstruction NIB_READ_VALUE memStepSize s =
      if s.dataIndex ≥ s.dataSize then .error .dataIndexOutOfBounds
      else plain (readValue s) := rfl


/-- C4: in `parseInstruction`, each of INCR_VAL, DECR_VAL, WRITE and READ stops with
"Data index out of bounds" exactly when `dataIndex >= dataSize`, whatever the data block
is (the check precedes every access to it); and when `dataIndex < dataSize`, in a state
whose data block has `dataSize` cells, the instruction succeeds with its effect on the
cell under the cursor: that cell plus 1 or minus 1 as a `uint8_t`, the cell appended to
the output, or the cell replaced by the value of `getchar()`. -/
theorem strict_value_access (memStepSize : Nat) (s : State) :
    (∀ instruction, instruction ∈ [NIB_INCREMENT_VALUE, NIB_DECREMENT_VALUE,
        NIB_WRITE_VALUE, NIB_READ_VALUE] →
      (parseInstruction instruction memStepSize s = .error .dataIndexOutOfBounds ↔
        s.dataSize ≤ s.dataIndex)) ∧
    (s.data.length = s.dataSize → s.dataIndex < s.dataSize →
      ∃ v, s.data[s.dataIndex]? = some v ∧
        parseInstruction NIB_INCREMENT_VALUE memStepSize s =
          .ok ⟨{ s with data := s.data.set s.dataIndex (toUint8 ((v : Int) + 1)) },
               false, false⟩ ∧
        parseInstruction NIB_DECREMENT_VALUE memStepSize s =
          .ok ⟨{ s with data := s.data.set s.dataIndex (toUint8 ((v : Int) - 1)) },
               false, false⟩ ∧
        parseInstruction NIB_WRITE_VALUE memStepSize s =
          .ok ⟨{ s with stdout := s.stdout ++ [v] }, false, false⟩ ∧
        parseInstruction NIB_READ_VALUE memStepSize s =
          .ok ⟨{ s with data := s.data.set s.dataIndex (toUint8 (getchar s.stdin).1),
                        stdin := (getchar s.stdin).2 }, false, false⟩) := by
  constructor
  · intro instruction hmem
    simp only [List.mem_cons, List.mem_singleton, List.not_mem_nil, or_false] at hmem
    constructor
    · intro h
      by_contra hlt
      have hge : ¬ s.dataIndex ≥ s.dataSize := hlt
      rcases hmem with rfl | rfl | rfl | rfl
      · rw [parseInstruction_incrementValue, if_neg hge] at h
        exact absurd (incrementValue_error (plain_error_eq h)) (by decide)
      · rw [parseInstruction_decrementValue, if_neg hge] at h
        exact absurd (decrementValue_error (plain_error_eq h)) (by decide)
      · rw [parseInstruction_writeValue, if_neg hge] at h
        exact absurd (writeValue_error (plain_error_eq h)) (by decide)
      · rw [parseInstruction_readValue, if_neg hge] at h
        exact absurd (readValue_error (plain_error_eq h)) (by decide)
    · intro h
      have hge : s.dataIndex ≥ s.dataSize := h
      rcases hmem with rfl | rfl | rfl | rfl
      · rw [parseInstruction_incrementValue, if_pos hge]
      · rw [parseInstruction_decrementValue, if_pos hge]
      · rw [parseInstruction_writeValue, if_pos hge]
      · rw [parseInstruction_readValue, if_pos hge]
  · intro hlen hlt
    have hidx : s.dataIndex < s.data.length := by omega
    refine ⟨s.data[s.dataIndex], List.getElem?_eq_getElem hidx, ?_, ?_, ?_, ?_⟩
    · simp [parseInstruction, NIB_INCREMENT_POINTER, NIB_DECREMENT_POINTER,
        NIB_INCREMENT_VALUE, hlt, plain, incrementValue,
        load_eq (List.getElem?_eq_getElem hidx), store_eq _ hidx, uint8_succ]
    · simp [parseInstruction, NIB_INCREMENT_POINTER, NIB_DECREMENT_POINTER,
        NIB_INCREMENT_VALUE, NIB_DECREMENT_VALUE, hlt, plain, decrementValue,
        load_eq (List.getElem?_eq_getElem hidx), store_eq _ hidx, uint8_pred]
    · simp [parseInstruction, NIB_INCREMENT_POINTER, NIB_DECREMENT_POINTER,
        NIB_INCREMENT_VALUE, NIB_DECREMENT_VALUE, NIB_WRITE_VALUE, hlt, plain, writeValue,
        load_eq (List.getElem?_eq_getElem hidx)]
    · simp [parseInstruction, NIB_INCREMENT_POINTER, NIB_DECREMENT_POINTER,
        NIB_INCREMENT_VALUE, NIB_DECREMENT_VALUE, NIB_WRITE_VALUE, NIB_READ_VALUE, hlt, plain,
        readValue, store_eq _ hidx]



/-- C6 (evaluation of the code at the failing input): the program byte `0x6F` (DECR_PTR,
then an inert value) run by `interpretSafely` from the initial state ends with the cursor
at 4294967295, outside the one-cell tape, instead of 0. -/
theorem permissive_decrementPointer_wraps :
    ∃ s, run [0x6F] 1 true 0 [] 2 = some (.ok s) ∧ s.dataIndex = 4294967295 ∧
      s.dataSize = 1 ∧
      parseInstructionSafely NIB_DECREMENT_POINTER 1 (initialState 1 []) =
        .ok ⟨{ initialState 1 [] with dataIndex := 4294967295 }, false, false⟩ :=
  ⟨_, rfl, rfl, rfl, rfl⟩

theorem initialState_loopStackEmpty (memStepSize : Nat) (stdin : List Nat) :
    (initialState memStepSize stdin).loopStackEmpty := by
  show toUint32 (-1) = U32 - 1
  decide

theorem parseInstructionSafely_loopEnd (memStepSize : Nat) (s : State) :
    parseInstructionSafely NIB_LOOP_END memStepSize s =
      if s.loopStackIndex < s.loopStackSize then loopBack s else .ok ⟨s, false, false⟩ := rfl

theorem dispatchCycle_plain (parse : Nat → Nat → State → Except Fault Parsed)
    (memStepSize : Nat) (inputData : List Nat) (pastEnd : Nat) (s s1 : State)
    (instruction : Nat) (hfetch : inputData[s.inputIndex]? = some instruction)
    (hparse : parse instruction memStepSize s = .ok ⟨s1, false, false⟩) :
    dispatchCycle parse memStepSize inputData pastEnd s =
      .ok { s1 with inputIndex := s1.inputIndex + 1 } := by
  have hget : inputData.getD s.inputIndex pastEnd = instruction := by
    simp [List.getD, hfetch]
  unfold dispatchCycle
  rw [hget, hparse]
  simp

/-- C7: in `parseInstructionSafely`, LOOP_END met with an empty loop stack
(`loopStackIndex` at its initial value -1) raises no error and changes nothing; the
dispatch cycle then only advances `inputIndex` by 1; and the run of the one-instruction
program `[LOOP_END]` from the initial state ends normally with `inputIndex = 1`. -/
theorem permissive_loopEnd_empty (memStepSize : Nat) (inputData : List Nat) (pastEnd : Nat)
    (s : State) (hempty : s.loopStackEmpty) (hsize : s.loopStackSize < U32) :
    parseInstructionSafely NIB_LOOP_END memStepSize s = .ok ⟨s, false, false⟩ ∧
    (inputData[s.inputIndex]? = some NIB_LOOP_END →
      dispatchCycle parseInstructionSafely memStepSize inputData pastEnd s =
        .ok { s with inputIndex := s.inputIndex + 1 }) ∧
    (memStepSize < U32 → ∀ stdin fuel,
      interpretSafely memStepSize [NIB_LOOP_END] pastEnd (fuel + 1)
          (initialState memStepSize stdin) =
        some (.ok { initialState memStepSize stdin with inputIndex := 1 })) := by
  have hparse : ∀ t : State, t.loopStackEmpty → t.loopStackSize < U32 →
      parseInstructionSafely NIB_LOOP_END memStepSize t = .ok ⟨t, false, false⟩ := by
    intro t h1 h2
    unfold State.loopStackEmpty at h1
    rw [parseInstructionSafely_loopEnd, if_neg (by omega)]
  refine ⟨hparse s hempty hsize, ?_, ?_⟩
  · intro hfetch
    exact dispatchCycle_plain _ _ _ _ _ _ _ hfetch (hparse s hempty hsize)
  · intro hstep stdin fuel
    unfold interpretSafely
    rw [interpretWith_step _ _ _ _ _ _ _ (by simp [initialState])
      (dispatchCycle_plain _ _ _ _ _ _ NIB_LOOP_END (by simp [initialState])
        (hparse _ (initialState_loopStackEmpty _ _) (by simpa [initialState] using hstep)))]
    rw [interpretWith_done _ _ _ _ _ _ (by simp [initialState])]
    rfl

theorem permissive_loopEnd_empty_witness :
    parseInstructionSafely NIB_LOOP_END 1 (initialState 1 []) =
      .ok ⟨initialState 1 [], false, false⟩ ∧
    ([NIB_LOOP_END][(initialState 1 []).inputIndex]? = some NIB_LOOP_END →
      dispatchCycle parseInstructionSafely 1 [NIB_LOOP_END] 0 (initialState 1 []) =
        .ok { initialState 1 [] with inputIndex := (initialState 1 []).inputIndex + 1 }) ∧
    (1 < U32 → ∀ stdin fuel,
      interpretSafely 1 [NIB_LOOP_END] 0 (fuel + 1) (initialState 1 stdin) =
        some (.ok { initialState 1 stdin with inputIndex := 1 })) :=
  permissive_loopEnd_empty 1 [NIB_LOOP_END] 0 (initialState 1 []) (by decide) (by decide)



theorem plain_ok {r : Except Fault State} {p : Parsed} (h : plain r = .ok p) :
    r = .ok p.state ∧ p.skipLoop = false ∧ p.inputIndexChanged = false := by
  cases r with
  | error e => simp [plain] at h
  | ok s =>
    simp only [plain, Except.ok.injEq] at h
    subst h
    exact ⟨rfl, rfl, rfl⟩

theorem incrementPointer_frame {memStepSize : Nat} {s s1 : State}
    (h : incrementPointer memStepSize s = .ok s1) :
    SameLoopStack s s1 ∧ s1.inputIndex = s.inputIndex := by
  unfold incrementPointer at h
  simp only at h
  split at h
  · split at h
    · cases h; exact ⟨⟨rfl, rfl, rfl, rfl⟩, rfl⟩
    · cases h
  · cases h; exact ⟨⟨rfl, rfl, rfl, rfl⟩, rfl⟩

theorem incrementValue_frame {s s1 : State} (h : incrementValue s = .ok s1) :
    SameLoopStack s s1 ∧ s1.inputIndex = s.inputIndex := by
  unfold incrementValue at h
  split at h
  · split at h
    · cases h; exact ⟨⟨rfl, rfl, rfl, rfl⟩, rfl⟩
    · cases h
  · cases h

theorem decrementValue_frame {s s1 : State} (h : decrementValue s = .ok s1) :
    SameLoopStack s s1 ∧ s1.inputIndex = s.inputIndex := by
  unfold decrementValue at h
  split at h
  · split at h
    · cases h; exact ⟨⟨rfl, rfl, rfl, rfl⟩, rfl⟩
    · cases h
  · cases h

theorem writeValue_frame {s s1 : State} (h : writeValue s = .ok s1) :
    SameLoopStack s s1 ∧ s1.inputIndex = s.inputIndex := by
  unfold writeValue at h
  split at h
  · cases h; exact ⟨⟨rfl, rfl, rfl, rfl⟩, rfl⟩
  · cases h

theorem readValue_frame {s s1 : State} (h : readValue s = .ok s1) :
    SameLoopStack s s1 ∧ s1.inputIndex = s.inputIndex := by
  unfold readValue at h
  split at h
  · cases h; exact ⟨⟨rfl, rfl, rfl, rfl⟩, rfl⟩
  · cases h

theorem plain_frame {r : Except Fault State} {s : State} {p : Parsed}
    (hframe : ∀ s1, r = .ok s1 → SameLoopStack s s1 ∧ s1.inputIndex = s.inputIndex)
    (h : plain r = .ok p) :
    SameLoopStack s p.state ∧ p.state.inputIndex = s.inputIndex ∧
      p.skipLoop = false ∧ p.inputIndexChanged = false := by
  obtain ⟨h1, h2, h3⟩ := plain_ok h
  exact ⟨(hframe _ h1).1, (hframe _ h1).2, h2, h3⟩

theorem parseInstruction_incrementPointer (memStepSize : Nat) (s : State) :
    parseInstruction NIB_INCREMENT_POINTER memStepSize s =
      plain (incrementPointer memStepSize s) := rfl

theorem parseInstruction_decrementPointer (memStepSize : Nat) (s : State) :
    parseInstruction NIB_DECREMENT_POINTER memStepSize s =
      .ok ⟨{ s with dataIndex := toUint32 ((s.dataIndex : Int) - 1) }, false, false⟩ := rfl

theorem parseInstruction_loopStart (memStepSize : Nat) (s : State) :
    parseInstruction NIB_LOOP_START memStepSize s = loopStart memStepSize s := rfl

theorem parseInstruction_loopEnd (memStepSize : Nat) (s : State) :
    parseInstruction NIB_LOOP_END memStepSize s =
      if s.loopStackIndex ≥ s.loopStackSize then .error .unexpectedLoopEnd
      else loopBack s := rfl

theorem parseInstructionSafely_incrementPointer (memStepSize : Nat) (s : State) :
    parseInstructionSafely NIB_INCREMENT_POINTER memStepSize s =
      plain (incrementPointer memStepSize s) := rfl

theorem parseInstructionSafely_decrementPointer (memStepSize : Nat) (s : State) :
    parseInstructionSafely NIB_DECREMENT_POINTER memStepSize s =
      if s.dataIndex < s.dataSize then
        .ok ⟨{ s with dataIndex := toUint32 ((s.dataIndex : Int) - 1) }, false, false⟩
      else .ok ⟨s, false, false⟩ := rfl

theorem parseInstructionSafely_incrementValue (memStepSize : Nat) (s : State) :
    parseInstructionSafely NIB_INCREMENT_VALUE memStepSize s = plain (incrementValue s) := rfl

theorem parseInstructionSafely_decrementValue (memStepSize : Nat) (s : State) :
    parseInstructionSafely NIB_DECREMENT_VALUE memStepSize s = plain (decrementValue s) := rfl

theorem parseInstructionSafely_writeValue (memStepSize : Nat) (s : State) :
    parseInstructionSafely NIB_WRITE_VALUE memStepSize s = plain (writeValue s) := rfl

theorem parseInstructionSafely_readValue (memStepSize : Nat) (s : State) :
    parseInstructionSafely NIB_READ_VALUE memStepSize s = plain (readValue s) := rfl

theorem parseInstructionSafely_loopStart (memStepSize : Nat) (s : State) :
    parseInstructionSafely NIB_LOOP_START memStepSize s = loopStart memStepSize s := rfl

/-- An instruction value is one of the eight opcodes or none of them. -/
theorem instruction_cases (instruction : Nat) :
    instruction = NIB_INCREMENT_POINTER ∨ instruction = NIB_DECREMENT_POINTER ∨
    instruction = NIB_INCREMENT_VALUE ∨ instruction = NIB_DECREMENT_VALUE ∨
    instruction = NIB_WRITE_VALUE ∨ instruction = NIB_READ_VALUE ∨
    instruction = NIB_LOOP_START ∨ instruction = NIB_LOOP_END ∨
    (instruction ≠ NIB_INCREMENT_POINTER ∧ instruction ≠ NIB_DECREMENT_POINTER ∧
     instruction ≠ NIB_INCREMENT_VALUE ∧ instruction ≠ NIB_DECREMENT_VALUE ∧
     instruction ≠ NIB_WRITE_VALUE ∧ instruction ≠ NIB_READ_VALUE ∧
     instruction ≠ NIB_LOOP_START ∧ instruction ≠ NIB_LOOP_END) := by
  unfold NIB_INCREMENT_POINTER NIB_DECREMENT_POINTER NIB_INCREMENT_VALUE NIB_DECREMENT_VALUE
    NIB_WRITE_VALUE NIB_READ_VALUE NIB_LOOP_START NIB_LOOP_END
  omega

theorem parseInstruction_other {instruction : Nat} (memStepSize : Nat) (s : State)
    (h : instruction ≠ NIB_INCREMENT_POINTER ∧ instruction ≠ NIB_DECREMENT_POINTER ∧
     instruction ≠ NIB_INCREMENT_VALUE ∧ instruction ≠ NIB_DECREMENT_VALUE ∧
     instruction ≠ NIB_WRITE_VALUE ∧ instruction ≠ NIB_READ_VALUE ∧
     instruction ≠ NIB_LOOP_START ∧ instruction ≠ NIB_LOOP_END) :
    parseInstruction instruction memStepSize s = .ok ⟨s, false, false⟩ := by
  obtain ⟨h1, h2, h3, h4, h5, h6, h7, h8⟩ := h
  unfold parseInstruction
  rw [if_neg h1, if_neg h2, if_neg h3, if_neg h4, if_neg h5, if_neg h6, if_neg h7, if_neg h8]

theorem parseInstructionSafely_other {instruction : Nat} (memStepSize : Nat) (s : State)
    (h : instruction ≠ NIB_INCREMENT_POINTER ∧ instruction ≠ NIB_DECREMENT_POINTER ∧
     instruction ≠ NIB_INCREMENT_VALUE ∧ instruction ≠ NIB_DECREMENT_VALUE ∧
     instruction ≠ NIB_WRITE_VALUE ∧ instruction ≠ NIB_READ_VALUE ∧
     instruction ≠ NIB_LOOP_START ∧ instruction ≠ NIB_LOOP_END) :
    parseInstructionSafely instruction memStepSize s = .ok ⟨s, false, false⟩ := by
  obtain ⟨h1, h2, h3, h4, h5, h6, h7, h8⟩ := h
  unfold parseInstructionSafely
  rw [if_neg h1, if_neg h2, if_neg h3, if_neg h4, if_neg h5, if_neg h6, if_neg h7, if_neg h8]

theorem parseInstruction_frame {instruction memStepSize : Nat} {s : State} {p : Parsed}
    (hs : instruction ≠ NIB_LOOP_START) (he : instruction ≠ NIB_LOOP_END)
    (h : parseInstruction instruction memStepSize s = .ok p) :
    SameLoopStack s p.state ∧ p.state.inputIndex = s.inputIndex ∧
      p.skipLoop = false ∧ p.inputIndexChanged = false := by
  rcases instruction_cases instruction with rfl | rfl | rfl | rfl | rfl | rfl | rfl | rfl | ho
  · rw [parseInstruction_incrementPointer] at h
    exact plain_frame (fun _ => incrementPointer_frame) h
  · rw [parseInstruction_decrementPointer] at h
    cases h; exact ⟨⟨rfl, rfl, rfl, rfl⟩, rfl, rfl, rfl⟩
  · rw [parseInstruction_incrementValue] at h
    split at h
    · cases h
    · exact plain_frame (fun _ => incrementValue_frame) h
  · rw [parseInstruction_decrementValue] at h
    split at h
    · cases h
    · exact plain_frame (fun _ => decrementValue_frame) h
  · rw [parseInstruction_writeValue] at h
    split at h
    · cases h
    · exact plain_frame (fun _ => writeValue_frame) h
  · rw [parseInstruction_readValue] at h
    split at h
    · cases h
    · exact plain_frame (fun _ => readValue_frame) h
  · exact absurd rfl hs
  · exact absurd rfl he
  · rw [parseInstruction_other _ _ ho] at h
    cases h; exact ⟨⟨rfl, rfl, rfl, rfl⟩, rfl, rfl, rfl⟩

theorem parseInstructionSafely_frame {instruction memStepSize : Nat} {s : State} {p : Parsed}
    (hs : instruction ≠ NIB_LOOP_START) (he : instruction ≠ NIB_LOOP_END)
    (h : parseInstructionSafely instruction memStepSize s = .ok p) :
    SameLoopStack s p.state ∧ p.state.inputIndex = s.inputIndex ∧
      p.skipLoop = false ∧ p.inputIndexChanged = false := by
  rcases instruction_cases instruction with rfl | rfl | rfl | rfl | rfl | rfl | rfl | rfl | ho
  · rw [parseInstructionSafely_incrementPointer] at h
    exact plain_frame (fun _ => incrementPointer_frame) h
  · rw [parseInstructionSafely_decrementPointer] at h
    split at h <;> (cases h; exact ⟨⟨rfl, rfl, rfl, rfl⟩, rfl, rfl, rfl⟩)
  · rw [parseInstructionSafely_incrementValue] at h
    exact plain_frame (fun _ => incrementValue_frame) h
  · rw [parseInstructionSafely_decrementValue] at h
    exact plain_frame (fun _ => decrementValue_frame) h
  · rw [parseInstructionSafely_writeValue] at h
    exact plain_frame (fun _ => writeValue_frame) h
  · rw [parseInstructionSafely_readValue] at h
    exact plain_frame (fun _ => readValue_frame) h
  · exact absurd rfl hs
  · exact absurd rfl he
  · rw [parseInstructionSafely_other _ _ ho] at h
    cases h; exact ⟨⟨rfl, rfl, rfl, rfl⟩, rfl, rfl, rfl⟩

theorem LoopStackOk.of_same {memStepSize : Nat} {inputData : List Nat} {s s1 : State}
    (hok : LoopStackOk memStepSize inputData s) (h : SameLoopStack s s1) :
    LoopStackOk memStepSize inputData s1 := by
  obtain ⟨h1, h2, h3, h4⟩ := h
  unfold LoopStackOk at hok ⊢
  rw [h1, h2, h3, h4]
  exact hok

theorem LoopStackOk.initial (memStepSize : Nat) (inputData stdin : List Nat)
    (hstep : memStepSize < U32) :
    LoopStackOk memStepSize inputData (initialState memStepSize stdin) := by
  refine ⟨rfl, by simp [initialState], rfl, Or.inl rfl, ?_⟩
  intro j _ h
  have h1 : toUint32 (-1) = 4294967295 := by decide
  simp only [initialState, h1] at h
  unfold U32 at hstep
  omega


theorem wordBytes_flatMap_length (block : List Nat) :
    (block.flatMap wordBytes).length = 4 * block.length := by
  induction block with
  | nil => rfl
  | cons w rest ih => simp [List.flatMap_cons, wordBytes, ih]; omega

theorem realloc_length (block : List Nat) (n : Nat) : (realloc block n).length = n := by
  simp [realloc]; omega

/-- The growth of the loop stack always runs outside the new block: with a positive step
and the incremented index at least the step, the `memset` starts beyond the end of the
block that `realloc` returned. -/
theorem growLoopStack_fault (memStepSize : Nat) (s : State) (hstep : 0 < memStepSize)
    (hidx : memStepSize ≤ s.loopStackIndex) :
    growLoopStack memStepSize s = .error .memoryFault := by
  unfold growLoopStack
  simp only
  split
  · have hfault : memsetWords
        (realloc s.loopStack ((s.loopStackSize + memStepSize) % U32 * 4 % U32 / 4))
        ((s.loopStackIndex : Int) + ((s.loopStackSize + memStepSize) % U32 : Nat) - memStepSize)
        memStepSize = .error .memoryFault := by
      unfold memsetWords memset
      rw [wordBytes_flatMap_length, realloc_length]
      rw [if_neg]
      intro h
      have h2 := h.2
      have h3 : (s.loopStackSize + memStepSize) % U32 * 4 % U32 / 4 ≤
          (s.loopStackSize + memStepSize) % U32 := by
        have := Nat.mod_le ((s.loopStackSize + memStepSize) % U32 * 4) U32
        omega
      push_cast at h2
      omega
    rw [hfault]
  · rfl



theorem loopStart_ok {memStepSize : Nat} {inputData : List Nat} {s : State} {p : Parsed}
    (hstep : 0 < memStepSize) (hstep32 : memStepSize < U32)
    (hok : LoopStackOk memStepSize inputData s)
    (hfetch : inputData[s.inputIndex]? = some NIB_LOOP_START)
    (h : loopStart memStepSize s = .ok p) :
    LoopStackOk memStepSize inputData p.state ∧ p.state.inputIndex = s.inputIndex ∧
      p.inputIndexChanged = false := by
  obtain ⟨hshift, hlen, hsize, hidx, hent⟩ := hok
  unfold loopStart at h
  split at h
  · exact absurd h (by simp)
  · rename_i v hv
    split at h
    · obtain rfl := Except.ok.inj h
      exact ⟨⟨hshift, hlen, hsize, hidx, hent⟩, rfl, rfl⟩
    · simp only at h
      by_cases hfull : (s.loopStackIndex + 1) % U32 = s.loopStackSize
      · rw [if_pos hfull, growLoopStack_fault memStepSize _ hstep (by simp only; omega)] at h
        exact absurd h (by simp)
      · rw [if_neg hfull] at h
        simp only [hshift, Nat.zero_add] at h
        have hnew : (s.loopStackIndex + 1) % U32 < memStepSize := by
          unfold U32 at *
          omega
        rw [store_eq _ (by omega)] at h
        obtain rfl := Except.ok.inj h
        refine ⟨⟨rfl, by simp [hlen], hsize, Or.inr hnew, ?_⟩, rfl, rfl⟩
        intro j hj _
        simp only at hj ⊢
        by_cases hjtop : j = (s.loopStackIndex + 1) % U32
        · subst hjtop
          refine ⟨s.inputIndex, ?_, hfetch⟩
          rw [List.getElem?_set_self (by omega)]
        · have hjlt : j < (s.loopStackIndex + 1) % U32 := by omega
          have hold : s.loopStackIndex < memStepSize ∧ j ≤ s.loopStackIndex := by
            unfold U32 at *
            omega
          obtain ⟨w, hw, hwd⟩ := hent j hold.2 hold.1
          refine ⟨w, ?_, hwd⟩
          rw [List.getElem?_set_ne (by omega)]
          exact hw

theorem loopBack_ok {memStepSize : Nat} {inputData : List Nat} {s : State}
    (hstep32 : memStepSize < U32) (hok : LoopStackOk memStepSize inputData s)
    (hidx : s.loopStackIndex < s.loopStackSize) :
    ∃ top, s.loopStack[s.loopStackIndex]? = some top ∧
      inputData[top]? = some NIB_LOOP_START ∧
      loopBack s = .ok ⟨{ s with inputIndex := top,
                                 loopStackIndex := toUint32 ((s.loopStackIndex : Int) - 1) },
                        false, true⟩ ∧
      toUint32 ((s.loopStackIndex : Int) - 1) =
        (if s.loopStackIndex = 0 then U32 - 1 else s.loopStackIndex - 1) ∧
      LoopStackOk memStepSize inputData
        { s with inputIndex := top,
                 loopStackIndex := toUint32 ((s.loopStackIndex : Int) - 1) } := by
  obtain ⟨hshift, hlen, hsize, hmark, hent⟩ := hok
  rw [hsize] at hidx
  obtain ⟨top, htop, hd⟩ := hent s.loopStackIndex (Nat.le_refl _) hidx
  have hdec : toUint32 ((s.loopStackIndex : Int) - 1) =
      (if s.loopStackIndex = 0 then U32 - 1 else s.loopStackIndex - 1) := by
    unfold toUint32 U32 at *
    split <;> omega
  refine ⟨top, htop, hd, ?_, hdec, hshift, hlen, hsize, ?_, ?_⟩
  · unfold loopBack
    rw [hshift, Nat.zero_add, load_eq htop]
  · simp only
    rw [hdec]
    unfold U32 at *
    split
    · exact Or.inl rfl
    · exact Or.inr (by omega)
  · intro j hj hlt
    simp only at hj hlt ⊢
    rw [hdec] at hj hlt
    by_cases h0 : s.loopStackIndex = 0
    · rw [if_pos h0] at hlt
      omega
    · rw [if_neg h0] at hj
      exact hent j (by omega) hidx



theorem dispatchCycle_ok {parse : Nat → Nat → State → Except Fault Parsed}
    {memStepSize : Nat} {inputData : List Nat} {pastEnd : Nat} {s s1 : State}
    (h : dispatchCycle parse memStepSize inputData pastEnd s = .ok s1) :
    ∃ p ip, parse (inputData.getD s.inputIndex pastEnd) memStepSize s = .ok p ∧
      s1 = { p.state with inputIndex := ip } := by
  unfold dispatchCycle at h
  split at h
  · exact absurd h (by simp)
  · rename_i p hp
    simp only at h
    split_ifs at h
    all_goals exact ⟨p, _, hp, (Except.ok.inj h).symm⟩

theorem LoopStackOk.set_inputIndex {memStepSize : Nat} {inputData : List Nat} {s : State}
    (hok : LoopStackOk memStepSize inputData s) (ip : Nat) :
    LoopStackOk memStepSize inputData { s with inputIndex := ip } := hok

theorem getD_of_lt {inputData : List Nat} {i : Nat} (pastEnd : Nat)
    (h : i < inputData.length) :
    inputData[i]? = some (inputData.getD i pastEnd) := by
  simp [List.getD, List.getElem?_eq_getElem h]

theorem parseInstruction_loopStackOk {memStepSize : Nat} {inputData : List Nat}
    {s : State} {p : Parsed} {instruction : Nat}
    (hstep : 0 < memStepSize) (hstep32 : memStepSize < U32)
    (hok : LoopStackOk memStepSize inputData s)
    (hfetch : inputData[s.inputIndex]? = some instruction)
    (h : parseInstruction instruction memStepSize s = .ok p) :
    LoopStackOk memStepSize inputData p.state := by
  by_cases hs : instruction = NIB_LOOP_START
  · rw [hs] at h hfetch
    rw [parseInstruction_loopStart] at h
    exact (loopStart_ok hstep hstep32 hok hfetch h).1
  · by_cases he : instruction = NIB_LOOP_END
    · rw [he, parseInstruction_loopEnd] at h
      split at h
      · exact absurd h (by simp)
      · rename_i hlt
        obtain ⟨top, _, _, hback, _, hok1⟩ := loopBack_ok hstep32 hok (by omega)
        rw [hback] at h
        obtain rfl := Except.ok.inj h
        exact hok1
    · exact hok.of_same (parseInstruction_frame hs he h).1

theorem parseInstructionSafely_loopStackOk {memStepSize : Nat} {inputData : List Nat}
    {s : State} {p : Parsed} {instruction : Nat}
    (hstep : 0 < memStepSize) (hstep32 : memStepSize < U32)
    (hok : LoopStackOk memStepSize inputData s)
    (hfetch : inputData[s.inputIndex]? = some instruction)
    (h : parseInstructionSafely instruction memStepSize s = .ok p) :
    LoopStackOk memStepSize inputData p.state := by
  by_cases hs : instruction = NIB_LOOP_START
  · rw [hs] at h hfetch
    rw [parseInstructionSafely_loopStart] at h
    exact (loopStart_ok hstep hstep32 hok hfetch h).1
  · by_cases he : instruction = NIB_LOOP_END
    · rw [he, parseInstructionSafely_loopEnd] at h
      split at h
      · rename_i hlt
        obtain ⟨top, _, _, hback, _, hok1⟩ := loopBack_ok hstep32 hok hlt
        rw [hback] at h
        obtain rfl := Except.ok.inj h
        exact hok1
      · obtain rfl := Except.ok.inj h
        exact hok
    · exact hok.of_same (parseInstructionSafely_frame hs he h).1

/-- Every state at the start of a dispatch cycle of a run with `parseInstruction` has a
well-shaped loop stack. -/
theorem reachable_loopStackOk {memStepSize : Nat} {inputData : List Nat} {pastEnd : Nat}
    {stdin : List Nat} {s : State} (hstep : 0 < memStepSize) (hstep32 : memStepSize < U32)
    (h : Reachable parseInstruction memStepSize inputData pastEnd stdin s) :
    LoopStackOk memStepSize inputData s := by
  induction h with
  | initial => exact LoopStackOk.initial _ _ _ hstep32
  | cycle _ hlt hc ih =>
    obtain ⟨p, ip, hp, rfl⟩ := dispatchCycle_ok hc
    exact (parseInstruction_loopStackOk hstep hstep32 ih (getD_of_lt pastEnd hlt) hp).set_inputIndex ip

/-- Every state at the start of a dispatch cycle of a run with `parseInstructionSafely`
has a well-shaped loop stack. -/
theorem reachableSafely_loopStackOk {memStepSize : Nat} {inputData : List Nat}
    {pastEnd : Nat} {stdin : List Nat} {s : State} (hstep : 0 < memStepSize)
    (hstep32 : memStepSize < U32)
    (h : Reachable parseInstructionSafely memStepSize inputData pastEnd stdin s) :
    LoopStackOk memStepSize inputData s := by
  induction h with
  | initial => exact LoopStackOk.initial _ _ _ hstep32
  | cycle _ hlt hc ih =>
    obtain ⟨p, ip, hp, rfl⟩ := dispatchCycle_ok hc
    exact (parseInstructionSafely_loopStackOk hstep hstep32 ih (getD_of_lt pastEnd hlt) hp).set_inputIndex ip

theorem dispatchCycle_jump (parse : Nat → Nat → State → Except Fault Parsed)
    (memStepSize : Nat) (inputData : List Nat) (pastEnd : Nat) (s s1 : State)
    (instruction : Nat) (hfetch : inputData[s.inputIndex]? = some instruction)
    (hparse : parse instruction memStepSize s = .ok ⟨s1, false, true⟩) :
    dispatchCycle parse memStepSize inputData pastEnd s = .ok s1 := by
  have hget : inputData.getD s.inputIndex pastEnd = instruction := by
    simp [List.getD, hfetch]
  unfold dispatchCycle
  rw [hget, hparse]
  simp

theorem depthChange_ge (instruction : Option Nat) : -1 ≤ depthChange instruction := by
  unfold depthChange
  split_ifs <;> omega

theorem skipLoopScan_zero (inputData : List Nat) (pastEnd fuel inputIndex : Nat) :
    skipLoopScan inputData pastEnd fuel 0 inputIndex = (0, inputIndex) := by
  cases fuel <;> simp [skipLoopScan]

/-- One iteration of the skip scan at a position whose successor is inside the program:
the count follows the nesting depth. -/
theorem skipLoopScan_succ (inputData : List Nat) (pastEnd fuel c i : Nat) (hc : 0 < c)
    (hi : i + 1 < inputData.length) :
    ∃ c1 : Nat, (c1 : Int) = (c : Int) + depthChange inputData[i + 1]? ∧
      skipLoopScan inputData pastEnd (fuel + 1) c i =
        skipLoopScan inputData pastEnd fuel c1 (i + 1) := by
  have hget : inputData.getD (i + 1) pastEnd = inputData[i + 1] := by
    simp [List.getD, List.getElem?_eq_getElem hi]
  have hopt : inputData[i + 1]? = some inputData[i + 1] := List.getElem?_eq_getElem hi
  have hcond : 0 < c ∧ i < inputData.length := ⟨hc, by omega⟩
  rw [skipLoopScan, if_pos hcond]
  simp only [hget, hopt, depthChange, Option.some.injEq]
  by_cases h1 : inputData[i + 1] = NIB_LOOP_START
  · rw [if_pos h1, if_pos h1]
    exact ⟨c + 1, by push_cast; rfl, rfl⟩
  · rw [if_neg h1, if_neg h1]
    by_cases h2 : inputData[i + 1] = NIB_LOOP_END
    · rw [if_pos h2, if_pos h2]
      exact ⟨c - 1, by omega, rfl⟩
    · rw [if_neg h2, if_neg h2]
      exact ⟨c, by omega, rfl⟩

/-- While the nesting depth stays positive and the scan stays inside the program, `m`
iterations of the skip scan move `m` positions forward with the count equal to the
nesting depth. -/
theorem skipLoopScan_steps (inputData : List Nat) (pastEnd s : Nat) :
    ∀ (m j c fuel : Nat), (c : Int) = nestingDepth inputData s j →
      (∀ k, j ≤ k → k < j + m → 0 < nestingDepth inputData s k) →
      s + j + m < inputData.length → m ≤ fuel →
      skipLoopScan inputData pastEnd fuel c (s + j) =
        skipLoopScan inputData pastEnd (fuel - m)
          (nestingDepth inputData s (j + m)).toNat (s + j + m) := by
  intro m
  induction m with
  | zero =>
    intro j c fuel hc _ _ _
    have : (nestingDepth inputData s (j + 0)).toNat = c := by
      rw [Nat.add_zero, ← hc]; rfl
    rw [this]; rfl
  | succ m ih =>
    intro j c fuel hc hpos hlen hfuel
    obtain ⟨f, rfl⟩ : ∃ f, fuel = f + 1 := ⟨fuel - 1, by omega⟩
    have hcpos : 0 < c := by
      have := hpos j (Nat.le_refl _) (by omega)
      omega
    obtain ⟨c1, hc1, hstep⟩ :=
      skipLoopScan_succ inputData pastEnd f c (s + j) hcpos (by omega)
    rw [hstep]
    have hc1' : (c1 : Int) = nestingDepth inputData s (j + 1) := by
      rw [hc1, hc]
      rfl
    have := ih (j + 1) c1 f hc1' (fun k hk1 hk2 => hpos k (by omega) (by omega))
      (by omega) (by omega)
    rw [show s + (j + 1) = s + j + 1 by omega] at this
    rw [this, show j + (m + 1) = j + 1 + m by omega,
      show f + 1 - (m + 1) = f - m by omega,
      show s + j + (m + 1) = s + j + 1 + m by omega]

/-- The skip scan started on a LOOP_START whose matching LOOP_END is at `e` stops at `e`. -/
theorem skipLoopScan_matching (inputData : List Nat) (pastEnd s e : Nat)
    (hmatch : MatchingLoopEnd inputData s e) :
    (skipLoopScan inputData pastEnd (inputData.length - s) 1 s).2 = e := by
  obtain ⟨hse, hlen, hzero, hpos⟩ := hmatch
  have h := skipLoopScan_steps inputData pastEnd s (e - s) 0 1 (inputData.length - s) rfl
    (fun k _ hk => hpos k (by omega)) (by omega) (by omega)
  rw [Nat.add_zero, Nat.zero_add, hzero] at h
  rw [h]
  simp only [Int.toNat_zero]
  rw [skipLoopScan_zero]
  simp only
  omega

theorem nestingDepth_pos_of_no_match (inputData : List Nat) (s : Nat)
    (hno : ¬ ∃ e, MatchingLoopEnd inputData s e) :
    ∀ n, s + n < inputData.length → 0 < nestingDepth inputData s n := by
  intro n
  induction n using Nat.strong_induction_on with
  | _ n ih =>
    intro hn
    by_contra hle
    cases n with
    | zero => exact hle (by simp [nestingDepth])
    | succ k =>
      have hk := ih k (by omega) (by omega)
      have hch := depthChange_ge inputData[s + k + 1]?
      have hzero : nestingDepth inputData s (k + 1) = 0 := by
        simp only [nestingDepth] at hle ⊢
        omega
      apply hno
      refine ⟨s + (k + 1), by omega, hn, ?_, ?_⟩
      · rw [show s + (k + 1) - s = k + 1 by omega]
        exact hzero
      · intro m hm
        exact ih m (by omega) (by omega)

/-- The skip scan started on a LOOP_START without matching LOOP_END stops at
`inputSize`, whatever byte lies behind the program. -/
theorem skipLoopScan_no_match (inputData : List Nat) (pastEnd s : Nat)
    (hs : s < inputData.length) (hno : ¬ ∃ e, MatchingLoopEnd inputData s e) :
    (skipLoopScan inputData pastEnd (inputData.length - s) 1 s).2 = inputData.length := by
  have hpos := nestingDepth_pos_of_no_match inputData s hno
  have h := skipLoopScan_steps inputData pastEnd s (inputData.length - 1 - s) 0 1
    (inputData.length - s) rfl (fun k _ hk => hpos k (by omega)) (by omega) (by omega)
  rw [Nat.add_zero, Nat.zero_add] at h
  rw [h]
  have hlast := hpos (inputData.length - 1 - s) (by omega)
  have hfuel : inputData.length - s - (inputData.length - 1 - s) = 0 + 1 := by omega
  have hidx : s + (inputData.length - 1 - s) = inputData.length - 1 := by omega
  rw [hfuel, hidx]
  have hcond : 0 < (nestingDepth inputData s (inputData.length - 1 - s)).toNat ∧
      inputData.length - 1 < inputData.length := ⟨by omega, by omega⟩
  rw [skipLoopScan, if_pos hcond]
  simp only
  split_ifs <;> simp only [skipLoopScan] <;> omega



theorem loopStart_zero (memStepSize : Nat) {s : State}
    (hcell : s.data[s.dataIndex]? = some 0) :
    loopStart memStepSize s = .ok ⟨s, true, false⟩ := by
  unfold loopStart
  rw [load_eq hcell]
  rfl

/-- A dispatch cycle whose instruction requests the skip: the error is raised exactly
when the scan stops at `inputSize`, otherwise `inputIndex` ends one past the position
where the scan stopped. -/
theorem dispatchCycle_skip (parse : Nat → Nat → State → Except Fault Parsed)
    (memStepSize : Nat) (inputData : List Nat) (pastEnd : Nat) (s : State)
    (hfetch : inputData[s.inputIndex]? = some NIB_LOOP_START)
    (hparse : parse NIB_LOOP_START memStepSize s = .ok ⟨s, true, false⟩) :
    dispatchCycle parse memStepSize inputData pastEnd s =
      if (skipLoopScan inputData pastEnd (inputData.length - s.inputIndex) 1
            s.inputIndex).2 = inputData.length
      then .error .unterminatedLoop
      else .ok { s with inputIndex :=
        (skipLoopScan inputData pastEnd (inputData.length - s.inputIndex) 1
            s.inputIndex).2 + 1 } := by
  have hget : inputData.getD s.inputIndex pastEnd = NIB_LOOP_START := by
    simp [List.getD, hfetch]
  unfold dispatchCycle
  rw [hget, hparse]
  simp

theorem dispatchCycle_skip_matching (parse : Nat → Nat → State → Except Fault Parsed)
    (memStepSize : Nat) (inputData : List Nat) (pastEnd : Nat) (s : State) (e : Nat)
    (hfetch : inputData[s.inputIndex]? = some NIB_LOOP_START)
    (hparse : parse NIB_LOOP_START memStepSize s = .ok ⟨s, true, false⟩)
    (hmatch : MatchingLoopEnd inputData s.inputIndex e) :
    dispatchCycle parse memStepSize inputData pastEnd s = .ok { s with inputIndex := e + 1 } := by
  rw [dispatchCycle_skip parse memStepSize inputData pastEnd s hfetch hparse,
    skipLoopScan_matching inputData pastEnd s.inputIndex e hmatch,
    if_neg (Nat.ne_of_lt hmatch.2.1)]

theorem dispatchCycle_skip_unterminated (parse : Nat → Nat → State → Except Fault Parsed)
    (memStepSize : Nat) (inputData : List Nat) (pastEnd : Nat) (s : State)
    (hfetch : inputData[s.inputIndex]? = some NIB_LOOP_START)
    (hparse : parse NIB_LOOP_START memStepSize s = .ok ⟨s, true, false⟩) :
    dispatchCycle parse memStepSize inputData pastEnd s = .error .unterminatedLoop ↔
      ¬ ∃ e, MatchingLoopEnd inputData s.inputIndex e := by
  constructor
  · rintro h ⟨e, he⟩
    rw [dispatchCycle_skip_matching parse memStepSize inputData pastEnd s e hfetch hparse he] at h
    exact absurd h (by simp)
  · intro hno
    have hlt : s.inputIndex < inputData.length := by
      by_contra hge
      rw [List.getElem?_eq_none (by omega)] at hfetch
      exact absurd hfetch (by simp)
    rw [dispatchCycle_skip parse memStepSize inputData pastEnd s hfetch hparse,
      skipLoopScan_no_match inputData pastEnd s.inputIndex hlt hno, if_pos rfl]

/-- C8: when the instruction at `inputIndex` is LOOP_START, the current cell is 0 and `e`
is the position of the matching LOOP_END (the first position after `inputIndex` where the
nesting depth, counted over LOOP_START and LOOP_END, returns to 0), one dispatch cycle of
either interpreter ends with `inputIndex = e + 1` and every other variable, the data, the
loop stack and the console unchanged. -/
theorem loopStart_skips_loop (memStepSize : Nat) (inputData : List Nat) (pastEnd : Nat)
    (s : State) (e : Nat)
    (hstart : inputData[s.inputIndex]? = some NIB_LOOP_START)
    (hcell : s.data[s.dataIndex]? = some 0)
    (hmatch : MatchingLoopEnd inputData s.inputIndex e) :
    dispatchCycle parseInstruction memStepSize inputData pastEnd s =
      .ok { s with inputIndex := e + 1 } ∧
    dispatchCycle parseInstructionSafely memStepSize inputData pastEnd s =
      .ok { s with inputIndex := e + 1 } :=
  ⟨dispatchCycle_skip_matching _ _ _ _ _ _ hstart
      (by rw [parseInstruction_loopStart]; exact loopStart_zero _ hcell) hmatch,
   dispatchCycle_skip_matching _ _ _ _ _ _ hstart
      (by rw [parseInstructionSafely_loopStart]; exact loopStart_zero _ hcell) hmatch⟩

theorem loopStart_skips_loop_witness :
    dispatchCycle parseInstruction 1
        [NIB_LOOP_START, NIB_INCREMENT_VALUE, NIB_LOOP_START, NIB_WRITE_VALUE, NIB_LOOP_END,
          NIB_LOOP_END, NIB_READ_VALUE] 0 (initialState 1 []) =
      .ok { initialState 1 [] with inputIndex := 5 + 1 } ∧
    dispatchCycle parseInstructionSafely 1
        [NIB_LOOP_START, NIB_INCREMENT_VALUE, NIB_LOOP_START, NIB_WRITE_VALUE, NIB_LOOP_END,
          NIB_LOOP_END, NIB_READ_VALUE] 0 (initialState 1 []) =
      .ok { initialState 1 [] with inputIndex := 5 + 1 } :=
  loopStart_skips_loop 1
    [NIB_LOOP_START, NIB_INCREMENT_VALUE, NIB_LOOP_START, NIB_WRITE_VALUE, NIB_LOOP_END,
      NIB_LOOP_END, NIB_READ_VALUE] 0 (initialState 1 []) 5 (by decide) (by decide) (by decide)

/-- C9: when the instruction at `inputIndex` is LOOP_START and the current cell is 0, the
dispatch cycle of either interpreter stops with "Expected end of loop" exactly when no
position after `inputIndex` inside the program holds the matching LOOP_END, whatever byte
lies behind the program; in particular a matching LOOP_END that is the last instruction
gives no error: the cycle ends with `inputIndex = inputSize`. -/
theorem skip_scan_unterminated (memStepSize : Nat) (inputData : List Nat) (pastEnd : Nat)
    (s : State)
    (hstart : inputData[s.inputIndex]? = some NIB_LOOP_START)
    (hcell : s.data[s.dataIndex]? = some 0) :
    (dispatchCycle parseInstruction memStepSize inputData pastEnd s =
        .error .unterminatedLoop ↔ ¬ ∃ e, MatchingLoopEnd inputData s.inputIndex e) ∧
    (dispatchCycle parseInstructionSafely memStepSize inputData pastEnd s =
        .error .unterminatedLoop ↔ ¬ ∃ e, MatchingLoopEnd inputData s.inputIndex e) ∧
    (MatchingLoopEnd inputData s.inputIndex (inputData.length - 1) →
      dispatchCycle parseInstruction memStepSize inputData pastEnd s =
        .ok { s with inputIndex := inputData.length } ∧
      dispatchCycle parseInstructionSafely memStepSize inputData pastEnd s =
        .ok { s with inputIndex := inputData.length }) := by
  have h1 : parseInstruction NIB_LOOP_START memStepSize s = .ok ⟨s, true, false⟩ := by
    rw [parseInstruction_loopStart]; exact loopStart_zero _ hcell
  have h2 : parseInstructionSafely NIB_LOOP_START memStepSize s = .ok ⟨s, true, false⟩ := by
    rw [parseInstructionSafely_loopStart]; exact loopStart_zero _ hcell
  refine ⟨dispatchCycle_skip_unterminated _ _ _ _ _ hstart h1,
    dispatchCycle_skip_unterminated _ _ _ _ _ hstart h2, ?_⟩
  intro hlast
  have hlen : inputData.length - 1 + 1 = inputData.length := by
    have := hlast.2.1
    omega
  have e1 := dispatchCycle_skip_matching _ memStepSize inputData pastEnd s _ hstart h1 hlast
  have e2 := dispatchCycle_skip_matching _ memStepSize inputData pastEnd s _ hstart h2 hlast
  rw [hlen] at e1 e2
  exact ⟨e1, e2⟩

theorem skip_scan_unterminated_witness :
    (dispatchCycle parseInstruction 1 [NIB_LOOP_START, NIB_LOOP_START, NIB_LOOP_END] 1
        (initialState 1 []) =
        .error .unterminatedLoop ↔
      ¬ ∃ e, MatchingLoopEnd [NIB_LOOP_START, NIB_LOOP_START, NIB_LOOP_END]
        (initialState 1 []).inputIndex e) ∧
    (dispatchCycle parseInstructionSafely 1 [NIB_LOOP_START, NIB_LOOP_START, NIB_LOOP_END] 1
        (initialState 1 []) =
        .error .unterminatedLoop ↔
      ¬ ∃ e, MatchingLoopEnd [NIB_LOOP_START, NIB_LOOP_START, NIB_LOOP_END]
        (initialState 1 []).inputIndex e) ∧
    (MatchingLoopEnd [NIB_LOOP_START, NIB_LOOP_START, NIB_LOOP_END]
        (initialState 1 []).inputIndex
        ([NIB_LOOP_START, NIB_LOOP_START, NIB_LOOP_END].length - 1) →
      dispatchCycle parseInstruction 1 [NIB_LOOP_START, NIB_LOOP_START, NIB_LOOP_END] 1
          (initialState 1 []) =
        .ok { initialState 1 [] with
               inputIndex := [NIB_LOOP_START, NIB_LOOP_START, NIB_LOOP_END].length } ∧
      dispatchCycle parseInstructionSafely 1 [NIB_LOOP_START, NIB_LOOP_START, NIB_LOOP_END] 1
          (initialState 1 []) =
        .ok { initialState 1 [] with
               inputIndex := [NIB_LOOP_START, NIB_LOOP_START, NIB_LOOP_END].length }) :=
  skip_scan_unterminated 1 [NIB_LOOP_START, NIB_LOOP_START, NIB_LOOP_END] 1
    (initialState 1 []) (by decide) (by decide)



theorem memset_tail (block : List Nat) (n : Nat) :
    memset (realloc block (block.length + n)) (((block.length + n : Nat) : Int) - (n : Int)) n =
      .ok (block ++ List.replicate n 0) := by
  have hstart : (((block.length + n : Nat) : Int) - (n : Int)) = (block.length : Int) := by
    push_cast; omega
  have hre : realloc block (block.length + n) = block ++ List.replicate n indeterminate := by
    unfold realloc
    rw [List.take_of_length_le (by omega), Nat.add_sub_cancel_left]
  rw [hstart, hre]
  unfold memset
  rw [if_pos ⟨by omega, by simp⟩]
  simp

/-- Case `NIB_INCREMENT_POINTER` in a state whose block has `dataSize` cells and whose
grown size, when it grows, fits a `uint32_t`: the cursor is incremented, and the tape gets `memStepSize`
new zero cells exactly when the incremented cursor equals `dataSize`. -/
theorem incrementPointer_eq (memStepSize : Nat) (s : State)
    (hlen : s.data.length = s.dataSize)
    (hfit : (s.dataIndex + 1) % U32 = s.dataSize → s.dataSize + memStepSize < U32) :
    incrementPointer memStepSize s =
      .ok { s with
        dataIndex := (s.dataIndex + 1) % U32
        dataSize :=
          if (s.dataIndex + 1) % U32 = s.dataSize then s.dataSize + memStepSize
          else s.dataSize
        data :=
          if (s.dataIndex + 1) % U32 = s.dataSize then s.data ++ List.replicate memStepSize 0
          else s.data } := by
  unfold incrementPointer
  simp only
  by_cases h : (s.dataIndex + 1) % U32 = s.dataSize
  · rw [if_pos h, if_pos h, if_pos h, Nat.mod_eq_of_lt (hfit h)]
    have := memset_tail s.data memStepSize
    rw [hlen] at this
    rw [this]
  · rw [if_neg h, if_neg h, if_neg h]

theorem succ_div_cases (k m : Nat) (hm : 0 < m) :
    (k + 1 = m * (k / m + 1) ∧ (k + 1) / m = k / m + 1) ∨
    (k + 1 < m * (k / m + 1) ∧ (k + 1) / m = k / m) := by
  have hq : m * (k / m) + k % m = k := Nat.div_add_mod k m
  have hr : k % m < m := Nat.mod_lt k hm
  have hmul : m * (k / m + 1) = m * (k / m) + m := Nat.mul_succ _ _
  by_cases hcase : k % m + 1 = m
  · left
    refine ⟨by omega, ?_⟩
    have : k + 1 = m * (k / m + 1) := by omega
    rw [this, Nat.mul_div_cancel_left _ hm]
  · right
    refine ⟨by omega, ?_⟩
    apply Nat.div_eq_of_lt_le
    · rw [Nat.mul_comm]; omega
    · rw [Nat.mul_comm]; omega

theorem incrementPointer_pointerState (memStepSize : Nat) (stdin : List Nat) (k : Nat)
    (hm : 0 < memStepSize) (hfit : memStepSize * ((k + 1) / memStepSize + 1) < U32) :
    incrementPointer memStepSize (pointerState memStepSize stdin k) =
      .ok { pointerState memStepSize stdin (k + 1) with inputIndex := k } := by
  have hmul : memStepSize * (k / memStepSize + 1 + 1) =
      memStepSize * (k / memStepSize + 1) + memStepSize := Nat.mul_succ _ _
  have hk : k < memStepSize * (k / memStepSize + 1) := Nat.lt_mul_div_succ k hm
  rcases succ_div_cases k memStepSize hm with ⟨h1, h2⟩ | ⟨h1, h2⟩
  · rw [h2] at hfit
    have hidx : (k + 1) % U32 = k + 1 := Nat.mod_eq_of_lt (by omega)
    rw [incrementPointer_eq _ _ (by simp [pointerState])
      (by intro _; simp only [pointerState]; omega)]
    simp only [pointerState, hidx, h2]
    rw [if_pos h1, if_pos h1, List.append_replicate_replicate, hmul]
  · rw [h2] at hfit
    have hidx : (k + 1) % U32 = k + 1 := Nat.mod_eq_of_lt (by omega)
    rw [incrementPointer_eq _ _ (by simp [pointerState])
      (by intro h; simp only [pointerState, hidx] at h; omega)]
    simp only [pointerState, hidx, h2]
    rw [if_neg (by omega), if_neg (by omega)]



theorem pointerState_zero (memStepSize : Nat) (stdin : List Nat) :
    pointerState memStepSize stdin 0 = initialState memStepSize stdin := by
  simp [pointerState, initialState]

theorem dispatchCycle_pointerState (parse : Nat → Nat → State → Except Fault Parsed)
    (hparse : ∀ m s, parse NIB_INCREMENT_POINTER m s = plain (incrementPointer m s))
    (memStepSize : Nat) (stdin : List Nat) (n pastEnd k : Nat) (hm : 0 < memStepSize)
    (hk : k < n) (hfit : memStepSize * ((k + 1) / memStepSize + 1) < U32) :
    dispatchCycle parse memStepSize (List.replicate n NIB_INCREMENT_POINTER) pastEnd
        (pointerState memStepSize stdin k) =
      .ok (pointerState memStepSize stdin (k + 1)) := by
  have hfetch : (List.replicate n NIB_INCREMENT_POINTER)[
      (pointerState memStepSize stdin k).inputIndex]? = some NIB_INCREMENT_POINTER := by
    simp [pointerState, hk]
  rw [dispatchCycle_plain parse memStepSize _ pastEnd _
    { pointerState memStepSize stdin (k + 1) with inputIndex := k } _ hfetch
    (by rw [hparse, incrementPointer_pointerState _ _ _ hm hfit]; rfl)]
  rfl

theorem interpretWith_pointerState (parse : Nat → Nat → State → Except Fault Parsed)
    (hparse : ∀ m s, parse NIB_INCREMENT_POINTER m s = plain (incrementPointer m s))
    (memStepSize : Nat) (stdin : List Nat) (n pastEnd : Nat) (hm : 0 < memStepSize)
    (hfit : memStepSize * (n / memStepSize + 1) < U32) :
    ∀ j k fuel, k + j = n →
      interpretWith parse memStepSize (List.replicate n NIB_INCREMENT_POINTER) pastEnd
          (fuel + j) (pointerState memStepSize stdin k) =
        some (.ok (pointerState memStepSize stdin n)) := by
  intro j
  induction j with
  | zero =>
    intro k fuel hk
    have : k = n := by omega
    subst this
    exact interpretWith_done _ _ _ _ _ _ (by simp [pointerState])
  | succ j ih =>
    intro k fuel hk
    have hbound : memStepSize * ((k + 1) / memStepSize + 1) < U32 :=
      Nat.lt_of_le_of_lt
        (Nat.mul_le_mul_left _ (Nat.succ_le_succ (Nat.div_le_div_right (by omega)))) hfit
    rw [show fuel + (j + 1) = (fuel + j) + 1 by omega,
      interpretWith_step _ _ _ _ _ _ _ (by simp [pointerState]; omega)
        (dispatchCycle_pointerState parse hparse memStepSize stdin n pastEnd k hm (by omega)
          hbound)]
    exact ih (k + 1) fuel (by omega)

/-- C10: for a step size `s >= 1` and `n` with `s * (n / s + 1) < 2^32`, the program made
of `n` instructions INCR_PTR, run from the initial state by either interpreter, ends with
cursor `n` and a tape of exactly `s * (n / s + 1)` cells that are all 0; and one INCR_PTR,
in a state whose block has `dataSize` cells, appends exactly `s` zero cells when the
incremented cursor equals `dataSize` (the new size fitting 32 bits) and none otherwise,
keeping the existing cells. -/
theorem incrementPointer_growth (memStepSize n pastEnd : Nat) (stdin : List Nat)
    (hstep : 1 ≤ memStepSize) (hfit : memStepSize * (n / memStepSize + 1) < 4294967296) :
    (∀ fuel, interpret memStepSize (List.replicate n NIB_INCREMENT_POINTER) pastEnd
        (fuel + n) (initialState memStepSize stdin) =
      some (.ok { initialState memStepSize stdin with
        inputIndex := n
        dataIndex := n
        dataSize := memStepSize * (n / memStepSize + 1)
        data := List.replicate (memStepSize * (n / memStepSize + 1)) 0 })) ∧
    (∀ fuel, interpretSafely memStepSize (List.replicate n NIB_INCREMENT_POINTER) pastEnd
        (fuel + n) (initialState memStepSize stdin) =
      some (.ok { initialState memStepSize stdin with
        inputIndex := n
        dataIndex := n
        dataSize := memStepSize * (n / memStepSize + 1)
        data := List.replicate (memStepSize * (n / memStepSize + 1)) 0 })) ∧
    (∀ s : State, s.data.length = s.dataSize →
      ((s.dataIndex + 1) % 4294967296 = s.dataSize →
        s.dataSize + memStepSize < 4294967296) →
      ∃ s1, parseInstruction NIB_INCREMENT_POINTER memStepSize s = .ok ⟨s1, false, false⟩ ∧
        parseInstructionSafely NIB_INCREMENT_POINTER memStepSize s =
          .ok ⟨s1, false, false⟩ ∧
        s1.dataIndex = (s.dataIndex + 1) % 4294967296 ∧
        s1.dataSize = s.dataSize +
          (if (s.dataIndex + 1) % 4294967296 = s.dataSize then memStepSize else 0) ∧
        s1.data.length = s1.dataSize ∧
        s1.data = s.data ++ List.replicate (s1.dataSize - s.dataSize) 0) := by
  refine ⟨?_, ?_, ?_⟩
  · intro fuel
    have h := interpretWith_pointerState parseInstruction parseInstruction_incrementPointer
      memStepSize stdin n pastEnd hstep hfit n 0 fuel (by omega)
    rw [pointerState_zero] at h
    exact h
  · intro fuel
    have h := interpretWith_pointerState parseInstructionSafely
      parseInstructionSafely_incrementPointer memStepSize stdin n pastEnd hstep hfit n 0 fuel
      (by omega)
    rw [pointerState_zero] at h
    exact h
  · intro s hlen hgrow
    have heq := incrementPointer_eq memStepSize s hlen hgrow
    refine ⟨_, by rw [parseInstruction_incrementPointer, heq]; rfl,
      by rw [parseInstructionSafely_incrementPointer, heq]; rfl, rfl, ?_, ?_, ?_⟩
    · show (if (s.dataIndex + 1) % U32 = s.dataSize then s.dataSize + memStepSize
        else s.dataSize) = _
      unfold U32
      split_ifs <;> rfl
    · show (if (s.dataIndex + 1) % U32 = s.dataSize then
          s.data ++ List.replicate memStepSize 0 else s.data).length =
        (if (s.dataIndex + 1) % U32 = s.dataSize then s.dataSize + memStepSize
          else s.dataSize)
      split_ifs <;> simp [hlen]
    · show (if (s.dataIndex + 1) % U32 = s.dataSize then
          s.data ++ List.replicate memStepSize 0 else s.data) =
        s.data ++ List.replicate
          ((if (s.dataIndex + 1) % U32 = s.dataSize then s.dataSize + memStepSize
            else s.dataSize) - s.dataSize) 0
      split_ifs <;> simp

theorem incrementPointer_growth_witness :
    (∀ fuel, interpret 3 (List.replicate 7 NIB_INCREMENT_POINTER) 0
        (fuel + 7) (initialState 3 []) =
      some (.ok { initialState 3 [] with
        inputIndex := 7
        dataIndex := 7
        dataSize := 3 * (7 / 3 + 1)
        data := List.replicate (3 * (7 / 3 + 1)) 0 })) ∧
    (∀ fuel, interpretSafely 3 (List.replicate 7 NIB_INCREMENT_POINTER) 0
        (fuel + 7) (initialState 3 []) =
      some (.ok { initialState 3 [] with
        inputIndex := 7
        dataIndex := 7
        dataSize := 3 * (7 / 3 + 1)
        data := List.replicate (3 * (7 / 3 + 1)) 0 })) ∧
    (∀ s : State, s.data.length = s.dataSize →
      ((s.dataIndex + 1) % 4294967296 = s.dataSize →
        s.dataSize + 3 < 4294967296) →
      ∃ s1, parseInstruction NIB_INCREMENT_POINTER 3 s = .ok ⟨s1, false, false⟩ ∧
        parseInstructionSafely NIB_INCREMENT_POINTER 3 s =
          .ok ⟨s1, false, false⟩ ∧
        s1.dataIndex = (s.dataIndex + 1) % 4294967296 ∧
        s1.dataSize = s.dataSize +
          (if (s.dataIndex + 1) % 4294967296 = s.dataSize then 3 else 0) ∧
        s1.data.length = s1.dataSize ∧
        s1.data = s.data ++ List.replicate (s1.dataSize - s.dataSize) 0) :=
  incrementPointer_growth 3 7 0 [] (by decide) (by decide)



theorem depthChange_other {x : Nat} (h1 : x ≠ NIB_LOOP_START) (h2 : x ≠ NIB_LOOP_END) :
    depthChange (some x) = 0 := by
  simp [depthChange, h1, h2]

theorem depthChange_loopStart : depthChange (some NIB_LOOP_START) = 1 := by
  simp [depthChange]

theorem depthChange_loopEnd : depthChange (some NIB_LOOP_END) = -1 := by
  decide

/-- The depth just after position `p`, counted from `t < p`. -/
theorem nestingDepth_at {inputData : List Nat} {t p : Nat} (h : t < p) :
    nestingDepth inputData t (p - t) =
      nestingDepth inputData t (p - 1 - t) + depthChange inputData[p]? := by
  obtain ⟨k, rfl⟩ : ∃ k, p = t + k + 1 := ⟨p - t - 1, by omega⟩
  rw [show t + k + 1 - t = k + 1 by omega, show t + k + 1 - 1 - t = k by omega]
  rfl

/-- Instruction other than a loop opcode at `p`: the enclosing loop of `p` encloses
`p + 1`. -/
theorem OpenAt.step {inputData : List Nat} {t p x : Nat} (h : OpenAt inputData t p)
    (hx : inputData[p]? = some x) (h1 : x ≠ NIB_LOOP_START) (h2 : x ≠ NIB_LOOP_END) :
    OpenAt inputData t (p + 1) := by
  obtain ⟨htp, hstart, hpos, hone⟩ := h
  have hat := @nestingDepth_at inputData t p htp
  rw [hone, hx, depthChange_other h1 h2] at hat
  refine ⟨by omega, hstart, ?_, ?_⟩
  · intro n hn
    by_cases hlt : n < p - t
    · exact hpos n hlt
    · have : n = p - t := by omega
      rw [this, hat]; decide
  · rw [show p + 1 - 1 - t = p - t by omega, hat]; rfl

/-- A LOOP_START at `p` encloses `p + 1`. -/
theorem OpenAt.push {inputData : List Nat} {p : Nat}
    (hx : inputData[p]? = some NIB_LOOP_START) : OpenAt inputData p (p + 1) := by
  refine ⟨by omega, hx, ?_, ?_⟩
  · intro n hn
    have : n = 0 := by omega
    rw [this]
    show (0 : Int) < 1
    decide
  · rw [show p + 1 - 1 - p = 0 by omega]; rfl

/-- Depth counted from an enclosing LOOP_START `t` and from a LOOP_START at `p`. -/
theorem nestingDepth_shift {inputData : List Nat} {t p : Nat} (h : OpenAt inputData t p)
    (hx : inputData[p]? = some NIB_LOOP_START) (j : Nat) :
    nestingDepth inputData t (p - t + j) = nestingDepth inputData p j + 1 := by
  obtain ⟨htp, _, _, hone⟩ := h
  induction j with
  | zero =>
    rw [Nat.add_zero, nestingDepth_at htp, hone, hx, depthChange_loopStart]
    rfl
  | succ j ih =>
    rw [show p - t + (j + 1) = (p - t + j) + 1 by omega]
    simp only [nestingDepth]
    rw [ih, show t + (p - t + j) + 1 = p + j + 1 by omega]
    omega

/-- Skipped loop from `p` to its matching LOOP_END `e`: the enclosing loop of `p`
encloses `e + 1`. -/
theorem OpenAt.skip {inputData : List Nat} {t p e : Nat} (h : OpenAt inputData t p)
    (hx : inputData[p]? = some NIB_LOOP_START) (hm : MatchingLoopEnd inputData p e) :
    OpenAt inputData t (e + 1) := by
  have hshift := nestingDepth_shift h hx
  obtain ⟨htp, hstart, hpos, hone⟩ := h
  obtain ⟨hpe, helen, hzero, hmpos⟩ := hm
  refine ⟨by omega, hstart, ?_, ?_⟩
  · intro n hn
    by_cases hlt : n < p - t
    · exact hpos n hlt
    · obtain ⟨j, rfl⟩ : ∃ j, n = p - t + j := ⟨n - (p - t), by omega⟩
      rw [hshift j]
      by_cases hj : j < e - p
      · have := hmpos j hj
        omega
      · have : j = e - p := by omega
        rw [this, hzero]; decide
  · rw [show e + 1 - 1 - t = p - t + (e - p) by omega, hshift, hzero]; rfl

/-- A LOOP_END at `p` is the matching LOOP_END of the loop that encloses `p`. -/
theorem OpenAt.matching {inputData : List Nat} {t p : Nat} (h : OpenAt inputData t p)
    (hx : inputData[p]? = some NIB_LOOP_END) : MatchingLoopEnd inputData t p := by
  obtain ⟨htp, _, hpos, hone⟩ := h
  have hlen : p < inputData.length := by
    by_contra hge
    rw [List.getElem?_eq_none (by omega)] at hx
    exact absurd hx (by simp)
  refine ⟨htp, hlen, ?_, hpos⟩
  rw [nestingDepth_at htp, hone, hx, depthChange_loopEnd]; rfl



/-- The two successful outcomes of case `NIB_LOOP_START` during a run: the skip request
on a zero cell, or the push of `inputIndex` at the next index, inside the block. -/
theorem loopStart_cases {memStepSize : Nat} {inputData : List Nat} {s : State} {p : Parsed}
    (hstep : 0 < memStepSize) (hstep32 : memStepSize < U32)
    (hok : LoopStackOk memStepSize inputData s)
    (h : loopStart memStepSize s = .ok p) :
    (p = ⟨s, true, false⟩ ∧ s.data[s.dataIndex]? = some 0) ∨
    (p = ⟨{ s with loopStackIndex := (s.loopStackIndex + 1) % U32,
                   loopStack := s.loopStack.set ((s.loopStackIndex + 1) % U32) s.inputIndex },
          false, false⟩ ∧
      (s.loopStackIndex + 1) % U32 < memStepSize ∧
      ((s.loopStackEmpty ∧ (s.loopStackIndex + 1) % U32 = 0) ∨
       (¬ s.loopStackEmpty ∧ (s.loopStackIndex + 1) % U32 = s.loopStackIndex + 1))) := by
  obtain ⟨hshift, hlen, hsize, hidx, hent⟩ := hok
  unfold loopStart at h
  split at h
  · exact absurd h (by simp)
  · rename_i v hv
    split at h
    · rename_i hzero
      left
      refine ⟨(Except.ok.inj h).symm, ?_⟩
      unfold load at hv
      split at hv
      · rename_i w hw
        rw [hw, ← hzero]
        exact congrArg some (Except.ok.inj hv)
      · exact absurd hv (by simp)
    · right
      simp only at h
      by_cases hfull : (s.loopStackIndex + 1) % U32 = s.loopStackSize
      · rw [if_pos hfull, growLoopStack_fault memStepSize _ hstep (by simp only; omega)] at h
        exact absurd h (by simp)
      · rw [if_neg hfull] at h
        simp only [hshift, Nat.zero_add] at h
        have hnew : (s.loopStackIndex + 1) % U32 < memStepSize := by
          unfold U32 at *
          omega
        rw [store_eq _ (by omega)] at h
        refine ⟨(Except.ok.inj h).symm.trans ?_, hnew, ?_⟩
        · rw [hshift]
        · unfold State.loopStackEmpty
          unfold U32 at *
          omega

theorem dispatchCycle_skip_ok {parse : Nat → Nat → State → Except Fault Parsed}
    {memStepSize : Nat} {inputData : List Nat} {pastEnd : Nat} {s s1 : State}
    (hfetch : inputData[s.inputIndex]? = some NIB_LOOP_START)
    (hparse : parse NIB_LOOP_START memStepSize s = .ok ⟨s, true, false⟩)
    (hc : dispatchCycle parse memStepSize inputData pastEnd s = .ok s1) :
    ∃ e, MatchingLoopEnd inputData s.inputIndex e ∧ s1 = { s with inputIndex := e + 1 } := by
  by_cases hex : ∃ e, MatchingLoopEnd inputData s.inputIndex e
  · obtain ⟨e, he⟩ := hex
    rw [dispatchCycle_skip_matching parse memStepSize inputData pastEnd s e hfetch hparse he]
      at hc
    exact ⟨e, he, (Except.ok.inj hc).symm⟩
  · rw [(dispatchCycle_skip_unterminated parse memStepSize inputData pastEnd s hfetch
      hparse).2 hex] at hc
    exact absurd hc (by simp)

/-- One dispatch cycle of `interpret` keeps the loop stack nested. -/
theorem dispatchCycle_nested {memStepSize : Nat} {inputData : List Nat} {pastEnd : Nat}
    {s s1 : State} (hstep : 0 < memStepSize) (hstep32 : memStepSize < U32)
    (hok : LoopStackOk memStepSize inputData s) (hn : LoopStackNested inputData s)
    (hlt : s.inputIndex < inputData.length)
    (hc : dispatchCycle parseInstruction memStepSize inputData pastEnd s = .ok s1) :
    LoopStackNested inputData s1 := by
  have hfetch := getD_of_lt pastEnd hlt
  obtain ⟨p, ip, hp, _⟩ := dispatchCycle_ok hc
  generalize inputData.getD s.inputIndex pastEnd = x at hfetch hp
  have hlen := hok.2.1
  have hsize := hok.2.2.1
  by_cases hs : x = NIB_LOOP_START
  · subst hs
    rw [parseInstruction_loopStart] at hp
    rcases loopStart_cases hstep hstep32 hok hp with ⟨rfl, hzero⟩ | ⟨rfl, hnew, hcase⟩
    · obtain ⟨e, he, rfl⟩ := dispatchCycle_skip_ok hfetch
        (by rw [parseInstruction_loopStart]; exact hp) hc
      intro hne
      obtain ⟨⟨top, htop, hopen⟩, hchain⟩ := hn hne
      exact ⟨⟨top, htop, hopen.skip hfetch he⟩, hchain⟩
    · rw [dispatchCycle_plain parseInstruction memStepSize inputData pastEnd s _ _ hfetch
        (by rw [parseInstruction_loopStart]; exact hp)] at hc
      obtain rfl := Except.ok.inj hc
      have hset : (s.loopStack.set ((s.loopStackIndex + 1) % U32) s.inputIndex)[
          (s.loopStackIndex + 1) % U32]? = some s.inputIndex := by
        rw [List.getElem?_set_self]
        omega
      intro _
      simp only
      refine ⟨⟨s.inputIndex, hset, OpenAt.push hfetch⟩, ?_⟩
      intro j hj
      rcases hcase with ⟨_, h0⟩ | ⟨hne, hsucc⟩
      · omega
      · obtain ⟨⟨top, htop, hopen⟩, hchain⟩ := hn hne
        rw [List.getElem?_set_ne (by omega)]
        by_cases hjtop : j = s.loopStackIndex
        · subst hjtop
          refine ⟨top, s.inputIndex, htop, ?_, hopen⟩
          have hset1 := hset
          rw [hsucc] at hset1 ⊢
          exact hset1
        · obtain ⟨a, b, ha, hb, hab⟩ := hchain j (by omega)
          refine ⟨a, b, ha, ?_, hab⟩
          rw [List.getElem?_set_ne (by omega)]
          exact hb
  · by_cases he : x = NIB_LOOP_END
    · subst he
      rw [parseInstruction_loopEnd] at hp
      split at hp
      · exact absurd hp (by simp)
      · rename_i hidx
        obtain ⟨top, htop, _, hback, hdec, _⟩ := loopBack_ok hstep32 hok (by omega)
        rw [dispatchCycle_jump parseInstruction memStepSize inputData pastEnd s _ _ hfetch
          (by rw [parseInstruction_loopEnd, if_neg hidx]; exact hback)] at hc
        obtain rfl := Except.ok.inj hc
        have hne : ¬ s.loopStackEmpty := by
          unfold State.loopStackEmpty U32 at *
          omega
        obtain ⟨_, hchain⟩ := hn hne
        intro hne1
        unfold State.loopStackEmpty at hne1
        simp only at hne1 ⊢
        rw [hdec] at hne1 ⊢
        by_cases h0 : s.loopStackIndex = 0
        · rw [if_pos h0] at hne1
          exact absurd rfl hne1
        · rw [if_neg h0]
          obtain ⟨a, b, ha, hb, hab⟩ := hchain (s.loopStackIndex - 1) (by omega)
          rw [show s.loopStackIndex - 1 + 1 = s.loopStackIndex by omega, htop] at hb
          obtain rfl := Option.some.inj hb
          exact ⟨⟨a, ha, hab⟩, fun j hj => hchain j (by omega)⟩
    · obtain ⟨⟨h1, h2, h3, h4⟩, hip, hf1, hf2⟩ := parseInstruction_frame hs he hp
      obtain ⟨q, f1, f2⟩ := p
      simp only at h1 h2 h3 h4 hip hf1 hf2
      subst hf1 hf2
      rw [dispatchCycle_plain parseInstruction memStepSize inputData pastEnd s _ _ hfetch hp]
        at hc
      obtain rfl := Except.ok.inj hc
      intro hne
      unfold State.loopStackEmpty at hne
      simp only at hne ⊢
      rw [h3] at hne
      obtain ⟨⟨top, htop, hopen⟩, hchain⟩ := hn hne
      rw [h1, h3, hip]
      exact ⟨⟨top, htop, hopen.step hfetch hs he⟩, hchain⟩

/-- Every state at the start of a dispatch cycle of a run with `parseInstruction` has a
nested loop stack. -/
theorem reachable_nested {memStepSize : Nat} {inputData : List Nat} {pastEnd : Nat}
    {stdin : List Nat} {s : State} (hstep : 0 < memStepSize) (hstep32 : memStepSize < U32)
    (h : Reachable parseInstruction memStepSize inputData pastEnd stdin s) :
    LoopStackNested inputData s := by
  induction h with
  | initial => exact fun hne => absurd (initialState_loopStackEmpty _ _) hne
  | cycle hr hlt hc ih =>
    exact dispatchCycle_nested hstep hstep32 (reachable_loopStackOk hstep hstep32 hr) ih hlt hc



/-- LOOP_END as long as the loop stack has not grown (the states of `Reachable`, which a
growth never extends): in a run with `parseInstruction` from the initial state (step size
a positive `uint32_t`), at the start of every dispatch cycle, LOOP_END stops with
"Unexpected end of loop" exactly when the loop stack is empty; otherwise it pops the top
entry `top`, which is the position of a LOOP_START, and sets `inputIndex` to it; and when
the instruction at `inputIndex` is that LOOP_END, `top` is its matching LOOP_START (by
nesting depth) and the dispatch cycle ends with `inputIndex = top`, not advanced, so that
this LOOP_START is the next instruction examined. -/
theorem strict_loopEnd (memStepSize : Nat) (inputData : List Nat) (pastEnd : Nat)
    (stdin : List Nat) (s : State) (hstep : 0 < memStepSize) (hstep32 : memStepSize < U32)
    (hreach : Reachable parseInstruction memStepSize inputData pastEnd stdin s) :
    (parseInstruction NIB_LOOP_END memStepSize s = .error .unexpectedLoopEnd ↔
      s.loopStackEmpty) ∧
    (¬ s.loopStackEmpty →
      ∃ top, s.loopStack[s.loopStackIndex]? = some top ∧
        inputData[top]? = some NIB_LOOP_START ∧
        parseInstruction NIB_LOOP_END memStepSize s =
          .ok ⟨{ s with inputIndex := top,
                        loopStackIndex :=
                          if s.loopStackIndex = 0 then 4294967295
                          else s.loopStackIndex - 1 }, false, true⟩ ∧
        (inputData[s.inputIndex]? = some NIB_LOOP_END →
          MatchingLoopEnd inputData top s.inputIndex ∧
          dispatchCycle parseInstruction memStepSize inputData pastEnd s =
            .ok { s with inputIndex := top,
                         loopStackIndex :=
                           if s.loopStackIndex = 0 then 4294967295
                           else s.loopStackIndex - 1 })) := by
  have hok := reachable_loopStackOk hstep hstep32 hreach
  have hnest := reachable_nested hstep hstep32 hreach
  have hmark := hok.2.2.2.1
  have hsize := hok.2.2.1
  constructor
  · unfold State.loopStackEmpty
    rw [parseInstruction_loopEnd]
    constructor
    · intro h
      split at h
      · rename_i hge
        rcases hmark with h1 | h1
        · exact h1
        · omega
      · rename_i hlt
        obtain ⟨top, _, _, hback, _, _⟩ := loopBack_ok hstep32 hok (by omega)
        rw [hback] at h
        exact absurd h (by simp)
    · intro h
      rw [if_pos (by unfold U32 at *; omega)]
  · intro hne
    have hlt : s.loopStackIndex < s.loopStackSize := by
      rcases hmark with h1 | h1
      · exact absurd h1 hne
      · omega
    obtain ⟨top, htop, hd, hback, hdec, _⟩ := loopBack_ok hstep32 hok hlt
    have hparse : parseInstruction NIB_LOOP_END memStepSize s =
        .ok ⟨{ s with inputIndex := top,
                      loopStackIndex :=
                        if s.loopStackIndex = 0 then 4294967295
                        else s.loopStackIndex - 1 }, false, true⟩ := by
      rw [parseInstruction_loopEnd, if_neg (by omega), hback, hdec]
      rfl
    refine ⟨top, htop, hd, hparse, ?_⟩
    intro hfetch
    obtain ⟨⟨top1, htop1, hopen⟩, _⟩ := hnest hne
    rw [htop] at htop1
    obtain rfl := Option.some.inj htop1
    exact ⟨hopen.matching hfetch, dispatchCycle_jump _ _ _ _ _ _ _ hfetch hparse⟩

theorem strict_loopEnd_witness :
    Reachable parseInstruction 2 countdownProgram 0 [] countdownStates.2.2 ∧
    ((parseInstruction NIB_LOOP_END 2 countdownStates.2.2 = .error .unexpectedLoopEnd ↔
      countdownStates.2.2.loopStackEmpty) ∧
    (¬ countdownStates.2.2.loopStackEmpty →
      ∃ top, countdownStates.2.2.loopStack[countdownStates.2.2.loopStackIndex]? = some top ∧
        countdownProgram[top]? = some NIB_LOOP_START ∧
        parseInstruction NIB_LOOP_END 2 countdownStates.2.2 =
          .ok ⟨{ countdownStates.2.2 with
                  inputIndex := top,
                  loopStackIndex :=
                    if countdownStates.2.2.loopStackIndex = 0 then 4294967295
                    else countdownStates.2.2.loopStackIndex - 1 }, false, true⟩ ∧
        (countdownProgram[countdownStates.2.2.inputIndex]? = some NIB_LOOP_END →
          MatchingLoopEnd countdownProgram top countdownStates.2.2.inputIndex ∧
          dispatchCycle parseInstruction 2 countdownProgram 0 countdownStates.2.2 =
            .ok { countdownStates.2.2 with
                   inputIndex := top,
                   loopStackIndex :=
                     if countdownStates.2.2.loopStackIndex = 0 then 4294967295
                     else countdownStates.2.2.loopStackIndex - 1 }))) := by
  have r1 : Reachable parseInstruction 2 countdownProgram 0 [] countdownStates.1 :=
    Reachable.cycle Reachable.initial (by decide) (by rfl)
  have r2 : Reachable parseInstruction 2 countdownProgram 0 [] countdownStates.2.1 :=
    Reachable.cycle r1 (by decide) (by rfl)
  have r3 : Reachable parseInstruction 2 countdownProgram 0 [] countdownStates.2.2 :=
    Reachable.cycle r2 (by decide) (by rfl)
  exact ⟨r3, strict_loopEnd 2 countdownProgram 0 [] countdownStates.2.2 (by decide)
    (by decide) r3⟩



/-- The iteration bound of `skipLoopScan` never cuts the C loop short: with at least
`inputSize - inputIndex` iterations allowed, the scan returns with the condition
`loopCount > 0 && inputIndex < inputSize` false. -/
theorem skipLoopScan_exit (inputData : List Nat) (pastEnd : Nat) :
    ∀ fuel loopCount inputIndex, inputData.length - inputIndex ≤ fuel →
      ¬ (0 < (skipLoopScan inputData pastEnd fuel loopCount inputIndex).1 ∧
        (skipLoopScan inputData pastEnd fuel loopCount inputIndex).2 < inputData.length) := by
  intro fuel
  induction fuel with
  | zero =>
    intro c i hfuel
    simp only [skipLoopScan]
    omega
  | succ fuel ih =>
    intro c i hfuel
    rw [skipLoopScan]
    by_cases hcond : 0 < c ∧ i < inputData.length
    · rw [if_pos hcond]
      simp only
      split_ifs
      · exact ih _ _ (by omega)
      · exact ih _ _ (by omega)
      · exact ih _ _ (by omega)
    · rw [if_neg hcond]
      exact hcond



theorem set_same {l : List Nat} {i v : Nat} (h : l[i]? = some v) : l.set i v = l := by
  induction l generalizing i with
  | nil => rfl
  | cons a rest ih =>
    cases i with
    | zero =>
      simp only [List.getElem?_cons_zero, Option.some.injEq] at h
      rw [List.set_cons_zero, h]
    | succ j =>
      simp only [List.getElem?_cons_succ] at h
      rw [List.set_cons_succ, ih h]

theorem lt_length_of_getElem {l : List Nat} {i v : Nat} (h : l[i]? = some v) :
    i < l.length := by
  by_contra hge
  rw [List.getElem?_eq_none (by omega)] at h
  exact absurd h (by simp)

theorem incrementValue_eq {s : State} {v : Nat} (hcell : s.data[s.dataIndex]? = some v) :
    incrementValue s = .ok { s with data := s.data.set s.dataIndex ((v + 1) % 256) } := by
  unfold incrementValue
  rw [load_eq hcell]
  simp only
  rw [store_eq _ (lt_length_of_getElem hcell)]

theorem decrementValue_eq {s : State} {v : Nat} (hcell : s.data[s.dataIndex]? = some v) :
    decrementValue s = .ok { s with data := s.data.set s.dataIndex ((v + 255) % 256) } := by
  unfold decrementValue
  rw [load_eq hcell]
  simp only
  rw [store_eq _ (lt_length_of_getElem hcell)]

theorem writeValue_eq {s : State} {v : Nat} (hcell : s.data[s.dataIndex]? = some v) :
    writeValue s = .ok { s with stdout := s.stdout ++ [v] } := by
  unfold writeValue
  rw [load_eq hcell]

theorem readValue_eq {s : State} (hidx : s.dataIndex < s.data.length) :
    readValue s = .ok { s with data := s.data.set s.dataIndex (toUint8 (getchar s.stdin).1),
                               stdin := (getchar s.stdin).2 } := by
  unfold readValue
  rw [store_eq _ hidx]

/-- Writing a cell twice and ending with the value it had gives the state back. -/
theorem State.set_set_same (s : State) {v : Nat} (w : Nat)
    (hcell : s.data[s.dataIndex]? = some v) :
    ({ s with data := (s.data.set s.dataIndex w).set s.dataIndex v } : State) = s := by
  rw [List.set_set, set_same hcell]

/-- C11: in a state whose cursor is inside the tape, on a cell holding the byte `v`,
INCR_VAL followed by DECR_VAL and DECR_VAL followed by INCR_VAL both give the state
back, in `parseInstruction` and in `parseInstructionSafely` alike; in between the cell
holds `v + 1` (0 when `v = 255`), respectively `v - 1` (255 when `v = 0`). -/
theorem value_inverse (memStepSize : Nat) (s : State) (v : Nat)
    (hlen : s.data.length = s.dataSize) (hcell : s.data[s.dataIndex]? = some v)
    (hv : v < 256) :
    ∃ up down : State,
      parseInstruction NIB_INCREMENT_VALUE memStepSize s = .ok ⟨up, false, false⟩ ∧
      parseInstructionSafely NIB_INCREMENT_VALUE memStepSize s = .ok ⟨up, false, false⟩ ∧
      parseInstruction NIB_DECREMENT_VALUE memStepSize s = .ok ⟨down, false, false⟩ ∧
      parseInstructionSafely NIB_DECREMENT_VALUE memStepSize s = .ok ⟨down, false, false⟩ ∧
      up.data[s.dataIndex]? = some (if v = 255 then 0 else v + 1) ∧
      down.data[s.dataIndex]? = some (if v = 0 then 255 else v - 1) ∧
      parseInstruction NIB_DECREMENT_VALUE memStepSize up = .ok ⟨s, false, false⟩ ∧
      parseInstructionSafely NIB_DECREMENT_VALUE memStepSize up = .ok ⟨s, false, false⟩ ∧
      parseInstruction NIB_INCREMENT_VALUE memStepSize down = .ok ⟨s, false, false⟩ ∧
      parseInstructionSafely NIB_INCREMENT_VALUE memStepSize down = .ok ⟨s, false, false⟩ := by
  have hidx : s.dataIndex < s.data.length := lt_length_of_getElem hcell
  have hge : ¬ s.dataIndex ≥ s.dataSize := by omega
  have hup : ({ s with data := s.data.set s.dataIndex ((v + 1) % 256) } : State).data[
      s.dataIndex]? = some ((v + 1) % 256) := List.getElem?_set_self hidx
  have hdown : ({ s with data := s.data.set s.dataIndex ((v + 255) % 256) } : State).data[
      s.dataIndex]? = some ((v + 255) % 256) := List.getElem?_set_self hidx
  have hback1 : ((v + 1) % 256 + 255) % 256 = v := by omega
  have hback2 : ((v + 255) % 256 + 1) % 256 = v := by omega
  refine ⟨{ s with data := s.data.set s.dataIndex ((v + 1) % 256) },
    { s with data := s.data.set s.dataIndex ((v + 255) % 256) }, ?_, ?_, ?_, ?_, ?_, ?_,
    ?_, ?_, ?_, ?_⟩
  · rw [parseInstruction_incrementValue, if_neg hge, incrementValue_eq hcell]; rfl
  · rw [parseInstructionSafely_incrementValue, incrementValue_eq hcell]; rfl
  · rw [parseInstruction_decrementValue, if_neg hge, decrementValue_eq hcell]; rfl
  · rw [parseInstructionSafely_decrementValue, decrementValue_eq hcell]; rfl
  · rw [hup]; congr 1; split <;> omega
  · rw [hdown]; congr 1; split <;> omega
  · rw [parseInstruction_decrementValue, if_neg hge, decrementValue_eq hup]
    simp only [plain, hback1]
    rw [State.set_set_same s _ hcell]
  · rw [parseInstructionSafely_decrementValue, decrementValue_eq hup]
    simp only [plain, hback1]
    rw [State.set_set_same s _ hcell]
  · rw [parseInstruction_incrementValue, if_neg hge, incrementValue_eq hdown]
    simp only [plain, hback2]
    rw [State.set_set_same s _ hcell]
  · rw [parseInstructionSafely_incrementValue, incrementValue_eq hdown]
    simp only [plain, hback2]
    rw [State.set_set_same s _ hcell]

theorem value_inverse_witness :
    ∃ up down : State,
      parseInstruction NIB_INCREMENT_VALUE 1 (initialState 1 []) = .ok ⟨up, false, false⟩ ∧
      parseInstructionSafely NIB_INCREMENT_VALUE 1 (initialState 1 []) =
        .ok ⟨up, false, false⟩ ∧
      parseInstruction NIB_DECREMENT_VALUE 1 (initialState 1 []) =
        .ok ⟨down, false, false⟩ ∧
      parseInstructionSafely NIB_DECREMENT_VALUE 1 (initialState 1 []) =
        .ok ⟨down, false, false⟩ ∧
      up.data[(initialState 1 []).dataIndex]? = some (if 0 = 255 then 0 else 0 + 1) ∧
      down.data[(initialState 1 []).dataIndex]? = some (if 0 = 0 then 255 else 0 - 1) ∧
      parseInstruction NIB_DECREMENT_VALUE 1 up = .ok ⟨initialState 1 [], false, false⟩ ∧
      parseInstructionSafely NIB_DECREMENT_VALUE 1 up =
        .ok ⟨initialState 1 [], false, false⟩ ∧
      parseInstruction NIB_INCREMENT_VALUE 1 down = .ok ⟨initialState 1 [], false, false⟩ ∧
      parseInstructionSafely NIB_INCREMENT_VALUE 1 down =
        .ok ⟨initialState 1 [], false, false⟩ :=
  value_inverse 1 (initialState 1 []) 0 (by decide) (by decide) (by decide)



/-- C14: an instruction value from 8 to 15 is none of the eight opcodes: both dispatchers
return the state unchanged (data, cursor, size, loop stack, standard input and output)
with both flags false and without error, and the dispatch cycle of either interpreter on
such an instruction only adds 1 to `inputIndex`. -/
theorem inert_instruction (memStepSize : Nat) (inputData : List Nat) (pastEnd : Nat)
    (s : State) (instruction : Nat) (hlo : 8 ≤ instruction) (hhi : instruction ≤ 15) :
    parseInstruction instruction memStepSize s = .ok ⟨s, false, false⟩ ∧
    parseInstructionSafely instruction memStepSize s = .ok ⟨s, false, false⟩ ∧
    (inputData[s.inputIndex]? = some instruction →
      dispatchCycle parseInstruction memStepSize inputData pastEnd s =
        .ok { s with inputIndex := s.inputIndex + 1 } ∧
      dispatchCycle parseInstructionSafely memStepSize inputData pastEnd s =
        .ok { s with inputIndex := s.inputIndex + 1 }) := by
  have hother : instruction ≠ NIB_INCREMENT_POINTER ∧ instruction ≠ NIB_DECREMENT_POINTER ∧
      instruction ≠ NIB_INCREMENT_VALUE ∧ instruction ≠ NIB_DECREMENT_VALUE ∧
      instruction ≠ NIB_WRITE_VALUE ∧ instruction ≠ NIB_READ_VALUE ∧
      instruction ≠ NIB_LOOP_START ∧ instruction ≠ NIB_LOOP_END := by
    unfold NIB_INCREMENT_POINTER NIB_DECREMENT_POINTER NIB_INCREMENT_VALUE
      NIB_DECREMENT_VALUE NIB_WRITE_VALUE NIB_READ_VALUE NIB_LOOP_START NIB_LOOP_END
    omega
  have h1 := parseInstruction_other memStepSize s hother
  have h2 := parseInstructionSafely_other memStepSize s hother
  refine ⟨h1, h2, fun hfetch => ⟨?_, ?_⟩⟩
  · exact dispatchCycle_plain _ _ _ _ _ _ _ hfetch h1
  · exact dispatchCycle_plain _ _ _ _ _ _ _ hfetch h2

theorem inert_instruction_witness :
    parseInstruction 15 1 (initialState 1 [65]) = .ok ⟨initialState 1 [65], false, false⟩ ∧
    parseInstructionSafely 15 1 (initialState 1 [65]) =
      .ok ⟨initialState 1 [65], false, false⟩ ∧
    ([15, 8][(initialState 1 [65]).inputIndex]? = some 15 →
      dispatchCycle parseInstruction 1 [15, 8] 0 (initialState 1 [65]) =
        .ok { initialState 1 [65] with inputIndex := (initialState 1 [65]).inputIndex + 1 } ∧
      dispatchCycle parseInstructionSafely 1 [15, 8] 0 (initialState 1 [65]) =
        .ok { initialState 1 [65] with
               inputIndex := (initialState 1 [65]).inputIndex + 1 }) :=
  inert_instruction 1 [15, 8] 0 (initialState 1 [65]) 15 (by decide) (by decide)

/-- With the cursor inside the tape, whatever `parseInstruction` returns other than
"Unexpected end of loop" is what `parseInstructionSafely` returns. -/
theorem parseInstructionSafely_eq_of_inside (instruction memStepSize : Nat) (s : State)
    (hcur : s.dataIndex < s.dataSize)
    (h2 : parseInstruction instruction memStepSize s ≠ .error .unexpectedLoopEnd) :
    parseInstructionSafely instruction memStepSize s =
      parseInstruction instruction memStepSize s := by
  have hge : ¬ s.dataIndex ≥ s.dataSize := by omega
  rcases instruction_cases instruction with h | h | h | h | h | h | h | h | ho
  · rw [h, parseInstruction_incrementPointer, parseInstructionSafely_incrementPointer]
  · rw [h, parseInstruction_decrementPointer, parseInstructionSafely_decrementPointer,
      if_pos hcur]
  · rw [h, parseInstruction_incrementValue, parseInstructionSafely_incrementValue,
      if_neg hge]
  · rw [h, parseInstruction_decrementValue, parseInstructionSafely_decrementValue,
      if_neg hge]
  · rw [h, parseInstruction_writeValue, parseInstructionSafely_writeValue, if_neg hge]
  · rw [h, parseInstruction_readValue, parseInstructionSafely_readValue, if_neg hge]
  · rw [h, parseInstruction_loopStart, parseInstructionSafely_loopStart]
  · rw [h] at h2 ⊢
    rw [parseInstruction_loopEnd] at h2 ⊢
    rw [parseInstructionSafely_loopEnd]
    by_cases hidx : s.loopStackIndex ≥ s.loopStackSize
    · rw [if_pos hidx] at h2
      exact absurd rfl h2
    · rw [if_neg hidx, if_pos (by omega)]
  · rw [parseInstruction_other _ _ ho, parseInstructionSafely_other _ _ ho]

/-- C19: in a state whose cursor is inside the tape (`dataIndex < dataSize`), for every
instruction value and whatever standard input holds, if `parseInstruction` raises no
error then `parseInstructionSafely` returns exactly the same result: the same data, size,
cursor, loop stack, `inputIndex`, console and the same two flags; hence the dispatch
cycles of the two interpreters end in the same state. -/
theorem policies_agree (memStepSize : Nat) (inputData : List Nat) (pastEnd : Nat)
    (s : State) (instruction : Nat) (hcur : s.dataIndex < s.dataSize) :
    (∀ r, parseInstruction instruction memStepSize s = .ok r →
      parseInstructionSafely instruction memStepSize s = .ok r) ∧
    (∀ s1, dispatchCycle parseInstruction memStepSize inputData pastEnd s = .ok s1 →
      dispatchCycle parseInstructionSafely memStepSize inputData pastEnd s = .ok s1) := by
  have hagree : ∀ i r, parseInstruction i memStepSize s = .ok r →
      parseInstructionSafely i memStepSize s = .ok r := by
    intro i r h
    rw [parseInstructionSafely_eq_of_inside i memStepSize s hcur (by rw [h]; simp), h]
  refine ⟨hagree instruction, ?_⟩
  intro s1 hc
  obtain ⟨p, ip, hp, _⟩ := dispatchCycle_ok hc
  unfold dispatchCycle at hc ⊢
  rw [hp] at hc
  rw [hagree _ p hp]
  exact hc

theorem policies_agree_witness :
    (∀ r, parseInstruction NIB_READ_VALUE 1 (initialState 1 [65]) = .ok r →
      parseInstructionSafely NIB_READ_VALUE 1 (initialState 1 [65]) = .ok r) ∧
    (∀ s1, dispatchCycle parseInstruction 1 [NIB_READ_VALUE] 0 (initialState 1 [65]) =
        .ok s1 →
      dispatchCycle parseInstructionSafely 1 [NIB_READ_VALUE] 0 (initialState 1 [65]) =
        .ok s1) :=
  policies_agree 1 [NIB_READ_VALUE] 0 (initialState 1 [65]) NIB_READ_VALUE (by decide)

/-- C20: `parseInstruction` on DECR_PTR with the cursor at 0 (tape of a positive 32-bit
size) raises no error and leaves the state unchanged except for the cursor, which
becomes 4294967295; in that state INCR_VAL, DECR_VAL, WRITE and READ all stop with "Data
index out of bounds", and INCR_PTR gives back the state before the DECR_PTR: cursor 0,
tape not grown. -/
theorem strict_decrementPointer_underflow (memStepSize : Nat) (s : State)
    (hzero : s.dataIndex = 0) (hpos : 0 < s.dataSize) (h32 : s.dataSize < U32) :
    parseInstruction NIB_DECREMENT_POINTER memStepSize s =
      .ok ⟨{ s with dataIndex := 4294967295 }, false, false⟩ ∧
    (∀ instruction, instruction ∈ [NIB_INCREMENT_VALUE, NIB_DECREMENT_VALUE,
        NIB_WRITE_VALUE, NIB_READ_VALUE] →
      parseInstruction instruction memStepSize { s with dataIndex := 4294967295 } =
        .error .dataIndexOutOfBounds) ∧
    parseInstruction NIB_INCREMENT_POINTER memStepSize { s with dataIndex := 4294967295 } =
      .ok ⟨s, false, false⟩ := by
  refine ⟨?_, ?_, ?_⟩
  · rw [parseInstruction_decrementPointer, hzero]
    rfl
  · intro instruction hmem
    have hge : ({ s with dataIndex := 4294967295 } : State).dataIndex ≥
        ({ s with dataIndex := 4294967295 } : State).dataSize := by
      show s.dataSize ≤ 4294967295
      unfold U32 at h32
      omega
    simp only [List.mem_cons, List.mem_singleton, List.not_mem_nil, or_false] at hmem
    rcases hmem with rfl | rfl | rfl | rfl
    · rw [parseInstruction_incrementValue, if_pos hge]
    · rw [parseInstruction_decrementValue, if_pos hge]
    · rw [parseInstruction_writeValue, if_pos hge]
    · rw [parseInstruction_readValue, if_pos hge]
  · rw [parseInstruction_incrementPointer]
    unfold incrementPointer
    have hwrap : (({ s with dataIndex := 4294967295 } : State).dataIndex + 1) % U32 = 0 := by
      show (4294967295 + 1) % U32 = 0
      decide
    simp only [hwrap]
    rw [if_neg (by show ¬ 0 = s.dataSize; omega)]
    simp only [plain]
    rw [← hzero]

theorem strict_decrementPointer_underflow_witness :
    parseInstruction NIB_DECREMENT_POINTER 1 (initialState 1 []) =
      .ok ⟨{ initialState 1 [] with dataIndex := 4294967295 }, false, false⟩ ∧
    (∀ instruction, instruction ∈ [NIB_INCREMENT_VALUE, NIB_DECREMENT_VALUE,
        NIB_WRITE_VALUE, NIB_READ_VALUE] →
      parseInstruction instruction 1 { initialState 1 [] with dataIndex := 4294967295 } =
        .error .dataIndexOutOfBounds) ∧
    parseInstruction NIB_INCREMENT_POINTER 1
        { initialState 1 [] with dataIndex := 4294967295 } =
      .ok ⟨initialState 1 [], false, false⟩ :=
  strict_decrementPointer_underflow 1 (initialState 1 []) (by decide) (by decide) (by decide)



theorem memset_error {block : List Nat} {start : Int} {n : Nat} {e : Fault}
    (h : memset block start n = .error e) : e = .memoryFault := by
  unfold memset at h
  split at h
  · cases h
  · cases h; rfl

theorem memsetWords_error {block : List Nat} {start : Int} {n : Nat} {e : Fault}
    (h : memsetWords block start n = .error e) : e = .memoryFault := by
  unfold memsetWords at h
  split at h
  · cases h
  · rename_i e1 he
    cases h
    exact memset_error he

theorem incrementPointer_error {memStepSize : Nat} {s : State} {e : Fault}
    (h : incrementPointer memStepSize s = .error e) : e = .memoryFault := by
  unfold incrementPointer at h
  simp only at h
  split at h
  · split at h
    · cases h
    · rename_i e1 he
      cases h
      exact memset_error he
  · cases h

theorem growLoopStack_error {memStepSize : Nat} {s : State} {e : Fault}
    (h : growLoopStack memStepSize s = .error e) : e = .memoryFault := by
  unfold growLoopStack at h
  simp only at h
  split at h
  · split at h
    · cases h
    · rename_i e1 he
      cases h
      exact memsetWords_error he
  · cases h; rfl

theorem loopStart_error {memStepSize : Nat} {s : State} {e : Fault}
    (h : loopStart memStepSize s = .error e) : e = .memoryFault := by
  unfold loopStart at h
  split at h
  · rename_i e1 he
    cases h
    exact load_error he
  · split at h
    · cases h
    · simp only at h
      split at h
      · rename_i e1 he
        cases h
        split at he
        · exact growLoopStack_error he
        · cases he
      · split at h
        · cases h
        · rename_i e1 he
          cases h
          exact store_error he

theorem loopBack_error {s : State} {e : Fault} (h : loopBack s = .error e) :
    e = .memoryFault := by
  unfold loopBack at h
  split at h
  · cases h
  · rename_i e1 he
    cases h
    exact load_error he

/-- The dispatcher `parseInstructionSafely` calls `error` nowhere: the only way it can
stop is an access outside a heap block. -/
theorem parseInstructionSafely_error {instruction memStepSize : Nat} {s : State}
    {e : Fault} (h : parseInstructionSafely instruction memStepSize s = .error e) :
    e = .memoryFault := by
  rcases instruction_cases instruction with h1 | h1 | h1 | h1 | h1 | h1 | h1 | h1 | ho
  · rw [h1, parseInstructionSafely_incrementPointer] at h
    exact incrementPointer_error (plain_error_eq h)
  · rw [h1, parseInstructionSafely_decrementPointer] at h
    split at h <;> cases h
  · rw [h1, parseInstructionSafely_incrementValue] at h
    exact incrementValue_error (plain_error_eq h)
  · rw [h1, parseInstructionSafely_decrementValue] at h
    exact decrementValue_error (plain_error_eq h)
  · rw [h1, parseInstructionSafely_writeValue] at h
    exact writeValue_error (plain_error_eq h)
  · rw [h1, parseInstructionSafely_readValue] at h
    exact readValue_error (plain_error_eq h)
  · rw [h1, parseInstructionSafely_loopStart] at h
    exact loopStart_error h
  · rw [h1, parseInstructionSafely_loopEnd] at h
    split at h
    · exact loopBack_error h
    · cases h
  · rw [parseInstructionSafely_other _ _ ho] at h
    cases h

theorem dispatchCycle_error {parse : Nat → Nat → State → Except Fault Parsed}
    {memStepSize : Nat} {inputData : List Nat} {pastEnd : Nat} {s : State} {e : Fault}
    (h : dispatchCycle parse memStepSize inputData pastEnd s = .error e) :
    parse (inputData.getD s.inputIndex pastEnd) memStepSize s = .error e ∨
      e = .unterminatedLoop := by
  unfold dispatchCycle at h
  split at h
  · rename_i e1 he
    left
    rw [he]
    exact congrArg _ (Except.error.inj h)
  · simp only at h
    split_ifs at h
    all_goals exact Or.inr (Except.error.inj h).symm

theorem interpretWith_error {parse : Nat → Nat → State → Except Fault Parsed}
    {memStepSize : Nat} {inputData : List Nat} {pastEnd : Nat} {e : Fault} :
    ∀ (fuel : Nat) (s : State),
      interpretWith parse memStepSize inputData pastEnd fuel s = some (.error e) →
      ∃ s1, dispatchCycle parse memStepSize inputData pastEnd s1 = .error e := by
  intro fuel
  induction fuel with
  | zero =>
    intro s h
    simp only [interpretWith] at h
    split at h <;> simp at h
  | succ fuel ih =>
    intro s h
    simp only [interpretWith] at h
    split at h
    · split at h
      · rename_i e1 he
        refine ⟨s, ?_⟩
        rw [he]
        simp only [Option.some.injEq, Except.error.injEq] at h
        rw [h]
      · exact ih _ h
    · simp at h

/-- A run with the `safe` flag set never stops with "Data index out of bounds" or
"Unexpected end of loop". -/
theorem run_safe_error {fileData : List Nat} {memStepSize pastEnd fuel : Nat}
    {stdin : List Nat} {e : Fault}
    (h : run fileData memStepSize true pastEnd stdin fuel = some (.error e)) :
    e = .memoryFault ∨ e = .unterminatedLoop := by
  unfold run at h
  split at h
  · simp only [Option.some.injEq, Except.error.injEq] at h
    exact Or.inl h.symm
  · simp only [if_true] at h
    obtain ⟨s1, hc⟩ := interpretWith_error _ _ h
    rcases dispatchCycle_error hc with hp | hu
    · exact Or.inl (parseInstructionSafely_error hp)
    · exact Or.inr hu

theorem run_loopEnd_safe (memStepSize pastEnd fuel : Nat) (stdin : List Nat)
    (hstep : memStepSize < U32) :
    run [0x1F] memStepSize true pastEnd stdin (fuel + 2) =
      some (.ok { initialState memStepSize stdin with inputIndex := 2 }) := by
  have hd : decode [0x1F] = some (2, [NIB_LOOP_END, 15]) := by decide
  have hempty := initialState_loopStackEmpty memStepSize stdin
  unfold State.loopStackEmpty at hempty
  have hsize : (initialState memStepSize stdin).loopStackSize = memStepSize := rfl
  unfold run
  rw [hd]
  simp only [if_true, interpretSafely]
  rw [interpretWith_step _ _ _ _ _ _ { initialState memStepSize stdin with inputIndex := 1 }
    (by simp [initialState])
    (dispatchCycle_plain _ _ _ _ _ _ NIB_LOOP_END (by simp [initialState])
      (by rw [parseInstructionSafely_loopEnd, if_neg (by omega)]))]
  rw [interpretWith_step _ _ _ _ _ _ { initialState memStepSize stdin with inputIndex := 2 }
    (by simp [initialState])
    (dispatchCycle_plain _ _ _ _ _ _ 15 (by simp [initialState])
      (parseInstructionSafely_other _ _ (by decide)))]
  exact interpretWith_done _ _ _ _ _ _ (by simp [initialState])

theorem interpret_loopEnd_strict (memStepSize pastEnd fuel : Nat) (stdin rest : List Nat)
    (hstep : memStepSize < U32) :
    interpret memStepSize (NIB_LOOP_END :: rest) pastEnd (fuel + 1)
        (initialState memStepSize stdin) = some (.error .unexpectedLoopEnd) := by
  have hempty := initialState_loopStackEmpty memStepSize stdin
  unfold State.loopStackEmpty at hempty
  have hsize : (initialState memStepSize stdin).loopStackSize = memStepSize := rfl
  have hparse : parseInstruction NIB_LOOP_END memStepSize (initialState memStepSize stdin) =
      .error .unexpectedLoopEnd := by
    rw [parseInstruction_loopEnd, if_pos (by unfold U32 at *; omega)]
  have hget : (NIB_LOOP_END :: rest).getD (initialState memStepSize stdin).inputIndex
      pastEnd = NIB_LOOP_END := rfl
  have hc : dispatchCycle parseInstruction memStepSize (NIB_LOOP_END :: rest) pastEnd
      (initialState memStepSize stdin) = .error .unexpectedLoopEnd := by
    unfold dispatchCycle
    rw [hget, hparse]
  unfold interpret
  simp only [interpretWith]
  rw [if_pos (by simp [initialState]), hc]

theorem run_loopEnd_strict (memStepSize pastEnd fuel : Nat) (stdin : List Nat)
    (hstep : memStepSize < U32) :
    run [0x1F] memStepSize false pastEnd stdin (fuel + 1) =
      some (.error .unexpectedLoopEnd) := by
  have hd : decode [0x1F] = some (2, [NIB_LOOP_END, 15]) := by decide
  unfold run
  rw [hd]
  exact interpret_loopEnd_strict memStepSize pastEnd fuel stdin [15] hstep



theorem interpretWith_fail (parse : Nat → Nat → State → Except Fault Parsed)
    (memStepSize : Nat) (inputData : List Nat) (pastEnd fuel : Nat) (s : State) (e : Fault)
    (h : s.inputIndex < inputData.length)
    (hc : dispatchCycle parse memStepSize inputData pastEnd s = .error e) :
    interpretWith parse memStepSize inputData pastEnd (fuel + 1) s = some (.error e) := by
  simp [interpretWith, h, hc]

theorem dispatchCycle_parse_error (parse : Nat → Nat → State → Except Fault Parsed)
    (memStepSize : Nat) (inputData : List Nat) (pastEnd : Nat) (s : State)
    (instruction : Nat) (e : Fault) (hfetch : inputData[s.inputIndex]? = some instruction)
    (hparse : parse instruction memStepSize s = .error e) :
    dispatchCycle parse memStepSize inputData pastEnd s = .error e := by
  have hget : inputData.getD s.inputIndex pastEnd = instruction := by
    simp [List.getD, hfetch]
  unfold dispatchCycle
  rw [hget, hparse]

theorem run_underflow_strict (memStepSize pastEnd fuel : Nat) (stdin : List Nat)
    (hstep : memStepSize < U32) :
    run [0x62] memStepSize false pastEnd stdin (fuel + 2) =
      some (.error .dataIndexOutOfBounds) := by
  have hd : decode [0x62] = some (2, [NIB_DECREMENT_POINTER, NIB_INCREMENT_VALUE]) := by
    decide
  unfold run
  rw [hd]
  simp only [interpret, Bool.false_eq_true, if_false]
  rw [interpretWith_step _ _ _ _ _ _
    { initialState memStepSize stdin with inputIndex := 1, dataIndex := 4294967295 }
    (by simp [initialState])
    (dispatchCycle_plain _ _ _ _ _ _ NIB_DECREMENT_POINTER (by simp [initialState])
      (by rw [parseInstruction_decrementPointer]))]
  exact interpretWith_fail _ _ _ _ _ _ _ (by simp [initialState])
    (dispatchCycle_parse_error _ _ _ _ _ NIB_INCREMENT_VALUE _ (by simp [initialState])
      (by
        rw [parseInstruction_incrementValue, if_pos]
        show memStepSize ≤ 4294967295
        unfold U32 at hstep
        omega))

/-- C13 as stated fails: with the `safe` flag set, the run of the byte `0x1F` (LOOP_END,
then an inert value) never stops with "Unexpected end of loop", and with the flag unset
it never completes. -/
theorem safe_flag_is_not_strict :
    (¬ ∃ pastEnd fuel,
        run [0x1F] 1 true pastEnd [] fuel = some (.error .unexpectedLoopEnd)) ∧
    (¬ ∃ pastEnd fuel s, run [0x1F] 1 false pastEnd [] fuel = some (.ok s)) := by
  constructor
  · rintro ⟨pastEnd, fuel, h⟩
    rcases run_safe_error h with h1 | h1 <;> exact absurd h1 (by decide)
  · rintro ⟨pastEnd, fuel, s, h⟩
    cases fuel with
    | zero =>
      exact absurd h (by rw [show run [0x1F] 1 false pastEnd [] 0 = none from rfl]; simp)
    | succ fuel =>
      rw [run_loopEnd_strict 1 pastEnd fuel [] (by decide)] at h
      exact absurd h (by simp)

/-- C13 (amended): `run` selects `interpretSafely` when the `safe` flag is set and
`interpret` when it is unset (the default).  The run with the flag set is the permissive
one: it never stops with "Data index out of bounds" or "Unexpected end of loop"; the run
with the flag unset is the strict one, which raises both.  The byte `0x1F` (LOOP_END,
then an inert value) completes silently with the flag set and fails with "Unexpected end
of loop" with the flag unset, as does every program starting with LOOP_END; the byte
`0x62` (DECR_PTR, INCR_VAL) fails with "Data index out of bounds" with the flag unset. -/
theorem run_policy_selector (fileData : List Nat) (memStepSize pastEnd fuel : Nat)
    (stdin : List Nat) :
    (∀ inputSize inputData, decode fileData = some (inputSize, inputData) →
      run fileData memStepSize true pastEnd stdin fuel =
        interpretSafely memStepSize inputData pastEnd fuel (initialState memStepSize stdin) ∧
      run fileData memStepSize false pastEnd stdin fuel =
        interpret memStepSize inputData pastEnd fuel (initialState memStepSize stdin)) ∧
    (∀ e, run fileData memStepSize true pastEnd stdin fuel = some (.error e) →
      e ≠ .dataIndexOutOfBounds ∧ e ≠ .unexpectedLoopEnd) ∧
    (memStepSize < U32 →
      run [0x1F] memStepSize true pastEnd stdin (fuel + 2) =
        some (.ok { initialState memStepSize stdin with inputIndex := 2 }) ∧
      run [0x1F] memStepSize false pastEnd stdin (fuel + 1) =
        some (.error .unexpectedLoopEnd) ∧
      (∀ rest, interpret memStepSize (NIB_LOOP_END :: rest) pastEnd (fuel + 1)
        (initialState memStepSize stdin) = some (.error .unexpectedLoopEnd)) ∧
      run [0x62] memStepSize false pastEnd stdin (fuel + 2) =
        some (.error .dataIndexOutOfBounds)) := by
  refine ⟨?_, ?_, ?_⟩
  · intro inputSize inputData hd
    unfold run
    rw [hd]
    exact ⟨rfl, rfl⟩
  · intro e h
    rcases run_safe_error h with h1 | h1 <;> rw [h1] <;> exact ⟨by decide, by decide⟩
  · intro hstep
    exact ⟨run_loopEnd_safe _ _ _ _ hstep, run_loopEnd_strict _ _ _ _ hstep,
      fun rest => interpret_loopEnd_strict _ _ _ _ rest hstep,
      run_underflow_strict _ _ _ _ hstep⟩

/-- C15 (evaluation of the code at the failing input): the program `[DECR_PTR, INCR_VAL]`
(file byte `0x62`) run by `interpretSafely` with step size 1 reaches, after its first
dispatch cycle, a state whose cursor 4294967295 is not below the tape length 1; the next
cycle, INCR_VAL, accesses the tape outside its block. -/
theorem permissive_cursor_escapes :
    Reachable parseInstructionSafely 1 [NIB_DECREMENT_POINTER, NIB_INCREMENT_VALUE] 0 []
      { initialState 1 [] with inputIndex := 1, dataIndex := 4294967295 } ∧
    ¬ (({ initialState 1 [] with inputIndex := 1, dataIndex := 4294967295 } : State).dataIndex
        < ({ initialState 1 [] with inputIndex := 1,
                                    dataIndex := 4294967295 } : State).dataSize) ∧
    dispatchCycle parseInstructionSafely 1 [NIB_DECREMENT_POINTER, NIB_INCREMENT_VALUE] 0
      { initialState 1 [] with inputIndex := 1, dataIndex := 4294967295 } =
        .error .memoryFault ∧
    run [0x62] 1 true 0 [] 2 = some (.error .memoryFault) :=
  ⟨Reachable.cycle Reachable.initial (by decide) (by rfl), by decide, by rfl, by rfl⟩

/-- C18 (evaluation of the code at the failing input): with step size 1 the program
`+[[-]]` (file bytes `0x24 0x45 0x11`) reaches its second LOOP_START with one entry on a
loop stack of capacity 1 and a non-zero cell; the growth that this LOOP_START performs
runs outside the block returned by `realloc`, in both dispatchers, and the run stops
there. -/
theorem loopStack_growth_faults :
    Reachable parseInstruction 1 [2, 4, 4, 5, 1, 1] 0 []
      { initialState 1 [] with inputIndex := 2, data := [1], loopStack := [1],
                               loopStackIndex := 0 } ∧
    parseInstruction NIB_LOOP_START 1
      { initialState 1 [] with inputIndex := 2, data := [1], loopStack := [1],
                               loopStackIndex := 0 } = .error .memoryFault ∧
    parseInstructionSafely NIB_LOOP_START 1
      { initialState 1 [] with inputIndex := 2, data := [1], loopStack := [1],
                               loopStackIndex := 0 } = .error .memoryFault ∧
    run [0x24, 0x45, 0x11] 1 false 0 [] 3 = some (.error .memoryFault) ∧
    run [0x24, 0x45, 0x11] 1 true 0 [] 3 = some (.error .memoryFault) :=
  ⟨Reachable.cycle
      (Reachable.cycle Reachable.initial (by decide)
        (by rfl : dispatchCycle parseInstruction 1 [2, 4, 4, 5, 1, 1] 0 (initialState 1 []) =
          .ok { initialState 1 [] with inputIndex := 1, data := [1] }))
      (by decide) (by rfl),
    by rfl, by rfl, by rfl, by rfl⟩



theorem dispatchTrace_step (parse : Nat → Nat → State → Except Fault Parsed)
    (memStepSize : Nat) (inputData : List Nat) (pastEnd fuel : Nat) (s s1 : State)
    (h : s.inputIndex < inputData.length)
    (hc : dispatchCycle parse memStepSize inputData pastEnd s = .ok s1) :
    dispatchTrace parse memStepSize inputData pastEnd (fuel + 1) s =
      s.inputIndex :: dispatchTrace parse memStepSize inputData pastEnd fuel s1 := by
  simp [dispatchTrace, h, hc]

theorem dispatchTrace_done (parse : Nat → Nat → State → Except Fault Parsed)
    (memStepSize : Nat) (inputData : List Nat) (pastEnd fuel : Nat) (s : State)
    (h : ¬ s.inputIndex < inputData.length) :
    dispatchTrace parse memStepSize inputData pastEnd fuel s = [] := by
  cases fuel <;> simp [dispatchTrace, h]

/-- First push on an empty loop stack of positive capacity. -/
theorem loopStart_push_first (memStepSize : Nat) {s : State} {v : Nat}
    (hcell : s.data[s.dataIndex]? = some v) (hv : v ≠ 0)
    (hempty : s.loopStackIndex = 4294967295) (hshift : s.loopStackShift = 0)
    (hblock : s.loopStack.length = s.loopStackSize) (hcap : 0 < s.loopStackSize) :
    loopStart memStepSize s =
      .ok ⟨{ s with loopStackIndex := 0, loopStack := s.loopStack.set 0 s.inputIndex },
           false, false⟩ := by
  have hidx : (s.loopStackIndex + 1) % U32 = 0 := by rw [hempty]; decide
  unfold loopStart
  rw [load_eq hcell]
  simp only
  rw [if_neg hv, hidx, if_neg (by omega)]
  simp only [hshift, Nat.add_zero]
  rw [store_eq _ (by omega)]

/-- Pop of the only entry of the loop stack. -/
theorem loopBack_pop_last {s : State} {top : Nat} (hidx : s.loopStackIndex = 0)
    (hshift : s.loopStackShift = 0) (htop : s.loopStack[0]? = some top) :
    loopBack s = .ok ⟨{ s with inputIndex := top, loopStackIndex := 4294967295 },
                      false, true⟩ := by
  unfold loopBack
  rw [hshift, hidx, load_eq htop]
  rfl



theorem loopRunState_cell (b : State) (c : Nat) (L : List Nat) (ip idx : Nat)
    (hcur : b.dataIndex < b.data.length) :
    (loopRunState b c L ip idx).data[(loopRunState b c L ip idx).dataIndex]? = some c :=
  List.getElem?_set_self hcur

/-- The cycle of `decrementLoop` on LOOP_START with a non-zero cell and an empty stack. -/
theorem decrementLoop_enter (parse : Nat → Nat → State → Except Fault Parsed)
    (hls : ∀ m s, parse NIB_LOOP_START m s = loopStart m s)
    (memStepSize pastEnd : Nat) (b : State) (c : Nat) (L : List Nat)
    (hcur : b.dataIndex < b.data.length) (hc : c ≠ 0) (hshift : b.loopStackShift = 0)
    (hblock : L.length = b.loopStackSize) (hcap : 0 < b.loopStackSize) :
    dispatchCycle parse memStepSize decrementLoop pastEnd (loopRunState b c L 0 4294967295) =
      .ok (loopRunState b c (L.set 0 0) 1 0) := by
  rw [dispatchCycle_plain parse memStepSize decrementLoop pastEnd _
    (loopRunState b c (L.set 0 0) 0 0) NIB_LOOP_START (by rfl)
    (by
      rw [hls, loopStart_push_first memStepSize (loopRunState_cell b c L 0 4294967295 hcur) hc
        rfl hshift hblock hcap]
      rfl)]
  rfl

/-- The cycle of `decrementLoop` on DECR_VAL. -/
theorem decrementLoop_body (parse : Nat → Nat → State → Except Fault Parsed)
    (hdv : ∀ m s, s.dataIndex < s.dataSize →
      parse NIB_DECREMENT_VALUE m s = plain (decrementValue s))
    (memStepSize pastEnd : Nat) (b : State) (c : Nat) (L : List Nat) (idx : Nat)
    (hcur : b.dataIndex < b.data.length) (hlen : b.data.length = b.dataSize)
    (hc : c + 1 < 256) :
    dispatchCycle parse memStepSize decrementLoop pastEnd (loopRunState b (c + 1) L 1 idx) =
      .ok (loopRunState b c L 2 idx) := by
  have hdec : (c + 1 + 255) % 256 = c := by omega
  rw [dispatchCycle_plain parse memStepSize decrementLoop pastEnd _
    (loopRunState b c L 1 idx) NIB_DECREMENT_VALUE (by rfl)
    (by
      rw [hdv _ _ (by show b.dataIndex < b.dataSize; omega),
        decrementValue_eq (loopRunState_cell b (c + 1) L 1 idx hcur), hdec]
      simp only [plain, loopRunState, List.set_set])]
  rfl

/-- The cycle of `decrementLoop` on LOOP_END with the one entry 0 on the stack. -/
theorem decrementLoop_back (parse : Nat → Nat → State → Except Fault Parsed)
    (hle : ∀ m s, s.loopStackIndex < s.loopStackSize →
      parse NIB_LOOP_END m s = loopBack s)
    (memStepSize pastEnd : Nat) (b : State) (c : Nat) (L : List Nat)
    (hshift : b.loopStackShift = 0) (hcap : 0 < b.loopStackSize)
    (htop : L[0]? = some 0) :
    dispatchCycle parse memStepSize decrementLoop pastEnd (loopRunState b c L 2 0) =
      .ok (loopRunState b c L 0 4294967295) := by
  rw [dispatchCycle_jump parse memStepSize decrementLoop pastEnd _
    (loopRunState b c L 0 4294967295) NIB_LOOP_END (by rfl)
    (by
      rw [hle _ _ (by show 0 < b.loopStackSize; exact hcap),
        @loopBack_pop_last (loopRunState b c L 2 0) 0 rfl hshift htop]
      rfl)]

/-- The cycle of `decrementLoop` on LOOP_START with a zero cell: the loop is skipped. -/
theorem decrementLoop_leave (parse : Nat → Nat → State → Except Fault Parsed)
    (hls : ∀ m s, parse NIB_LOOP_START m s = loopStart m s)
    (memStepSize pastEnd : Nat) (b : State) (L : List Nat) (idx : Nat)
    (hcur : b.dataIndex < b.data.length) :
    dispatchCycle parse memStepSize decrementLoop pastEnd (loopRunState b 0 L 0 idx) =
      .ok (loopRunState b 0 L 3 idx) := by
  rw [dispatchCycle_skip_matching parse memStepSize decrementLoop pastEnd _ 2 (by rfl)
    (by rw [hls]; exact loopStart_zero _ (loopRunState_cell b 0 L 0 idx hcur))
    (show MatchingLoopEnd decrementLoop 0 2 by decide)]
  rfl



/-- The whole run of `decrementLoop` on a cell holding `k`: `3 * k + 1` dispatch cycles,
of which `k` are at position 1 (the DECR_VAL), ending past the LOOP_END with the cell 0. -/
theorem decrementLoop_run (parse : Nat → Nat → State → Except Fault Parsed)
    (hls : ∀ m s, parse NIB_LOOP_START m s = loopStart m s)
    (hdv : ∀ m s, s.dataIndex < s.dataSize →
      parse NIB_DECREMENT_VALUE m s = plain (decrementValue s))
    (hle : ∀ m s, s.loopStackIndex < s.loopStackSize →
      parse NIB_LOOP_END m s = loopBack s)
    (memStepSize pastEnd : Nat) (b : State)
    (hcur : b.dataIndex < b.data.length) (hlen : b.data.length = b.dataSize)
    (hshift : b.loopStackShift = 0) (hcap : 0 < b.loopStackSize) :
    ∀ (k : Nat) (L : List Nat), k < 256 → L.length = b.loopStackSize → ∀ fuel,
      interpretWith parse memStepSize decrementLoop pastEnd (fuel + (3 * k + 1))
          (loopRunState b k L 0 4294967295) =
        some (.ok (loopRunState b 0 (if k = 0 then L else L.set 0 0) 3 4294967295)) ∧
      (dispatchTrace parse memStepSize decrementLoop pastEnd (fuel + (3 * k + 1))
          (loopRunState b k L 0 4294967295)).count 1 = k := by
  intro k
  induction k with
  | zero =>
    intro L _ _ fuel
    have hleave := decrementLoop_leave parse hls memStepSize pastEnd b L 4294967295 hcur
    constructor
    · rw [show fuel + (3 * 0 + 1) = fuel + 1 by omega,
        interpretWith_step _ _ _ _ _ _ _ (by simp [loopRunState, decrementLoop]) hleave,
        interpretWith_done _ _ _ _ _ _ (by simp [loopRunState, decrementLoop])]
      rfl
    · rw [show fuel + (3 * 0 + 1) = fuel + 1 by omega,
        dispatchTrace_step _ _ _ _ _ _ _ (by simp [loopRunState, decrementLoop]) hleave,
        dispatchTrace_done _ _ _ _ _ _ (by simp [loopRunState, decrementLoop])]
      rfl
  | succ k ih =>
    intro L hk hL fuel
    have hL1 : (L.set 0 0).length = b.loopStackSize := by simp [hL]
    have htop : (L.set 0 0)[0]? = some 0 := List.getElem?_set_self (by omega)
    have hA := decrementLoop_enter parse hls memStepSize pastEnd b (k + 1) L hcur (by omega)
      hshift hL hcap
    have hB := decrementLoop_body parse hdv memStepSize pastEnd b k (L.set 0 0) 0 hcur hlen hk
    have hC := decrementLoop_back parse hle memStepSize pastEnd b k (L.set 0 0) hshift hcap
      htop
    obtain ⟨ih1, ih2⟩ := ih (L.set 0 0) (by omega) hL1 fuel
    have hfinal : (if k = 0 then L.set 0 0 else (L.set 0 0).set 0 0) =
        (if k + 1 = 0 then L else L.set 0 0) := by
      rw [List.set_set, if_neg (show ¬ k + 1 = 0 by omega)]
      split <;> rfl
    rw [hfinal] at ih1
    have hfuel : fuel + (3 * (k + 1) + 1) = (fuel + (3 * k + 1)) + 1 + 1 + 1 := by omega
    constructor
    · rw [hfuel,
        interpretWith_step _ _ _ _ _ _ _ (by simp [loopRunState, decrementLoop]) hA,
        interpretWith_step _ _ _ _ _ _ _ (by simp [loopRunState, decrementLoop]) hB,
        interpretWith_step _ _ _ _ _ _ _ (by simp [loopRunState, decrementLoop]) hC]
      exact ih1
    · rw [hfuel,
        dispatchTrace_step _ _ _ _ _ _ _ (by simp [loopRunState, decrementLoop]) hA,
        dispatchTrace_step _ _ _ _ _ _ _ (by simp [loopRunState, decrementLoop]) hB,
        dispatchTrace_step _ _ _ _ _ _ _ (by simp [loopRunState, decrementLoop]) hC]
      show (0 :: 1 :: 2 :: _).count 1 = k + 1
      simp only [List.count_cons]
      simp [ih2]

/-- C12: the program `[LOOP_START, DECR_VAL, LOOP_END]` started at `inputIndex = 0` in a
state whose cursor is inside the tape on a cell holding the byte `v`, with an empty loop
stack of capacity at least 1, run by either interpreter, ends without error after
`3 * v + 1` dispatch cycles, exactly `v` of which dispatch position 1, the DECR_VAL; the
final state has `inputIndex = 3`, the cell 0, the loop stack empty again, and the cursor
and every other cell as at the start. -/
theorem decrement_loop_runs (memStepSize pastEnd : Nat) (s : State) (v : Nat)
    (hip : s.inputIndex = 0) (hlen : s.data.length = s.dataSize)
    (hcell : s.data[s.dataIndex]? = some v) (hv : v < 256)
    (hempty : s.loopStackEmpty) (hshift : s.loopStackShift = 0)
    (hblock : s.loopStack.length = s.loopStackSize) (hcap : 1 ≤ s.loopStackSize) :
    ∃ final : State,
      final = { s with inputIndex := 3, data := s.data.set s.dataIndex 0,
                       loopStack := if v = 0 then s.loopStack else s.loopStack.set 0 0 } ∧
      final.loopStackEmpty ∧ final.dataIndex = s.dataIndex ∧
      final.data[s.dataIndex]? = some 0 ∧
      (∀ i, i ≠ s.dataIndex → final.data[i]? = s.data[i]?) ∧
      ∀ fuel,
        interpret memStepSize decrementLoop pastEnd (fuel + (3 * v + 1)) s =
          some (.ok final) ∧
        interpretSafely memStepSize decrementLoop pastEnd (fuel + (3 * v + 1)) s =
          some (.ok final) ∧
        (dispatchTrace parseInstruction memStepSize decrementLoop pastEnd
          (fuel + (3 * v + 1)) s).count 1 = v ∧
        (dispatchTrace parseInstructionSafely memStepSize decrementLoop pastEnd
          (fuel + (3 * v + 1)) s).count 1 = v := by
  have hcur : s.dataIndex < s.data.length := lt_length_of_getElem hcell
  have hmark : s.loopStackIndex = 4294967295 := hempty
  have hs : loopRunState s v s.loopStack 0 4294967295 = s := by
    unfold loopRunState
    rw [set_same hcell, ← hip, ← hmark]
  have hfin : loopRunState s 0 (if v = 0 then s.loopStack else s.loopStack.set 0 0) 3
      4294967295 =
      { s with inputIndex := 3, data := s.data.set s.dataIndex 0,
               loopStack := if v = 0 then s.loopStack else s.loopStack.set 0 0 } := by
    unfold loopRunState
    rw [← hmark]
  have hstrict := decrementLoop_run parseInstruction parseInstruction_loopStart
    (fun m t ht => by rw [parseInstruction_decrementValue, if_neg (by omega)])
    (fun m t ht => by rw [parseInstruction_loopEnd, if_neg (by omega)])
    memStepSize pastEnd s hcur hlen hshift hcap v s.loopStack hv hblock
  have hsafe := decrementLoop_run parseInstructionSafely parseInstructionSafely_loopStart
    (fun m t _ => parseInstructionSafely_decrementValue m t)
    (fun m t ht => by rw [parseInstructionSafely_loopEnd, if_pos ht])
    memStepSize pastEnd s hcur hlen hshift hcap v s.loopStack hv hblock
  rw [hs, hfin] at hstrict hsafe
  refine ⟨_, rfl, hempty, rfl, List.getElem?_set_self hcur, ?_, ?_⟩
  · intro i hi
    exact List.getElem?_set_ne (Ne.symm hi)
  · intro fuel
    exact ⟨(hstrict fuel).1, (hsafe fuel).1, (hstrict fuel).2, (hsafe fuel).2⟩

theorem decrement_loop_runs_witness :
    ∃ final : State,
      final = { ({ initialState 2 [] with data := [3, 7] } : State) with
                  inputIndex := 3,
                  data := ({ initialState 2 [] with data := [3, 7] } : State).data.set
                    ({ initialState 2 [] with data := [3, 7] } : State).dataIndex 0,
                  loopStack :=
                    if 3 = 0 then ({ initialState 2 [] with data := [3, 7] } : State).loopStack
                    else ({ initialState 2 [] with data := [3, 7] } : State).loopStack.set
                      0 0 } ∧
      final.loopStackEmpty ∧
      final.dataIndex = ({ initialState 2 [] with data := [3, 7] } : State).dataIndex ∧
      final.data[({ initialState 2 [] with data := [3, 7] } : State).dataIndex]? = some 0 ∧
      (∀ i, i ≠ ({ initialState 2 [] with data := [3, 7] } : State).dataIndex →
        final.data[i]? = ({ initialState 2 [] with data := [3, 7] } : State).data[i]?) ∧
      ∀ fuel,
        interpret 2 decrementLoop 0 (fuel + (3 * 3 + 1))
            { initialState 2 [] with data := [3, 7] } = some (.ok final) ∧
        interpretSafely 2 decrementLoop 0 (fuel + (3 * 3 + 1))
            { initialState 2 [] with data := [3, 7] } = some (.ok final) ∧
        (dispatchTrace parseInstruction 2 decrementLoop 0 (fuel + (3 * 3 + 1))
          { initialState 2 [] with data := [3, 7] }).count 1 = 3 ∧
        (dispatchTrace parseInstructionSafely 2 decrementLoop 0 (fuel + (3 * 3 + 1))
          { initialState 2 [] with data := [3, 7] }).count 1 = 3 :=
  decrement_loop_runs 2 0 { initialState 2 [] with data := [3, 7] } 3 (by decide) (by decide)
    (by decide) (by decide) (by decide) (by decide) (by decide) (by decide)



/-- What `parseInstruction` does on an instruction other than DECR_PTR and the loop
opcodes, with the cursor inside a tape whose growth fits 32 bits: no error, flags false,
only INCR_PTR moves the cursor or grows the tape. -/
theorem parseInstruction_straight {instruction memStepSize : Nat} {s : State}
    (h6 : instruction ≠ NIB_DECREMENT_POINTER) (h4 : instruction ≠ NIB_LOOP_START)
    (h1 : instruction ≠ NIB_LOOP_END) (hlen : s.data.length = s.dataSize)
    (hcur : s.dataIndex < s.dataSize)
    (hfit : instruction = NIB_INCREMENT_POINTER → (s.dataIndex + 1) % U32 = s.dataSize →
      s.dataSize + memStepSize < U32) :
    ∃ s1, parseInstruction instruction memStepSize s = .ok ⟨s1, false, false⟩ ∧
      s1.inputIndex = s.inputIndex ∧ s1.data.length = s1.dataSize ∧
      s1.dataIndex =
        (if instruction = NIB_INCREMENT_POINTER then (s.dataIndex + 1) % U32
         else s.dataIndex) ∧
      s1.dataSize =
        (if instruction = NIB_INCREMENT_POINTER ∧ (s.dataIndex + 1) % U32 = s.dataSize
         then s.dataSize + memStepSize else s.dataSize) := by
  have hge : ¬ s.dataIndex ≥ s.dataSize := by omega
  have hidx : s.dataIndex < s.data.length := by omega
  have hcell : s.data[s.dataIndex]? = some s.data[s.dataIndex] :=
    List.getElem?_eq_getElem hidx
  rcases instruction_cases instruction with h | h | h | h | h | h | h | h | ho
  · subst h
    refine ⟨{ s with
        dataIndex := (s.dataIndex + 1) % U32
        dataSize :=
          if (s.dataIndex + 1) % U32 = s.dataSize then s.dataSize + memStepSize
          else s.dataSize
        data :=
          if (s.dataIndex + 1) % U32 = s.dataSize then s.data ++ List.replicate memStepSize 0
          else s.data }, by rw [parseInstruction_incrementPointer,
      incrementPointer_eq memStepSize s hlen (hfit rfl)]; rfl, rfl, ?_, ?_, ?_⟩
    · simp only
      split_ifs <;> simp [hlen]
    · simp only [if_true]
    · simp only [true_and]
  · exact absurd h h6
  · subst h
    refine ⟨{ s with data := s.data.set s.dataIndex ((s.data[s.dataIndex] + 1) % 256) },
      by rw [parseInstruction_incrementValue, if_neg hge,
      incrementValue_eq hcell]; rfl, rfl, by simp [hlen], ?_, ?_⟩
    · rw [if_neg (by decide)]
    · rw [if_neg (fun hc => absurd hc.1 (by decide))]
  · subst h
    refine ⟨{ s with data := s.data.set s.dataIndex ((s.data[s.dataIndex] + 255) % 256) },
      by rw [parseInstruction_decrementValue, if_neg hge,
      decrementValue_eq hcell]; rfl, rfl, by simp [hlen], ?_, ?_⟩
    · rw [if_neg (by decide)]
    · rw [if_neg (fun hc => absurd hc.1 (by decide))]
  · subst h
    refine ⟨{ s with stdout := s.stdout ++ [s.data[s.dataIndex]] },
      by rw [parseInstruction_writeValue, if_neg hge,
      writeValue_eq hcell]; rfl, rfl, hlen, ?_, ?_⟩
    · rw [if_neg (by decide)]
    · rw [if_neg (fun hc => absurd hc.1 (by decide))]
  · subst h
    refine ⟨{ s with data := s.data.set s.dataIndex (toUint8 (getchar s.stdin).1),
                     stdin := (getchar s.stdin).2 },
      by rw [parseInstruction_readValue, if_neg hge,
      readValue_eq hidx]; rfl, rfl, by simp [hlen], ?_, ?_⟩
    · rw [if_neg (by decide)]
    · rw [if_neg (fun hc => absurd hc.1 (by decide))]
  · exact absurd h h4
  · exact absurd h h1
  · refine ⟨s, parseInstruction_other _ _ ho, rfl, hlen, ?_, ?_⟩
    · rw [if_neg ho.1]
    · rw [if_neg (fun hc => ho.1 hc.1)]

theorem count_take_succ (inputData : List Nat) (i x a : Nat)
    (hx : inputData[i]? = some x) :
    (inputData.take (i + 1)).count a =
      (inputData.take i).count a + (if x = a then 1 else 0) := by
  rw [List.take_succ, hx, List.count_append]
  simp [List.count_cons]

theorem count_take_le (inputData : List Nat) (i a : Nat) :
    (inputData.take i).count a ≤ inputData.count a :=
  (List.take_sublist i inputData).count_le a



theorem PointerTracks.atStart (memStepSize : Nat) (inputData stdin : List Nat) :
    PointerTracks memStepSize inputData (initialState memStepSize stdin) := by
  refine ⟨Nat.zero_le _, ?_, ?_, ?_⟩
  · simp [initialState]
  · simp [initialState]
  · simp [initialState]

theorem PointerTracks.inside {memStepSize : Nat} {inputData : List Nat} {s : State}
    (hm : 0 < memStepSize) (h : PointerTracks memStepSize inputData s) :
    s.dataIndex < s.dataSize := by
  rw [h.2.2.1]
  exact Nat.lt_mul_div_succ _ hm

/-- One dispatch cycle of `interpret` on a straight-line program: no error, `inputIndex`
advances by 1, and the cursor keeps tracking the number of INCR_PTR executed. -/
theorem straightLine_cycle {memStepSize : Nat} {inputData : List Nat} (pastEnd : Nat)
    {s : State} (hm : 0 < memStepSize) (hsl : StraightLine inputData)
    (hfit : memStepSize * (inputData.count NIB_INCREMENT_POINTER / memStepSize + 1) < U32)
    (hinv : PointerTracks memStepSize inputData s) (hlt : s.inputIndex < inputData.length) :
    ∃ s1, dispatchCycle parseInstruction memStepSize inputData pastEnd s = .ok s1 ∧
      PointerTracks memStepSize inputData s1 ∧ s1.inputIndex = s.inputIndex + 1 := by
  have hcur := hinv.inside hm
  obtain ⟨hip, hidx, hsize, hlen⟩ := hinv
  have hfetch : inputData[s.inputIndex]? = some inputData[s.inputIndex] :=
    List.getElem?_eq_getElem hlt
  obtain ⟨h6, h4, h1⟩ := hsl _ (List.getElem_mem hlt)
  have hcount := count_take_succ inputData s.inputIndex _ NIB_INCREMENT_POINTER hfetch
  have hle := count_take_le inputData (s.inputIndex + 1) NIB_INCREMENT_POINTER
  have hmono : ∀ c, c ≤ inputData.count NIB_INCREMENT_POINTER →
      memStepSize * (c / memStepSize + 1) < U32 := fun c hc =>
    Nat.lt_of_le_of_lt
      (Nat.mul_le_mul_left _ (Nat.succ_le_succ (Nat.div_le_div_right hc))) hfit
  have hmul : memStepSize * (s.dataIndex / memStepSize + 1 + 1) =
      memStepSize * (s.dataIndex / memStepSize + 1) + memStepSize := Nat.mul_succ _ _
  have hsmall : s.dataIndex + 1 < U32 := by
    have := hmono s.dataIndex (by rw [hidx]; exact count_take_le _ _ _)
    omega
  have hwrap : (s.dataIndex + 1) % U32 = s.dataIndex + 1 := Nat.mod_eq_of_lt hsmall
  have hgrow : inputData[s.inputIndex] = NIB_INCREMENT_POINTER →
      (s.dataIndex + 1) % U32 = s.dataSize → s.dataSize + memStepSize < U32 ∧
        (s.dataIndex + 1) / memStepSize = s.dataIndex / memStepSize + 1 := by
    intro hx hfull
    rw [if_pos hx] at hcount
    have hb := hmono (s.dataIndex + 1) (by omega)
    rcases succ_div_cases s.dataIndex memStepSize hm with ⟨_, e2⟩ | ⟨e1, _⟩
    · rw [e2] at hb
      exact ⟨by omega, e2⟩
    · omega
  by_cases hx : inputData[s.inputIndex] = NIB_INCREMENT_POINTER
  · obtain ⟨s1, hp, e1, e2, e3, e4⟩ := @parseInstruction_straight _ memStepSize _
      h6 h4 h1 hlen hcur (fun _ hfull => (hgrow hx hfull).1)
    rw [if_pos hx] at e3 hcount
    refine ⟨_, dispatchCycle_plain _ _ _ _ _ _ _ hfetch hp, ⟨?_, ?_, ?_, e2⟩, ?_⟩
    · show s1.inputIndex + 1 ≤ inputData.length
      omega
    · show s1.dataIndex = (inputData.take (s1.inputIndex + 1)).count NIB_INCREMENT_POINTER
      rw [e1, hcount, e3, hwrap, hidx]
    · show s1.dataSize = memStepSize * (s1.dataIndex / memStepSize + 1)
      rw [e4, e3, hwrap]
      by_cases hfull : s.dataIndex + 1 = s.dataSize
      · rw [if_pos ⟨hx, hfull⟩, (hgrow hx (hwrap.trans hfull)).2, hmul, hsize]
      · rw [if_neg (fun hc => hfull hc.2)]
        rcases succ_div_cases s.dataIndex memStepSize hm with ⟨e5, _⟩ | ⟨_, e6⟩
        · omega
        · rw [e6, hsize]
    · show s1.inputIndex + 1 = s.inputIndex + 1
      rw [e1]
  · obtain ⟨s1, hp, e1, e2, e3, e4⟩ := @parseInstruction_straight _ memStepSize _
      h6 h4 h1 hlen hcur (fun hc => absurd hc hx)
    rw [if_neg hx] at e3 hcount
    rw [if_neg (fun hc => hx hc.1)] at e4
    refine ⟨_, dispatchCycle_plain _ _ _ _ _ _ _ hfetch hp, ⟨?_, ?_, ?_, e2⟩, ?_⟩
    · show s1.inputIndex + 1 ≤ inputData.length
      omega
    · show s1.dataIndex = (inputData.take (s1.inputIndex + 1)).count NIB_INCREMENT_POINTER
      rw [e1, hcount, e3, hidx]
      rfl
    · show s1.dataSize = memStepSize * (s1.dataIndex / memStepSize + 1)
      rw [e4, e3, hsize]
    · show s1.inputIndex + 1 = s.inputIndex + 1
      rw [e1]

theorem straightLine_run {memStepSize : Nat} {inputData : List Nat} (pastEnd : Nat)
    (hm : 0 < memStepSize) (hsl : StraightLine inputData)
    (hfit : memStepSize * (inputData.count NIB_INCREMENT_POINTER / memStepSize + 1) < U32) :
    ∀ (n : Nat) (s : State), PointerTracks memStepSize inputData s →
      s.inputIndex + n = inputData.length → ∀ fuel,
      ∃ final, interpretWith parseInstruction memStepSize inputData pastEnd (fuel + n) s =
          some (.ok final) ∧
        PointerTracks memStepSize inputData final ∧ final.inputIndex = inputData.length := by
  intro n
  induction n with
  | zero =>
    intro s hinv hn fuel
    exact ⟨s, interpretWith_done _ _ _ _ _ _ (by omega), hinv, by omega⟩
  | succ n ih =>
    intro s hinv hn fuel
    obtain ⟨s1, hc, hinv1, hip1⟩ := straightLine_cycle pastEnd hm hsl hfit hinv (by omega)
    obtain ⟨final, hrun, hf⟩ := ih s1 hinv1 (by omega) fuel
    refine ⟨final, ?_, hf⟩
    rw [show fuel + (n + 1) = (fuel + n) + 1 by omega,
      interpretWith_step _ _ _ _ _ _ _ (by omega) hc]
    exact hrun

theorem reachable_pointerTracks {memStepSize : Nat} {inputData : List Nat} {pastEnd : Nat}
    {stdin : List Nat} {s : State} (hm : 0 < memStepSize) (hsl : StraightLine inputData)
    (hfit : memStepSize * (inputData.count NIB_INCREMENT_POINTER / memStepSize + 1) < U32)
    (h : Reachable parseInstruction memStepSize inputData pastEnd stdin s) :
    PointerTracks memStepSize inputData s := by
  induction h with
  | initial => exact PointerTracks.atStart _ _ _
  | cycle _ hlt hc ih =>
    obtain ⟨s1, hc1, hinv1, _⟩ := straightLine_cycle pastEnd hm hsl hfit ih hlt
    rw [hc] at hc1
    obtain rfl := Except.ok.inj hc1
    exact hinv1



theorem dispatchCycle_pointerState_at (parse : Nat → Nat → State → Except Fault Parsed)
    (hparse : ∀ m s, parse NIB_INCREMENT_POINTER m s = plain (incrementPointer m s))
    (memStepSize : Nat) (stdin inputData : List Nat) (pastEnd k : Nat)
    (hm : 0 < memStepSize) (hk : inputData[k]? = some NIB_INCREMENT_POINTER)
    (hfit : memStepSize * ((k + 1) / memStepSize + 1) < U32) :
    dispatchCycle parse memStepSize inputData pastEnd (pointerState memStepSize stdin k) =
      .ok (pointerState memStepSize stdin (k + 1)) := by
  rw [dispatchCycle_plain parse memStepSize _ pastEnd _
    { pointerState memStepSize stdin (k + 1) with inputIndex := k } _ hk
    (by rw [hparse, incrementPointer_pointerState _ _ _ hm hfit]; rfl)]
  rfl

theorem interpretWith_pointer_prefix (parse : Nat → Nat → State → Except Fault Parsed)
    (hparse : ∀ m s, parse NIB_INCREMENT_POINTER m s = plain (incrementPointer m s))
    (memStepSize : Nat) (stdin inputData : List Nat) (n pastEnd : Nat)
    (hm : 0 < memStepSize) (hprog : ∀ i, i < n → inputData[i]? = some NIB_INCREMENT_POINTER)
    (hfit : memStepSize * (n / memStepSize + 1) < U32) :
    ∀ j k fuel, k + j = n →
      interpretWith parse memStepSize inputData pastEnd (fuel + j)
          (pointerState memStepSize stdin k) =
        interpretWith parse memStepSize inputData pastEnd fuel
          (pointerState memStepSize stdin n) := by
  intro j
  induction j with
  | zero =>
    intro k fuel hk
    have : k = n := by omega
    rw [this]
    rfl
  | succ j ih =>
    intro k fuel hk
    have hbound : memStepSize * ((k + 1) / memStepSize + 1) < U32 :=
      Nat.lt_of_le_of_lt
        (Nat.mul_le_mul_left _ (Nat.succ_le_succ (Nat.div_le_div_right (by omega)))) hfit
    have hfetch := hprog k (by omega)
    rw [show fuel + (j + 1) = (fuel + j) + 1 by omega,
      interpretWith_step _ _ _ _ _ _ _ (lt_length_of_getElem hfetch)
        (dispatchCycle_pointerState_at parse hparse memStepSize stdin inputData pastEnd k hm
          hfetch hbound)]
    exact ih (k + 1) fuel (by omega)

/-- The strict run of `n` INCR_PTR followed by DECR_VAL. -/
theorem interpret_pointer_then_decrement (memStepSize n pastEnd fuel : Nat)
    (stdin : List Nat) (hm : 0 < memStepSize)
    (hfit : memStepSize * (n / memStepSize + 1) < U32) :
    interpret memStepSize (List.replicate n NIB_INCREMENT_POINTER ++ [NIB_DECREMENT_VALUE])
        pastEnd (fuel + (n + 1)) (initialState memStepSize stdin) =
      some (.ok { initialState memStepSize stdin with
        inputIndex := n + 1
        dataIndex := n
        dataSize := memStepSize * (n / memStepSize + 1)
        data := (List.replicate (memStepSize * (n / memStepSize + 1)) 0).set n 255 }) := by
  have hinside : n < memStepSize * (n / memStepSize + 1) := Nat.lt_mul_div_succ n hm
  have hprog : ∀ i, i < n →
      (List.replicate n NIB_INCREMENT_POINTER ++ [NIB_DECREMENT_VALUE])[i]? =
        some NIB_INCREMENT_POINTER := by
    intro i hi
    rw [List.getElem?_append_left (by simpa using hi)]
    simp [hi]
  have hlast : (List.replicate n NIB_INCREMENT_POINTER ++ [NIB_DECREMENT_VALUE])[
      (pointerState memStepSize stdin n).inputIndex]? = some NIB_DECREMENT_VALUE := by
    show (List.replicate n NIB_INCREMENT_POINTER ++ [NIB_DECREMENT_VALUE])[n]? = _
    rw [List.getElem?_append_right (by simp)]
    simp
  have hcell : (pointerState memStepSize stdin n).data[
      (pointerState memStepSize stdin n).dataIndex]? = some 0 := by
    show (List.replicate (memStepSize * (n / memStepSize + 1)) 0)[n]? = some 0
    simp [hinside]
  have hge : ¬ (pointerState memStepSize stdin n).dataIndex ≥
      (pointerState memStepSize stdin n).dataSize := by
    show ¬ n ≥ memStepSize * (n / memStepSize + 1)
    omega
  unfold interpret
  rw [show fuel + (n + 1) = (fuel + 1) + n by omega,
    ← pointerState_zero,
    interpretWith_pointer_prefix parseInstruction parseInstruction_incrementPointer
      memStepSize stdin _ n pastEnd hm hprog hfit n 0 (fuel + 1) (by omega),
    interpretWith_step _ _ _ _ _ _ _ (lt_length_of_getElem hlast)
      (dispatchCycle_plain _ _ _ _ _ _ _ hlast
        (by rw [parseInstruction_decrementValue, if_neg hge, decrementValue_eq hcell]; rfl)),
    interpretWith_done _ _ _ _ _ _ (by simp [pointerState])]
  rfl

/-- C16: for a program made of INCR_PTR, INCR_VAL, DECR_VAL, WRITE, READ and values that
are no opcode, a step size of at least 1 and a tape that stays below `2^32` cells (the
size it reaches for the number of INCR_PTR of the program), the run of `interpret` from
the initial state ends without error after one dispatch cycle per instruction; in every
state of the run the cursor is inside the tape, whose block has `dataSize` cells; and the
program of `n` INCR_PTR followed by DECR_VAL ends without error with cell `n` equal to
255. -/
theorem strict_straight_line (memStepSize pastEnd : Nat) (stdin inputData : List Nat)
    (hstep : 1 ≤ memStepSize) (hsl : StraightLine inputData)
    (hfit : memStepSize * (inputData.count NIB_INCREMENT_POINTER / memStepSize + 1) <
      4294967296) :
    (∀ fuel, ∃ final,
      interpret memStepSize inputData pastEnd (fuel + inputData.length)
          (initialState memStepSize stdin) = some (.ok final) ∧
        final.inputIndex = inputData.length ∧ final.dataIndex < final.dataSize) ∧
    (∀ s, Reachable parseInstruction memStepSize inputData pastEnd stdin s →
      s.dataIndex < s.dataSize ∧ s.data.length = s.dataSize) ∧
    (∀ n, memStepSize * (n / memStepSize + 1) < 4294967296 → ∀ fuel,
      interpret memStepSize (List.replicate n NIB_INCREMENT_POINTER ++ [NIB_DECREMENT_VALUE])
          pastEnd (fuel + (n + 1)) (initialState memStepSize stdin) =
        some (.ok { initialState memStepSize stdin with
          inputIndex := n + 1
          dataIndex := n
          dataSize := memStepSize * (n / memStepSize + 1)
          data := (List.replicate (memStepSize * (n / memStepSize + 1)) 0).set n 255 }) ∧
      ((List.replicate (memStepSize * (n / memStepSize + 1)) 0).set n 255)[n]? =
        some 255) := by
  refine ⟨?_, ?_, ?_⟩
  · intro fuel
    obtain ⟨final, hrun, hinv, hip⟩ := straightLine_run pastEnd hstep hsl hfit
      inputData.length (initialState memStepSize stdin) (PointerTracks.atStart _ _ _)
      (by simp [initialState]) fuel
    exact ⟨final, hrun, hip, hinv.inside hstep⟩
  · intro s hreach
    have hinv := reachable_pointerTracks hstep hsl hfit hreach
    exact ⟨hinv.inside hstep, hinv.2.2.2⟩
  · intro n hn fuel
    refine ⟨interpret_pointer_then_decrement memStepSize n pastEnd fuel stdin hstep hn, ?_⟩
    rw [List.getElem?_set_self]
    simp only [List.length_replicate]
    exact Nat.lt_mul_div_succ n hstep

theorem strict_straight_line_witness :
    (∀ fuel, ∃ final,
      interpret 2 [3, 2, 3, 0, 7, 3, 5, 9] 0 (fuel + [3, 2, 3, 0, 7, 3, 5, 9].length)
          (initialState 2 [65]) = some (.ok final) ∧
        final.inputIndex = [3, 2, 3, 0, 7, 3, 5, 9].length ∧
        final.dataIndex < final.dataSize) ∧
    (∀ s, Reachable parseInstruction 2 [3, 2, 3, 0, 7, 3, 5, 9] 0 [65] s →
      s.dataIndex < s.dataSize ∧ s.data.length = s.dataSize) ∧
    (∀ n, 2 * (n / 2 + 1) < 4294967296 → ∀ fuel,
      interpret 2 (List.replicate n NIB_INCREMENT_POINTER ++ [NIB_DECREMENT_VALUE])
          0 (fuel + (n + 1)) (initialState 2 [65]) =
        some (.ok { initialState 2 [65] with
          inputIndex := n + 1
          dataIndex := n
          dataSize := 2 * (n / 2 + 1)
          data := (List.replicate (2 * (n / 2 + 1)) 0).set n 255 }) ∧
      ((List.replicate (2 * (n / 2 + 1)) 0).set n 255)[n]? = some 255) :=
  strict_straight_line 2 0 [65] [3, 2, 3, 0, 7, 3, 5, 9] (by decide) (by decide) (by decide)



/-- Depth of the position `n + 1` after a LOOP_START at `t`, from the depth counted
inside the loop. -/
theorem depthBefore_nesting {inputData : List Nat} {t : Nat}
    (hx : inputData[t]? = some NIB_LOOP_START) (n : Nat) :
    depthBefore inputData (t + 1 + n) = depthBefore inputData t + nestingDepth inputData t n := by
  induction n with
  | zero =>
    show depthBefore inputData t + depthChange inputData[t]? = _
    rw [hx, depthChange_loopStart]
    rfl
  | succ n ih =>
    show depthBefore inputData (t + 1 + n) + depthChange inputData[t + 1 + n]? =
      depthBefore inputData t + (nestingDepth inputData t n + depthChange inputData[t + n + 1]?)
    rw [ih, show t + 1 + n = t + n + 1 by omega]
    omega

theorem depthBefore_openAt {inputData : List Nat} {t p : Nat} (h : OpenAt inputData t p) :
    depthBefore inputData p = depthBefore inputData t + 1 := by
  obtain ⟨htp, hstart, _, hone⟩ := h
  have := depthBefore_nesting hstart (p - 1 - t)
  rw [show t + 1 + (p - 1 - t) = p by omega, hone] at this
  exact this

theorem depthBefore_matching {inputData : List Nat} {p e : Nat}
    (hx : inputData[p]? = some NIB_LOOP_START) (h : MatchingLoopEnd inputData p e) :
    depthBefore inputData (e + 1) = depthBefore inputData p := by
  obtain ⟨hpe, _, hzero, _⟩ := h
  have := depthBefore_nesting hx (e - p)
  rw [show p + 1 + (e - p) = e + 1 by omega, hzero] at this
  omega

/-- One dispatch cycle of `interpret` keeps the number of loop-stack entries equal to the
nesting depth of `inputIndex`. -/
theorem dispatchCycle_depth {memStepSize : Nat} {inputData : List Nat} {pastEnd : Nat}
    {s s1 : State} (hstep : 0 < memStepSize) (hstep32 : memStepSize < U32)
    (hok : LoopStackOk memStepSize inputData s) (hn : LoopStackNested inputData s)
    (hd : (s.loopStackDepth : Int) = depthBefore inputData s.inputIndex)
    (hlt : s.inputIndex < inputData.length)
    (hc : dispatchCycle parseInstruction memStepSize inputData pastEnd s = .ok s1) :
    (s1.loopStackDepth : Int) = depthBefore inputData s1.inputIndex := by
  have hfetch := getD_of_lt pastEnd hlt
  obtain ⟨p, ip, hp, _⟩ := dispatchCycle_ok hc
  generalize inputData.getD s.inputIndex pastEnd = x at hfetch hp
  have hmark := hok.2.2.2.1
  have hsize := hok.2.2.1
  unfold State.loopStackDepth at hd ⊢
  by_cases hs : x = NIB_LOOP_START
  · subst hs
    rw [parseInstruction_loopStart] at hp
    rcases loopStart_cases hstep hstep32 hok hp with ⟨rfl, hzero⟩ | ⟨rfl, hnew, hcase⟩
    · obtain ⟨e, he, rfl⟩ := dispatchCycle_skip_ok hfetch
        (by rw [parseInstruction_loopStart]; exact hp) hc
      show ((((s.loopStackIndex + 1) % U32 : Nat)) : Int) = depthBefore inputData (e + 1)
      rw [depthBefore_matching hfetch he]
      exact hd
    · rw [dispatchCycle_plain parseInstruction memStepSize inputData pastEnd s _ _ hfetch
        (by rw [parseInstruction_loopStart]; exact hp)] at hc
      obtain rfl := Except.ok.inj hc
      show (((((s.loopStackIndex + 1) % U32 + 1) % U32 : Nat)) : Int) =
        depthBefore inputData s.inputIndex + depthChange inputData[s.inputIndex]?
      rw [hfetch, depthChange_loopStart, ← hd]
      have hsmall : ((s.loopStackIndex + 1) % U32 + 1) % U32 =
          (s.loopStackIndex + 1) % U32 + 1 := by
        apply Nat.mod_eq_of_lt
        unfold U32 at *
        omega
      rw [hsmall]
      push_cast
      rfl
  · by_cases he : x = NIB_LOOP_END
    · subst he
      rw [parseInstruction_loopEnd] at hp
      split at hp
      · exact absurd hp (by simp)
      · rename_i hidx
        obtain ⟨top, htop, _, hback, hdec, _⟩ := loopBack_ok hstep32 hok (by omega)
        rw [dispatchCycle_jump parseInstruction memStepSize inputData pastEnd s _ _ hfetch
          (by rw [parseInstruction_loopEnd, if_neg hidx]; exact hback)] at hc
        obtain rfl := Except.ok.inj hc
        have hne : ¬ s.loopStackEmpty := by
          unfold State.loopStackEmpty U32 at *
          omega
        obtain ⟨⟨top1, htop1, hopen⟩, _⟩ := hn hne
        rw [htop] at htop1
        obtain rfl := Option.some.inj htop1
        have hdepth := depthBefore_openAt hopen
        show ((((toUint32 ((s.loopStackIndex : Int) - 1) + 1) % U32 : Nat)) : Int) =
          depthBefore inputData top
        rw [hdec]
        have hold : (s.loopStackIndex + 1) % U32 = s.loopStackIndex + 1 := by
          apply Nat.mod_eq_of_lt
          unfold U32 at *
          omega
        rw [hold] at hd
        by_cases h0 : s.loopStackIndex = 0
        · rw [if_pos h0]
          rw [h0] at hd
          have : (U32 - 1 + 1) % U32 = 0 := by decide
          rw [this]
          push_cast at hd ⊢
          omega
        · rw [if_neg h0]
          have : (s.loopStackIndex - 1 + 1) % U32 = s.loopStackIndex := by
            rw [show s.loopStackIndex - 1 + 1 = s.loopStackIndex by omega]
            apply Nat.mod_eq_of_lt
            unfold U32 at *
            omega
          rw [this]
          push_cast at hd ⊢
          omega
    · obtain ⟨⟨h1, h2, h3, h4⟩, hip, hf1, hf2⟩ := parseInstruction_frame hs he hp
      obtain ⟨q, f1, f2⟩ := p
      simp only at h1 h2 h3 h4 hip hf1 hf2
      subst hf1 hf2
      rw [dispatchCycle_plain parseInstruction memStepSize inputData pastEnd s _ _ hfetch hp]
        at hc
      obtain rfl := Except.ok.inj hc
      show ((((q.loopStackIndex + 1) % U32 : Nat)) : Int) =
        depthBefore inputData q.inputIndex + depthChange inputData[q.inputIndex]?
      rw [h3, hip, hfetch, depthChange_other hs he, hd]
      omega

theorem initialState_loopStackDepth (memStepSize : Nat) (stdin : List Nat) :
    (initialState memStepSize stdin).loopStackDepth = 0 := by
  show (toUint32 (-1) + 1) % U32 = 0
  decide

/-- Every state at the start of a dispatch cycle of a run with `parseInstruction` has as
many loop-stack entries as loops enclose `inputIndex`. -/
theorem reachable_depth {memStepSize : Nat} {inputData : List Nat} {pastEnd : Nat}
    {stdin : List Nat} {s : State} (hstep : 0 < memStepSize) (hstep32 : memStepSize < U32)
    (h : Reachable parseInstruction memStepSize inputData pastEnd stdin s) :
    (s.loopStackDepth : Int) = depthBefore inputData s.inputIndex := by
  induction h with
  | initial =>
    rw [initialState_loopStackDepth]
    rfl
  | cycle hr hlt hc ih =>
    exact dispatchCycle_depth hstep hstep32 (reachable_loopStackOk hstep hstep32 hr)
      (reachable_nested hstep hstep32 hr) ih hlt hc



/-- The errors of `parseInstruction`: an access outside a heap block, "Data index out of
bounds", or "Unexpected end of loop", the last one only for LOOP_END with
`loopStackIndex >= loopStackSize`. -/
theorem parseInstruction_error {instruction memStepSize : Nat} {s : State}
    {e : Fault} (h : parseInstruction instruction memStepSize s = .error e) :
    e = .memoryFault ∨ e = .dataIndexOutOfBounds ∨
      (e = .unexpectedLoopEnd ∧ instruction = NIB_LOOP_END ∧
        s.loopStackIndex ≥ s.loopStackSize) := by
  rcases instruction_cases instruction with h1 | h1 | h1 | h1 | h1 | h1 | h1 | h1 | ho
  · rw [h1, parseInstruction_incrementPointer] at h
    exact Or.inl (incrementPointer_error (plain_error_eq h))
  · rw [h1, parseInstruction_decrementPointer] at h
    cases h
  · rw [h1, parseInstruction_incrementValue] at h
    split at h
    · cases h; exact Or.inr (Or.inl rfl)
    · exact Or.inl (incrementValue_error (plain_error_eq h))
  · rw [h1, parseInstruction_decrementValue] at h
    split at h
    · cases h; exact Or.inr (Or.inl rfl)
    · exact Or.inl (decrementValue_error (plain_error_eq h))
  · rw [h1, parseInstruction_writeValue] at h
    split at h
    · cases h; exact Or.inr (Or.inl rfl)
    · exact Or.inl (writeValue_error (plain_error_eq h))
  · rw [h1, parseInstruction_readValue] at h
    split at h
    · cases h; exact Or.inr (Or.inl rfl)
    · exact Or.inl (readValue_error (plain_error_eq h))
  · rw [h1, parseInstruction_loopStart] at h
    exact Or.inl (loopStart_error h)
  · rw [h1, parseInstruction_loopEnd] at h
    split at h
    · rename_i hge
      cases h
      exact Or.inr (Or.inr ⟨rfl, h1, hge⟩)
    · exact Or.inl (loopBack_error h)
  · rw [parseInstruction_other _ _ ho] at h
    cases h

/-- Only case `NIB_LOOP_START` sets `skipLoop`, and it leaves the state as it was. -/
theorem parseInstruction_skip {instruction memStepSize : Nat} {s : State} {p : Parsed}
    (h : parseInstruction instruction memStepSize s = .ok p) (hskip : p.skipLoop = true) :
    instruction = NIB_LOOP_START ∧ p = ⟨s, true, false⟩ := by
  by_cases hs : instruction = NIB_LOOP_START
  · refine ⟨hs, ?_⟩
    rw [hs, parseInstruction_loopStart] at h
    unfold loopStart at h
    split at h
    · cases h
    · split at h
      · exact (Except.ok.inj h).symm
      · simp only at h
        split at h
        · cases h
        · split at h
          · cases h
            exact absurd hskip (by simp)
          · cases h
  · by_cases he : instruction = NIB_LOOP_END
    · rw [he, parseInstruction_loopEnd] at h
      split at h
      · cases h
      · unfold loopBack at h
        split at h
        · cases h
          exact absurd hskip (by simp)
        · cases h
    · have := (parseInstruction_frame hs he h).2.2.1
      rw [this] at hskip
      exact absurd hskip (by simp)

/-- A dispatch cycle that stops with "Expected end of loop" had its instruction request
the skip, unless the dispatcher itself returned that error. -/
theorem dispatchCycle_unterminated {parse : Nat → Nat → State → Except Fault Parsed}
    {memStepSize : Nat} {inputData : List Nat} {pastEnd : Nat} {s : State}
    (h : dispatchCycle parse memStepSize inputData pastEnd s = .error .unterminatedLoop) :
    parse (inputData.getD s.inputIndex pastEnd) memStepSize s = .error .unterminatedLoop ∨
      ∃ r, parse (inputData.getD s.inputIndex pastEnd) memStepSize s = .ok r ∧
        r.skipLoop = true := by
  unfold dispatchCycle at h
  split at h
  · rename_i e1 he
    left
    rw [he]
    exact congrArg _ (Except.error.inj h)
  · rename_i r hr
    right
    refine ⟨r, hr, ?_⟩
    by_cases hskip : r.skipLoop = true
    · exact hskip
    · simp only at h
      rw [if_neg (fun hc => hskip hc.1)] at h
      split_ifs at h

/-- A run that stops with an error stops in a dispatch cycle started in a reachable
state. -/
theorem interpretWith_error_reachable {parse : Nat → Nat → State → Except Fault Parsed}
    {memStepSize : Nat} {inputData : List Nat} {pastEnd : Nat} {stdin : List Nat}
    {e : Fault} :
    ∀ (fuel : Nat) (s : State), Reachable parse memStepSize inputData pastEnd stdin s →
      interpretWith parse memStepSize inputData pastEnd fuel s = some (.error e) →
      ∃ s1, Reachable parse memStepSize inputData pastEnd stdin s1 ∧
        s1.inputIndex < inputData.length ∧
        dispatchCycle parse memStepSize inputData pastEnd s1 = .error e := by
  intro fuel
  induction fuel with
  | zero =>
    intro s _ h
    simp only [interpretWith] at h
    split at h <;> simp at h
  | succ fuel ih =>
    intro s hr h
    simp only [interpretWith] at h
    split at h
    · rename_i hlt
      split at h
      · rename_i e1 he
        refine ⟨s, hr, hlt, ?_⟩
        rw [he]
        simp only [Option.some.injEq, Except.error.injEq] at h
        rw [h]
      · rename_i s1 hs1
        exact ih _ (Reachable.cycle hr hlt hs1) h
    · simp at h

/-- In a balanced program every LOOP_START has its matching LOOP_END. -/
theorem balanced_matching {limit : Nat} {inputData : List Nat} {p : Nat}
    (hbal : BalancedWithin limit inputData)
    (hx : inputData[p]? = some NIB_LOOP_START) :
    ∃ e, MatchingLoopEnd inputData p e := by
  by_contra hno
  have hlt := lt_length_of_getElem hx
  have hpos := nestingDepth_pos_of_no_match inputData p hno (inputData.length - 1 - p)
    (by omega)
  have hsum := depthBefore_nesting hx (inputData.length - 1 - p)
  rw [show p + 1 + (inputData.length - 1 - p) = inputData.length by omega, hbal.1] at hsum
  have := (hbal.2 p (by omega)).1
  omega



/-- The two loop errors cannot end a dispatch cycle of `interpret` on a balanced program
in a state whose loop stack has as many entries as loops enclose `inputIndex`. -/
theorem dispatchCycle_no_loop_error {memStepSize : Nat} {inputData : List Nat}
    {pastEnd : Nat} {s : State} (hbal : BalancedWithin memStepSize inputData)
    (hok : LoopStackOk memStepSize inputData s)
    (hd : (s.loopStackDepth : Int) = depthBefore inputData s.inputIndex)
    (hlt : s.inputIndex < inputData.length) :
    dispatchCycle parseInstruction memStepSize inputData pastEnd s ≠
        .error .unexpectedLoopEnd ∧
      dispatchCycle parseInstruction memStepSize inputData pastEnd s ≠
        .error .unterminatedLoop := by
  have hfetch := getD_of_lt pastEnd hlt
  constructor
  · intro hc
    rcases dispatchCycle_error hc with hp | hu
    · rcases parseInstruction_error hp with h1 | h1 | ⟨_, hx, hge⟩
      · cases h1
      · cases h1
      · rw [hx] at hfetch
        have hempty : s.loopStackIndex = U32 - 1 := by
          rcases hok.2.2.2.1 with h2 | h2
          · exact h2
          · have := hok.2.2.1
            omega
        have hzero : s.loopStackDepth = 0 := by
          unfold State.loopStackDepth
          rw [hempty]
          decide
        have hnext : depthBefore inputData (s.inputIndex + 1) =
            depthBefore inputData s.inputIndex + depthChange inputData[s.inputIndex]? := rfl
        rw [hfetch, depthChange_loopEnd, ← hd, hzero] at hnext
        have := (hbal.2 (s.inputIndex + 1) (by omega)).1
        rw [hnext] at this
        exact absurd this (by decide)
    · cases hu
  · intro hc
    rcases dispatchCycle_unterminated hc with hp | ⟨r, hr, hskip⟩
    · rcases parseInstruction_error hp with h1 | h1 | ⟨h1, _⟩
      · cases h1
      · cases h1
      · cases h1
    · obtain ⟨hx, rfl⟩ := parseInstruction_skip hr hskip
      rw [hx] at hfetch hr
      exact (dispatchCycle_skip_unterminated parseInstruction memStepSize inputData pastEnd s
        hfetch hr).1 hc (balanced_matching hbal hfetch)

/-- C17: for a program whose LOOP_START / LOOP_END instructions are balanced with nesting
depth at most the step size (a positive `uint32_t`), at the start of every dispatch cycle
of a run of `interpret` from the initial state: the number of loop-stack entries equals
the number of loops that enclose `inputIndex` (loops entered and not yet left); every
entry is the position of a LOOP_START, the top one of the loop that directly encloses
`inputIndex` and each other one of the loop that directly encloses the entry above it; a
LOOP_START met there finds room on the stack without growth; the dispatch cycle does not
stop with "Unexpected end of loop" nor with "Expected end of loop".  Hence no run of
`interpret` on such a program stops with one of these two errors. -/
theorem loopStack_tracks_nesting (memStepSize : Nat) (inputData : List Nat) (pastEnd : Nat)
    (stdin : List Nat) (hstep : 0 < memStepSize) (hstep32 : memStepSize < 4294967296)
    (hbal : BalancedWithin memStepSize inputData) :
    (∀ s, Reachable parseInstruction memStepSize inputData pastEnd stdin s →
      (s.loopStackDepth : Int) = depthBefore inputData s.inputIndex ∧
      s.loopStackDepth ≤ memStepSize ∧
      (∀ j, j < s.loopStackDepth →
        ∃ v, s.loopStack[j]? = some v ∧ inputData[v]? = some NIB_LOOP_START) ∧
      LoopStackNested inputData s ∧
      (inputData[s.inputIndex]? = some NIB_LOOP_START →
        (s.loopStackIndex + 1) % 4294967296 ≠ s.loopStackSize) ∧
      (s.inputIndex < inputData.length →
        dispatchCycle parseInstruction memStepSize inputData pastEnd s ≠
          .error .unexpectedLoopEnd ∧
        dispatchCycle parseInstruction memStepSize inputData pastEnd s ≠
          .error .unterminatedLoop)) ∧
    (∀ fuel,
      interpret memStepSize inputData pastEnd fuel (initialState memStepSize stdin) ≠
        some (.error .unexpectedLoopEnd) ∧
      interpret memStepSize inputData pastEnd fuel (initialState memStepSize stdin) ≠
        some (.error .unterminatedLoop)) := by
  have hinv : ∀ s, Reachable parseInstruction memStepSize inputData pastEnd stdin s →
      LoopStackOk memStepSize inputData s ∧
        (s.loopStackDepth : Int) = depthBefore inputData s.inputIndex :=
    fun s hr => ⟨reachable_loopStackOk hstep hstep32 hr, reachable_depth hstep hstep32 hr⟩
  constructor
  · intro s hr
    obtain ⟨hok, hd⟩ := hinv s hr
    have hmark := hok.2.2.2.1
    have hdepth : s.loopStackDepth =
        (if s.loopStackIndex = U32 - 1 then 0 else s.loopStackIndex + 1) := by
      unfold State.loopStackDepth
      rcases hmark with h1 | h1
      · rw [if_pos h1, h1]
        decide
      · rw [if_neg (by unfold U32 at *; omega)]
        apply Nat.mod_eq_of_lt
        unfold U32 at *
        omega
    refine ⟨hd, ?_, ?_, reachable_nested hstep hstep32 hr, ?_,
      fun hlt => dispatchCycle_no_loop_error hbal hok hd hlt⟩
    · rw [hdepth]
      rcases hmark with h1 | h1
      · rw [if_pos h1]
        omega
      · rw [if_neg (by unfold U32 at *; omega)]
        omega
    · intro j hj
      rw [hdepth] at hj
      by_cases h1 : s.loopStackIndex = U32 - 1
      · rw [if_pos h1] at hj
        omega
      · rw [if_neg h1] at hj
        rcases hmark with h2 | h2
        · exact absurd h2 h1
        · exact hok.2.2.2.2 j (by omega) h2
    · intro hfetch
      have hlt := lt_length_of_getElem hfetch
      have hnext : depthBefore inputData (s.inputIndex + 1) =
          depthBefore inputData s.inputIndex + depthChange inputData[s.inputIndex]? := rfl
      rw [hfetch, depthChange_loopStart, ← hd] at hnext
      have hle := (hbal.2 (s.inputIndex + 1) (by omega)).2
      rw [hnext] at hle
      have hsize := hok.2.2.1
      unfold State.loopStackDepth at hle
      show (s.loopStackIndex + 1) % U32 ≠ s.loopStackSize
      omega
  · intro fuel
    constructor
    · intro h
      obtain ⟨s1, hr, hlt, hc⟩ := interpretWith_error_reachable fuel _ Reachable.initial h
      obtain ⟨hok, hd⟩ := hinv s1 hr
      exact (dispatchCycle_no_loop_error hbal hok hd hlt).1 hc
    · intro h
      obtain ⟨s1, hr, hlt, hc⟩ := interpretWith_error_reachable fuel _ Reachable.initial h
      obtain ⟨hok, hd⟩ := hinv s1 hr
      exact (dispatchCycle_no_loop_error hbal hok hd hlt).2 hc

theorem loopStack_tracks_nesting_witness :
    (∀ s, Reachable parseInstruction 2 [2, 4, 4, 5, 1, 1] 0 [] s →
      (s.loopStackDepth : Int) = depthBefore [2, 4, 4, 5, 1, 1] s.inputIndex ∧
      s.loopStackDepth ≤ 2 ∧
      (∀ j, j < s.loopStackDepth →
        ∃ v, s.loopStack[j]? = some v ∧ [2, 4, 4, 5, 1, 1][v]? = some NIB_LOOP_START) ∧
      LoopStackNested [2, 4, 4, 5, 1, 1] s ∧
      ([2, 4, 4, 5, 1, 1][s.inputIndex]? = some NIB_LOOP_START →
        (s.loopStackIndex + 1) % 4294967296 ≠ s.loopStackSize) ∧
      (s.inputIndex < [2, 4, 4, 5, 1, 1].length →
        dispatchCycle parseInstruction 2 [2, 4, 4, 5, 1, 1] 0 s ≠
          .error .unexpectedLoopEnd ∧
        dispatchCycle parseInstruction 2 [2, 4, 4, 5, 1, 1] 0 s ≠
          .error .unterminatedLoop)) ∧
    (∀ fuel,
      interpret 2 [2, 4, 4, 5, 1, 1] 0 fuel (initialState 2 []) ≠
        some (.error .unexpectedLoopEnd) ∧
      interpret 2 [2, 4, 4, 5, 1, 1] 0 fuel (initialState 2 []) ≠
        some (.error .unterminatedLoop)) :=
  loopStack_tracks_nesting 2 [2, 4, 4, 5, 1, 1] 0 [] (by decide) (by decide) (by decide)



/-- C21: READ (`*(*data + *dataIndex) = getchar()`) with the cursor inside the tape, in
`parseInstruction` and in `parseInstructionSafely` alike: when standard input is
exhausted `getchar` returns -1 and the cell under the cursor becomes 255, the value
converted to `uint8_t`, whatever it held before; when standard input starts with the
byte `b` the cell becomes `b` and the byte is consumed.  Nothing else changes and no
error is raised. -/
theorem read_end_of_input (memStepSize : Nat) (s : State)
    (hlen : s.data.length = s.dataSize) (hcur : s.dataIndex < s.dataSize) :
    (s.stdin = [] →
      (getchar s.stdin).1 = -1 ∧
      parseInstruction NIB_READ_VALUE memStepSize s =
        .ok ⟨{ s with data := s.data.set s.dataIndex 255 }, false, false⟩ ∧
      parseInstructionSafely NIB_READ_VALUE memStepSize s =
        .ok ⟨{ s with data := s.data.set s.dataIndex 255 }, false, false⟩ ∧
      (s.data.set s.dataIndex 255)[s.dataIndex]? = some 255) ∧
    (∀ b rest, s.stdin = b :: rest → b < 256 →
      parseInstruction NIB_READ_VALUE memStepSize s =
        .ok ⟨{ s with data := s.data.set s.dataIndex b, stdin := rest }, false, false⟩ ∧
      parseInstructionSafely NIB_READ_VALUE memStepSize s =
        .ok ⟨{ s with data := s.data.set s.dataIndex b, stdin := rest }, false, false⟩ ∧
      (s.data.set s.dataIndex b)[s.dataIndex]? = some b) := by
  have hidx : s.dataIndex < s.data.length := by omega
  have hge : ¬ s.dataIndex ≥ s.dataSize := by omega
  have hstrict : parseInstruction NIB_READ_VALUE memStepSize s =
      .ok ⟨{ s with data := s.data.set s.dataIndex (toUint8 (getchar s.stdin).1),
                    stdin := (getchar s.stdin).2 }, false, false⟩ := by
    rw [parseInstruction_readValue, if_neg hge, readValue_eq hidx]
    rfl
  have hsafe : parseInstructionSafely NIB_READ_VALUE memStepSize s =
      .ok ⟨{ s with data := s.data.set s.dataIndex (toUint8 (getchar s.stdin).1),
                    stdin := (getchar s.stdin).2 }, false, false⟩ := by
    rw [parseInstructionSafely_readValue, readValue_eq hidx]
    rfl
  constructor
  · intro hin
    have hst : ({ s with data := s.data.set s.dataIndex (toUint8 (getchar s.stdin).1),
                         stdin := (getchar s.stdin).2 } : State) =
        { s with data := s.data.set s.dataIndex 255 } := by
      obtain ⟨a1, a2, a3, a4, a5, a6, a7, a8, a9, a10⟩ := s
      simp only at hin
      subst hin
      rfl
    rw [hstrict, hsafe, hst]
    refine ⟨?_, rfl, rfl, List.getElem?_set_self hidx⟩
    rw [hin]
    rfl
  · intro b rest hin hb
    have hst : ({ s with data := s.data.set s.dataIndex (toUint8 (getchar s.stdin).1),
                         stdin := (getchar s.stdin).2 } : State) =
        { s with data := s.data.set s.dataIndex b, stdin := rest } := by
      have hval : toUint8 (getchar (b :: rest)).1 = b := by
        show ((b : Int) % 256).toNat = b
        omega
      rw [hin, hval]
      rfl
    rw [hstrict, hsafe, hst]
    exact ⟨rfl, rfl, List.getElem?_set_self hidx⟩

theorem read_end_of_input_witness :
    ((initialState 2 []).stdin = [] →
      (getchar (initialState 2 []).stdin).1 = -1 ∧
      parseInstruction NIB_READ_VALUE 2 (initialState 2 []) =
        .ok ⟨{ initialState 2 [] with
                data := (initialState 2 []).data.set (initialState 2 []).dataIndex 255 },
             false, false⟩ ∧
      parseInstructionSafely NIB_READ_VALUE 2 (initialState 2 []) =
        .ok ⟨{ initialState 2 [] with
                data := (initialState 2 []).data.set (initialState 2 []).dataIndex 255 },
             false, false⟩ ∧
      ((initialState 2 []).data.set (initialState 2 []).dataIndex 255)[
        (initialState 2 []).dataIndex]? = some 255) ∧
    (∀ b rest, (initialState 2 []).stdin = b :: rest → b < 256 →
      parseInstruction NIB_READ_VALUE 2 (initialState 2 []) =
        .ok ⟨{ initialState 2 [] with
                data := (initialState 2 []).data.set (initialState 2 []).dataIndex b,
                stdin := rest }, false, false⟩ ∧
      parseInstructionSafely NIB_READ_VALUE 2 (initialState 2 []) =
        .ok ⟨{ initialState 2 [] with
                data := (initialState 2 []).data.set (initialState 2 []).dataIndex b,
                stdin := rest }, false, false⟩ ∧
      ((initialState 2 []).data.set (initialState 2 []).dataIndex b)[
        (initialState 2 []).dataIndex]? = some b) :=
  read_end_of_input 2 (initialState 2 []) (by decide) (by decide)



/-- A result of `parseInstruction` in a state whose cursor is inside the tape is also the
result of `parseInstructionSafely`. -/
theorem parseInstructionSafely_of_inside {instruction memStepSize : Nat} {s : State}
    {p : Parsed} (hcur : s.dataIndex < s.dataSize)
    (hp : parseInstruction instruction memStepSize s = .ok p) :
    parseInstructionSafely instruction memStepSize s = .ok p := by
  rw [parseInstructionSafely_eq_of_inside instruction memStepSize s hcur (by rw [hp]; simp)]
  exact hp

/-- C22: in a state whose cursor is inside the tape, on a cell holding `v`, each of
DECR_PTR, INCR_VAL, DECR_VAL, WRITE and READ, and INCR_PTR when the growth that it
triggers keeps the tape below `2^32` cells, in `parseInstruction` and in
`parseInstructionSafely` alike, succeeds with both flags false, so that the dispatch cycle
advances `inputIndex` by exactly 1; the loop stack and every cell other than the one
under the cursor keep their values; INCR_VAL, DECR_VAL and READ also keep the cursor, the
tape length and the output; WRITE only appends the cell to the output; INCR_PTR and
DECR_PTR keep every existing cell and the console, INCR_PTR at most appending zero cells
and DECR_PTR none. -/
theorem tape_operations_frame (memStepSize : Nat) (inputData : List Nat) (pastEnd : Nat)
    (s : State) (v : Nat) (hlen : s.data.length = s.dataSize)
    (hcell : s.data[s.dataIndex]? = some v) :
    ∀ parse, parse = parseInstruction ∨ parse = parseInstructionSafely →
      ∀ instruction, instruction ∈ [NIB_INCREMENT_POINTER, NIB_DECREMENT_POINTER,
          NIB_INCREMENT_VALUE, NIB_DECREMENT_VALUE, NIB_WRITE_VALUE, NIB_READ_VALUE] →
        (instruction = NIB_INCREMENT_POINTER →
          (s.dataIndex + 1) % 4294967296 = s.dataSize →
          s.dataSize + memStepSize < 4294967296) →
        ∃ s1, parse instruction memStepSize s = .ok ⟨s1, false, false⟩ ∧
          (inputData[s.inputIndex]? = some instruction →
            dispatchCycle parse memStepSize inputData pastEnd s =
              .ok { s1 with inputIndex := s.inputIndex + 1 }) ∧
          s1.inputIndex = s.inputIndex ∧
          SameLoopStack s s1 ∧
          (∀ i, i < s.data.length → i ≠ s.dataIndex → s1.data[i]? = s.data[i]?) ∧
          (instruction ≠ NIB_READ_VALUE → s1.stdin = s.stdin) ∧
          (instruction = NIB_INCREMENT_VALUE ∨ instruction = NIB_DECREMENT_VALUE ∨
              instruction = NIB_READ_VALUE →
            s1.dataIndex = s.dataIndex ∧ s1.dataSize = s.dataSize ∧
              s1.data.length = s.data.length ∧ s1.stdout = s.stdout) ∧
          (instruction = NIB_WRITE_VALUE → s1 = { s with stdout := s.stdout ++ [v] }) ∧
          (instruction = NIB_INCREMENT_POINTER ∨ instruction = NIB_DECREMENT_POINTER →
            s1.data[s.dataIndex]? = some v ∧ s1.stdout = s.stdout ∧
              ∃ k, s1.data = s.data ++ List.replicate k 0 ∧ s1.dataSize = s.dataSize + k ∧
                (instruction = NIB_DECREMENT_POINTER → k = 0)) := by
  intro parse hparse
  have hidx : s.dataIndex < s.data.length := lt_length_of_getElem hcell
  have hcur : s.dataIndex < s.dataSize := by omega
  have hge : ¬ s.dataIndex ≥ s.dataSize := by omega
  have hboth : ∀ instruction p, parseInstruction instruction memStepSize s = .ok p →
      parse instruction memStepSize s = .ok p := by
    intro instruction p hp
    rcases hparse with rfl | rfl
    · exact hp
    · exact parseInstructionSafely_of_inside hcur hp
  have hcycle : ∀ instruction s1, parseInstruction instruction memStepSize s =
      .ok ⟨s1, false, false⟩ → s1.inputIndex = s.inputIndex →
      inputData[s.inputIndex]? = some instruction →
      dispatchCycle parse memStepSize inputData pastEnd s =
        .ok { s1 with inputIndex := s.inputIndex + 1 } := by
    intro instruction s1 hp hip hfetch
    rw [dispatchCycle_plain parse memStepSize inputData pastEnd s s1 instruction hfetch
      (hboth _ _ hp), hip]
  intro instruction hmem hfit
  simp only [List.mem_cons, List.mem_singleton, List.not_mem_nil, or_false] at hmem
  rcases hmem with rfl | rfl | rfl | rfl | rfl | rfl
  · have hp : parseInstruction NIB_INCREMENT_POINTER memStepSize s =
        .ok ⟨{ s with
          dataIndex := (s.dataIndex + 1) % U32
          dataSize :=
            if (s.dataIndex + 1) % U32 = s.dataSize then s.dataSize + memStepSize
            else s.dataSize
          data :=
            if (s.dataIndex + 1) % U32 = s.dataSize then
              s.data ++ List.replicate memStepSize 0
            else s.data }, false, false⟩ := by
      rw [parseInstruction_incrementPointer,
        incrementPointer_eq memStepSize s hlen (hfit rfl)]
      rfl
    refine ⟨_, hboth _ _ hp, hcycle _ _ hp rfl, rfl, ⟨rfl, rfl, rfl, rfl⟩, ?_, fun _ => rfl,
      fun h => absurd h (by decide), fun h => absurd h (by decide), fun _ => ?_⟩
    · intro i hi _
      show (if (s.dataIndex + 1) % U32 = s.dataSize then
        s.data ++ List.replicate memStepSize 0 else s.data)[i]? = s.data[i]?
      split
      · exact List.getElem?_append_left hi
      · rfl
    · show (if (s.dataIndex + 1) % U32 = s.dataSize then
          s.data ++ List.replicate memStepSize 0 else s.data)[s.dataIndex]? = some v ∧
        s.stdout = s.stdout ∧
        ∃ k, (if (s.dataIndex + 1) % U32 = s.dataSize then
            s.data ++ List.replicate memStepSize 0 else s.data) =
              s.data ++ List.replicate k 0 ∧
          (if (s.dataIndex + 1) % U32 = s.dataSize then s.dataSize + memStepSize
            else s.dataSize) = s.dataSize + k ∧
          (NIB_INCREMENT_POINTER = NIB_DECREMENT_POINTER → k = 0)
      by_cases hfull : (s.dataIndex + 1) % U32 = s.dataSize
      · rw [if_pos hfull, if_pos hfull]
        refine ⟨?_, rfl, memStepSize, rfl, rfl, fun h => absurd h (by decide)⟩
        rw [List.getElem?_append_left hidx]
        exact hcell
      · rw [if_neg hfull, if_neg hfull]
        exact ⟨hcell, rfl, 0, by simp, rfl, fun _ => rfl⟩
  · have hp : parseInstruction NIB_DECREMENT_POINTER memStepSize s =
        .ok ⟨{ s with dataIndex := toUint32 ((s.dataIndex : Int) - 1) }, false, false⟩ :=
      parseInstruction_decrementPointer memStepSize s
    exact ⟨_, hboth _ _ hp, hcycle _ _ hp rfl, rfl, ⟨rfl, rfl, rfl, rfl⟩, fun _ _ _ => rfl,
      fun _ => rfl, fun h => absurd h (by decide), fun h => absurd h (by decide),
      fun _ => ⟨hcell, rfl, 0, by simp, rfl, fun _ => rfl⟩⟩
  · have hp : parseInstruction NIB_INCREMENT_VALUE memStepSize s =
        .ok ⟨{ s with data := s.data.set s.dataIndex ((v + 1) % 256) }, false, false⟩ := by
      rw [parseInstruction_incrementValue, if_neg hge, incrementValue_eq hcell]
      rfl
    exact ⟨_, hboth _ _ hp, hcycle _ _ hp rfl, rfl, ⟨rfl, rfl, rfl, rfl⟩,
      fun i _ hi => List.getElem?_set_ne (Ne.symm hi), fun _ => rfl,
      fun _ => ⟨rfl, rfl, List.length_set _ _ _, rfl⟩, fun h => absurd h (by decide),
      fun h => absurd h (by decide)⟩
  · have hp : parseInstruction NIB_DECREMENT_VALUE memStepSize s =
        .ok ⟨{ s with data := s.data.set s.dataIndex ((v + 255) % 256) }, false, false⟩ := by
      rw [parseInstruction_decrementValue, if_neg hge, decrementValue_eq hcell]
      rfl
    exact ⟨_, hboth _ _ hp, hcycle _ _ hp rfl, rfl, ⟨rfl, rfl, rfl, rfl⟩,
      fun i _ hi => List.getElem?_set_ne (Ne.symm hi), fun _ => rfl,
      fun _ => ⟨rfl, rfl, List.length_set _ _ _, rfl⟩, fun h => absurd h (by decide),
      fun h => absurd h (by decide)⟩
  · have hp : parseInstruction NIB_WRITE_VALUE memStepSize s =
        .ok ⟨{ s with stdout := s.stdout ++ [v] }, false, false⟩ := by
      rw [parseInstruction_writeValue, if_neg hge, writeValue_eq hcell]
      rfl
    exact ⟨_, hboth _ _ hp, hcycle _ _ hp rfl, rfl, ⟨rfl, rfl, rfl, rfl⟩, fun _ _ _ => rfl,
      fun _ => rfl, fun h => absurd h (by decide), fun _ => rfl,
      fun h => absurd h (by decide)⟩
  · have hp : parseInstruction NIB_READ_VALUE memStepSize s =
        .ok ⟨{ s with data := s.data.set s.dataIndex (toUint8 (getchar s.stdin).1),
                      stdin := (getchar s.stdin).2 }, false, false⟩ := by
      rw [parseInstruction_readValue, if_neg hge, readValue_eq hidx]
      rfl
    exact ⟨_, hboth _ _ hp, hcycle _ _ hp rfl, rfl, ⟨rfl, rfl, rfl, rfl⟩,
      fun i _ hi => List.getElem?_set_ne (Ne.symm hi), fun h => absurd rfl h,
      fun _ => ⟨rfl, rfl, List.length_set _ _ _, rfl⟩, fun h => absurd h (by decide),
      fun h => absurd h (by decide)⟩



theorem tape_operations_frame_witness :
    ∃ s1, parseInstructionSafely NIB_INCREMENT_POINTER 1 (initialState 1 [65]) =
        .ok ⟨s1, false, false⟩ ∧
      ([3][(initialState 1 [65]).inputIndex]? = some NIB_INCREMENT_POINTER →
        dispatchCycle parseInstructionSafely 1 [3] 0 (initialState 1 [65]) =
          .ok { s1 with inputIndex := (initialState 1 [65]).inputIndex + 1 }) ∧
      s1.inputIndex = (initialState 1 [65]).inputIndex ∧
      SameLoopStack (initialState 1 [65]) s1 ∧
      (∀ i, i < (initialState 1 [65]).data.length →
        i ≠ (initialState 1 [65]).dataIndex →
        s1.data[i]? = (initialState 1 [65]).data[i]?) ∧
      (NIB_INCREMENT_POINTER ≠ NIB_READ_VALUE → s1.stdin = (initialState 1 [65]).stdin) ∧
      (NIB_INCREMENT_POINTER = NIB_INCREMENT_VALUE ∨
          NIB_INCREMENT_POINTER = NIB_DECREMENT_VALUE ∨
          NIB_INCREMENT_POINTER = NIB_READ_VALUE →
        s1.dataIndex = (initialState 1 [65]).dataIndex ∧
          s1.dataSize = (initialState 1 [65]).dataSize ∧
          s1.data.length = (initialState 1 [65]).data.length ∧
          s1.stdout = (initialState 1 [65]).stdout) ∧
      (NIB_INCREMENT_POINTER = NIB_WRITE_VALUE →
        s1 = { initialState 1 [65] with
                stdout := (initialState 1 [65]).stdout ++ [0] }) ∧
      (NIB_INCREMENT_POINTER = NIB_INCREMENT_POINTER ∨
          NIB_INCREMENT_POINTER = NIB_DECREMENT_POINTER →
        s1.data[(initialState 1 [65]).dataIndex]? = some 0 ∧
          s1.stdout = (initialState 1 [65]).stdout ∧
          ∃ k, s1.data = (initialState 1 [65]).data ++ List.replicate k 0 ∧
            s1.dataSize = (initialState 1 [65]).dataSize + k ∧
            (NIB_INCREMENT_POINTER = NIB_DECREMENT_POINTER → k = 0)) :=
  tape_operations_frame 1 [3] 0 (initialState 1 [65]) 0 (by decide) (by decide)
    parseInstructionSafely (Or.inr rfl) NIB_INCREMENT_POINTER (by decide)
    (fun _ _ => by decide)



/-- C5 (evaluation of the code at the failing input): with step size 1 the run of
`interpret` on `+[.[-]]` (file bytes `0x24 0x04 0x51 0x1F`) reaches its inner LOOP_START,
position 3, with the position 1 of the outer LOOP_START on a loop stack of capacity 1 and
a non-zero cell.  The growth performed there runs outside the block returned by `realloc`
and the run stops with that fault, before any LOOP_END is examined.  The growth statement
leaves `*loopStack` one element inside the new block `realloc [1] 2`: the slot
`*loopStack + 0`, which the LOOP_END of the outer loop (position 6) pops, is element 1 of
the block, a cell left indeterminate by `realloc`, while the pushed position 1 stays in
element 0; in a state with these loop-stack variables LOOP_END does not stop, finds the
stack non-empty, and sets `inputIndex` to that indeterminate value, not to 1. -/
theorem strict_loopEnd_after_growth :
    Reachable parseInstruction 1 [2, 4, 0, 4, 5, 1, 1, 15] 0 []
      { initialState 1 [] with inputIndex := 3, data := [1], loopStack := [1],
                               loopStackIndex := 0, stdout := [1] } ∧
    parseInstruction NIB_LOOP_START 1
      { initialState 1 [] with inputIndex := 3, data := [1], loopStack := [1],
                               loopStackIndex := 0, stdout := [1] } = .error .memoryFault ∧
    run [0x24, 0x04, 0x51, 0x1F] 1 false 0 [] 4 = some (.error .memoryFault) ∧
    load (realloc [1] 2) 0 = .ok 1 ∧
    load (realloc [1] 2) (1 + 0) = .ok indeterminate ∧
    ¬ ({ initialState 1 [] with inputIndex := 6, data := [0], loopStack := realloc [1] 2,
                                loopStackShift := 1, loopStackIndex := 0,
                                loopStackSize := 2, stdout := [1] } : State).loopStackEmpty ∧
    parseInstruction NIB_LOOP_END 1
      { initialState 1 [] with inputIndex := 6, data := [0], loopStack := realloc [1] 2,
                               loopStackShift := 1, loopStackIndex := 0,
                               loopStackSize := 2, stdout := [1] } =
      .ok ⟨{ initialState 1 [] with inputIndex := indeterminate, data := [0],
                                    loopStack := realloc [1] 2, loopStackShift := 1,
                                    loopStackIndex := 4294967295, loopStackSize := 2,
                                    stdout := [1] }, false, true⟩ ∧
    indeterminate ≠ 1 :=
  ⟨Reachable.cycle
      (Reachable.cycle
        (Reachable.cycle Reachable.initial (by decide)
          (by rfl : dispatchCycle parseInstruction 1 [2, 4, 0, 4, 5, 1, 1, 15] 0
              (initialState 1 []) =
            .ok { initialState 1 [] with inputIndex := 1, data := [1] }))
        (by decide)
        (by rfl : dispatchCycle parseInstruction 1 [2, 4, 0, 4, 5, 1, 1, 15] 0
            { initialState 1 [] with inputIndex := 1, data := [1] } =
          .ok { initialState 1 [] with inputIndex := 2, data := [1], loopStack := [1],
                                       loopStackIndex := 0 }))
      (by decide) (by rfl),
    by rfl, by rfl, by rfl, by rfl, by decide, by rfl, by decide⟩



/-- Case `NIB_INCREMENT_POINTER` when the growth takes the tape to `2^32` cells or more:
`*dataSize += memStepSize` wraps, and `memset(*data + *dataSize - memStepSize, ...)`
starts before the block. -/
theorem incrementPointer_overflow (memStepSize : Nat) (s : State)
    (hfull : (s.dataIndex + 1) % U32 = s.dataSize) (hsize : s.dataSize < U32)
    (hstep : memStepSize < U32) (hwrap : U32 ≤ s.dataSize + memStepSize) :
    incrementPointer memStepSize s = .error .memoryFault := by
  have hmod : (s.dataSize + memStepSize) % U32 = s.dataSize + memStepSize - U32 := by
    rw [Nat.mod_eq_sub_mod hwrap]
    exact Nat.mod_eq_of_lt (by omega)
  have hfault : memset (realloc s.data ((s.dataSize + memStepSize) % U32))
      ((((s.dataSize + memStepSize) % U32 : Nat) : Int) - (memStepSize : Int)) memStepSize =
        .error .memoryFault := by
    unfold memset
    rw [if_neg]
    intro h
    have h1 := h.1
    rw [hmod] at h1
    omega
  unfold incrementPointer
  simp only
  rw [if_pos hfull, hfault]

theorem pointerState_data_length (memStepSize : Nat) (stdin : List Nat) (k : Nat) :
    (pointerState memStepSize stdin k).data.length = (pointerState memStepSize stdin k).dataSize :=
  List.length_replicate _ _

/-- The run of a program of `n` INCR_PTR from the initial state passes through
`pointerState k` for every `k <= n`, as long as the tape stays below `2^32` cells. -/
theorem reachable_pointerState (parse : Nat → Nat → State → Except Fault Parsed)
    (hparse : ∀ m s, parse NIB_INCREMENT_POINTER m s = plain (incrementPointer m s))
    (memStepSize n pastEnd : Nat) (stdin : List Nat) (hm : 0 < memStepSize) :
    ∀ k, k ≤ n → memStepSize * (k / memStepSize + 1) < U32 →
      Reachable parse memStepSize (List.replicate n NIB_INCREMENT_POINTER) pastEnd stdin
        (pointerState memStepSize stdin k) := by
  intro k
  induction k with
  | zero =>
    intro _ _
    rw [pointerState_zero]
    exact Reachable.initial
  | succ k ih =>
    intro hk hfit
    have hprev : memStepSize * (k / memStepSize + 1) < U32 :=
      Nat.lt_of_le_of_lt
        (Nat.mul_le_mul_left _ (Nat.succ_le_succ (Nat.div_le_div_right (by omega)))) hfit
    have hfetch : (List.replicate n NIB_INCREMENT_POINTER)[k]? = some NIB_INCREMENT_POINTER := by
      rw [List.getElem?_replicate]
      exact if_pos (by omega)
    exact Reachable.cycle (ih (by omega) hprev)
      (by
        show k < (List.replicate n NIB_INCREMENT_POINTER).length
        rw [List.length_replicate]
        omega)
      (dispatchCycle_pointerState_at parse hparse memStepSize stdin _ pastEnd k hm hfetch hfit)



theorem pointerState_inside (memStepSize : Nat) (stdin : List Nat) (k : Nat)
    (hm : 0 < memStepSize) :
    (pointerState memStepSize stdin k).dataIndex < (pointerState memStepSize stdin k).dataSize :=
  Nat.lt_mul_div_succ k hm

theorem pointerState_cell (memStepSize : Nat) (stdin : List Nat) (k : Nat)
    (hm : 0 < memStepSize) :
    (pointerState memStepSize stdin k).data[(pointerState memStepSize stdin k).dataIndex]? =
      some 0 := by
  show (List.replicate (memStepSize * (k / memStepSize + 1)) 0)[k]? = some 0
  rw [List.getElem?_replicate]
  exact if_pos (Nat.lt_mul_div_succ k hm)

/-- INCR_PTR on the last cell of a tape whose next growth reaches `2^32` cells fails in
every dispatcher that runs `incrementPointer`. -/
theorem pointerState_overflow (parse : Nat → Nat → State → Except Fault Parsed)
    (hparse : ∀ m s, parse NIB_INCREMENT_POINTER m s = plain (incrementPointer m s))
    (memStepSize k : Nat) (stdin : List Nat) (hstep : memStepSize < U32)
    (hsize : memStepSize * (k / memStepSize + 1) < U32)
    (hfull : (k + 1) % U32 = memStepSize * (k / memStepSize + 1))
    (hwrap : U32 ≤ memStepSize * (k / memStepSize + 1) + memStepSize) :
    parse NIB_INCREMENT_POINTER memStepSize (pointerState memStepSize stdin k) =
      .error .memoryFault := by
  rw [hparse, incrementPointer_overflow memStepSize _ hfull hsize hstep hwrap]
  rfl

/-- C22 as stated fails: with the default step size 32768, the run of INCR_PTR repeated
reaches after 4294934527 of them the state `pointerState 32768 [] 4294934527`, in either
policy; its cursor is inside the tape, on the last of `2^32 - 32768` zero cells.  The next
INCR_PTR has to grow the tape to `2^32` cells: the `uint32_t` size wraps to 0 and the
`memset` of the growth starts before the block, so both dispatchers stop with an access
outside the block instead of returning a state, and the dispatch cycle does not advance
`inputIndex`. -/
theorem incrementPointer_past_uint32 :
    Reachable parseInstruction 32768 (List.replicate 4294934528 NIB_INCREMENT_POINTER) 0 []
      (pointerState 32768 [] 4294934527) ∧
    Reachable parseInstructionSafely 32768
      (List.replicate 4294934528 NIB_INCREMENT_POINTER) 0 []
      (pointerState 32768 [] 4294934527) ∧
    (pointerState 32768 [] 4294934527).data.length =
      (pointerState 32768 [] 4294934527).dataSize ∧
    (pointerState 32768 [] 4294934527).dataIndex <
      (pointerState 32768 [] 4294934527).dataSize ∧
    (pointerState 32768 [] 4294934527).data[(pointerState 32768 [] 4294934527).dataIndex]? =
      some 0 ∧
    parseInstruction NIB_INCREMENT_POINTER 32768 (pointerState 32768 [] 4294934527) =
      .error .memoryFault ∧
    parseInstructionSafely NIB_INCREMENT_POINTER 32768 (pointerState 32768 [] 4294934527) =
      .error .memoryFault ∧
    (¬ ∃ s1, parseInstruction NIB_INCREMENT_POINTER 32768
        (pointerState 32768 [] 4294934527) = .ok ⟨s1, false, false⟩) ∧
    (¬ ∃ s1, parseInstructionSafely NIB_INCREMENT_POINTER 32768
        (pointerState 32768 [] 4294934527) = .ok ⟨s1, false, false⟩) ∧
    dispatchCycle parseInstruction 32768 (List.replicate 4294934528 NIB_INCREMENT_POINTER) 0
      (pointerState 32768 [] 4294934527) = .error .memoryFault ∧
    dispatchCycle parseInstructionSafely 32768
      (List.replicate 4294934528 NIB_INCREMENT_POINTER) 0
      (pointerState 32768 [] 4294934527) = .error .memoryFault := by
  have hstrict := pointerState_overflow parseInstruction parseInstruction_incrementPointer
    32768 4294934527 [] (by decide) (by decide) (by decide) (by decide)
  have hsafe := pointerState_overflow parseInstructionSafely
    parseInstructionSafely_incrementPointer 32768 4294934527 [] (by decide) (by decide)
    (by decide) (by decide)
  have hfetch : (List.replicate 4294934528 NIB_INCREMENT_POINTER)[
      (pointerState 32768 [] 4294934527).inputIndex]? = some NIB_INCREMENT_POINTER := by
    rw [List.getElem?_replicate]
    exact if_pos (by decide)
  refine ⟨reachable_pointerState parseInstruction parseInstruction_incrementPointer 32768
      4294934528 0 [] (by decide) 4294934527 (by decide) (by decide),
    reachable_pointerState parseInstructionSafely parseInstructionSafely_incrementPointer
      32768 4294934528 0 [] (by decide) 4294934527 (by decide) (by decide),
    pointerState_data_length _ _ _, pointerState_inside _ _ _ (by decide),
    pointerState_cell _ _ _ (by decide), hstrict, hsafe, ?_, ?_,
    dispatchCycle_parse_error _ _ _ _ _ _ _ hfetch hstrict,
    dispatchCycle_parse_error _ _ _ _ _ _ _ hfetch hsafe⟩
  · rintro ⟨s1, h⟩
    rw [hstrict] at h
    cases h
  · rintro ⟨s1, h⟩
    rw [hsafe] at h
    cases h


end Nib
